import Mathlib

/-!
# Gapless playback transport

A shallow embedding of `src/core/audio/GaplessTransport.cpp` and a
verification development over it.

Modelling conventions.

* A `Player*` that is not null is a `Player` handle; a possibly-null pointer
  is an `Option Player`.  The `std::list<Player*> active` is a `List Player`
  (only `StartWithPlayer` inserts into it, behind its `if (newPlayer)` test).
* The object is used sequentially: one member function runs to completion
  before the next starts.  The state mutex is recorded in the effect trace
  (`lockAcquire` / `lockRelease`); acquiring it always succeeds, also when the
  calling function already holds it, as `OnPlaybackAlmostEnded` and
  `OnPlaybackFinished` call `StartWithPlayer` from inside their own critical
  section.
* Every call on a collaborator (a `Player`, the `Output`) and every signal
  raised to subscribers is appended to `trace`, in program order.  Logging
  (`musik::debug::info`) is not recorded.
* `double` volumes and positions are rationals; `std::max` / `std::min` are
  `max` / `min`.
-/

/-- The three values of `PlaybackState` used by the transport. -/
inductive PlaybackState where
  | PlaybackStopped
  | PlaybackPaused
  | PlaybackPlaying
  deriving DecidableEq, Repr

/-- The kinds of stream event the transport raises. -/
inductive StreamEventType where
  | StreamScheduled
  | StreamPlaying
  | StreamAlmostDone
  | StreamFinished
  | StreamError
  deriving DecidableEq, Repr

/-- A player handle: the identity of the `Player` object and the url it was
created for (`Player::GetUrl`). -/
structure Player where
  id : Nat
  url : String
  deriving DecidableEq, Repr

/-- The observable actions of the transport: lock operations, calls on the
players and on the output, and the signals raised to subscribers. -/
inductive Effect where
  | lockAcquire
  | lockRelease
  | playerCreate (p : Player)
  | playerDestroy (p : Player)
  | playerPlay (p : Player)
  | playerPosition (p : Player)
  | playerSetPosition (p : Player) (seconds : ℚ)
  | outputResume
  | outputPause
  | outputStop
  | outputSetVolume (v : ℚ)
  | PlaybackEvent (state : PlaybackState)
  | StreamEvent (type : StreamEventType) (url : String)
  | VolumeChanged
  | TimeChanged (seconds : ℚ)
  deriving DecidableEq, Repr

/-- The fields of `GaplessTransport`, followed by two ghost fields: the number
of players created so far and the trace of effects. -/
structure GaplessTransport where
  volume : ℚ
  state : PlaybackState
  nextPlayer : Option Player
  nextCanStart : Bool
  muted : Bool
  active : List Player
  created : Nat
  trace : List Effect
  deriving DecidableEq, Repr

namespace GaplessTransport

open PlaybackState StreamEventType

/-- The constructor `GaplessTransport::GaplessTransport()`. -/
def init : GaplessTransport :=
  { volume := 1
    state := PlaybackStopped
    nextPlayer := none
    nextCanStart := false
    muted := false
    active := []
    created := 0
    trace := [] }

/-- Append one effect to the trace. -/
def emit (e : Effect) (t : GaplessTransport) : GaplessTransport :=
  { t with trace := t.trace ++ [e] }

/-- Modelled from the spec: `Player::Create(url, output, listener)`, whose
definition is in `Player.cpp`, returns a handle for `url`.  The handle is
numbered by the count of players created so far, so it differs from every
handle created before. -/
def PlayerCreate (url : String) (t : GaplessTransport) : Player × GaplessTransport :=
  let p : Player := { id := t.created, url := url }
  (p, { t with created := t.created + 1, trace := t.trace ++ [Effect.playerCreate p] })

/-- The macro `RESET_NEXT_PLAYER(instance)`. -/
def RESET_NEXT_PLAYER (t : GaplessTransport) : GaplessTransport :=
  match t.nextPlayer with
  | some p => { t.emit (Effect.playerDestroy p) with nextPlayer := none }
  | none => t

/-- `GaplessTransport::RaiseStreamEvent`. -/
def RaiseStreamEvent (type : StreamEventType) (player : Player)
    (t : GaplessTransport) : GaplessTransport :=
  t.emit (Effect.StreamEvent type player.url)

/-- `GaplessTransport::SetPlaybackState`. -/
def SetPlaybackState (state : PlaybackState) (t : GaplessTransport) : GaplessTransport :=
  let t1 := t.emit Effect.lockAcquire
  let changed := decide (t1.state ≠ state)
  let t2 := { t1 with state := state }
  let t3 := t2.emit Effect.lockRelease
  if changed then t3.emit (Effect.PlaybackEvent state) else t3

/-- `GaplessTransport::SetNextCanStart`. -/
def SetNextCanStart (nextCanStart : Bool) (t : GaplessTransport) : GaplessTransport :=
  let t1 := t.emit Effect.lockAcquire
  let t2 := { t1 with nextCanStart := nextCanStart }
  t2.emit Effect.lockRelease

/-- The `while` loop of `StopInternal` over `active`: every entry other than
`exclude` is destroyed and erased; the result is the entries kept and the
`Destroy` calls made, in order. -/
def destroyAllBut (exclude : Option Player) : List Player → List Player × List Effect
  | [] => ([], [])
  | p :: rest =>
    let r := destroyAllBut exclude rest
    if some p ≠ exclude then (r.1, Effect.playerDestroy p :: r.2) else (p :: r.1, r.2)

/-- `GaplessTransport::StopInternal`. -/
def StopInternal (suppressStopEvent stopOutput : Bool) (exclude : Option Player)
    (t : GaplessTransport) : GaplessTransport :=
  let t1 :=
    if stopOutput then
      let a := t.emit Effect.lockAcquire
      let b := a.RESET_NEXT_PLAYER
      let r := destroyAllBut exclude b.active
      let c := { b with active := r.1, trace := b.trace ++ r.2 }
      let d := c.emit Effect.lockRelease
      d.emit Effect.outputStop
    else t
  if !suppressStopEvent then t1.SetPlaybackState PlaybackStopped else t1

/-- `GaplessTransport::Stop`. -/
def Stop (t : GaplessTransport) : GaplessTransport :=
  t.StopInternal false true none

/-- `GaplessTransport::StartWithPlayer`. -/
def StartWithPlayer (newPlayer : Option Player) (t : GaplessTransport) : GaplessTransport :=
  match newPlayer with
  | none => t
  | some p =>
    let t1 := t.emit Effect.lockAcquire
    let playingNext := decide (some p = t1.nextPlayer)
    let t2 :=
      match t1.nextPlayer with
      | some q => if p ≠ q then t1.emit (Effect.playerDestroy q) else t1
      | none => t1
    let t3 := { t2 with nextPlayer := none, active := t2.active ++ [p] }
    let t4 := t3.emit Effect.lockRelease
    let t5 := t4.StopInternal true (!playingNext) (some p)
    let t6 := t5.SetNextCanStart false
    let t7 := t6.emit Effect.outputResume
    let t8 := t7.emit (Effect.playerPlay p)
    t8.RaiseStreamEvent StreamScheduled p

/-- `GaplessTransport::PrepareNextTrack`. -/
def PrepareNextTrack (trackUrl : String) (t : GaplessTransport) : GaplessTransport :=
  let t1 := t.emit Effect.lockAcquire
  let t2 := t1.RESET_NEXT_PLAYER
  let r := t2.PlayerCreate trackUrl
  let t3 := { r.2 with nextPlayer := some r.1 }
  let startNext := t3.nextCanStart
  let t4 := t3.emit Effect.lockRelease
  if startNext then t4.StartWithPlayer t4.nextPlayer else t4

/-- `GaplessTransport::Start`. -/
def Start (url : String) (t : GaplessTransport) : GaplessTransport :=
  let r := t.PlayerCreate url
  r.2.StartWithPlayer (some r.1)

/-- `GaplessTransport::GetPlaybackState`. -/
def GetPlaybackState (t : GaplessTransport) : PlaybackState × GaplessTransport :=
  let t1 := t.emit Effect.lockAcquire
  (t1.state, t1.emit Effect.lockRelease)

/-- `GaplessTransport::Pause`. -/
def Pause (t : GaplessTransport) : Bool × GaplessTransport :=
  let t1 := t.emit Effect.outputPause
  let t2 := t1.emit Effect.lockAcquire
  let count := t2.active.length
  let t3 := t2.emit Effect.lockRelease
  if count ≠ 0 then (true, t3.SetPlaybackState PlaybackPaused) else (false, t3)

/-- `GaplessTransport::Resume`. -/
def Resume (t : GaplessTransport) : Bool × GaplessTransport :=
  let t1 := t.emit Effect.outputResume
  let t2 := t1.emit Effect.lockAcquire
  let count := t2.active.length
  let t3 := { t2 with trace := t2.trace ++ t2.active.map Effect.playerPlay }
  let t4 := t3.emit Effect.lockRelease
  if count ≠ 0 then (true, t4.SetPlaybackState PlaybackPlaying) else (false, t4)

/-- `GaplessTransport::Position`; `playerPosition` is what `Player::Position`
answers. -/
def Position (playerPosition : Player → ℚ) (t : GaplessTransport) : ℚ × GaplessTransport :=
  let t1 := t.emit Effect.lockAcquire
  match t1.active with
  | front :: _ =>
    (playerPosition front, (t1.emit (Effect.playerPosition front)).emit Effect.lockRelease)
  | [] => (0, t1.emit Effect.lockRelease)

/-- `GaplessTransport::SetPosition`. -/
def SetPosition (seconds : ℚ) (t : GaplessTransport) : GaplessTransport :=
  let t1 := t.emit Effect.lockAcquire
  let t2 :=
    match t1.active with
    | front :: _ =>
      (t1.emit (Effect.playerSetPosition front seconds)).emit (Effect.TimeChanged seconds)
    | [] => t1
  t2.emit Effect.lockRelease

/-- `GaplessTransport::IsMuted`. -/
def IsMuted (t : GaplessTransport) : Bool :=
  t.muted

/-- `GaplessTransport::SetMuted`. -/
def SetMuted (muted : Bool) (t : GaplessTransport) : GaplessTransport :=
  if t.muted ≠ muted then
    let t1 := { t with muted := muted }
    let t2 := t1.emit (Effect.outputSetVolume (if muted then 0 else t1.volume))
    t2.emit Effect.VolumeChanged
  else t

/-- `GaplessTransport::Volume`. -/
def Volume (t : GaplessTransport) : ℚ :=
  t.volume

/-- `GaplessTransport::SetVolume`. -/
def SetVolume (volume : ℚ) (t : GaplessTransport) : GaplessTransport :=
  let oldVolume := t.volume
  let volume := max 0 (min 1 volume)
  let t1 := { t with volume := volume }
  let t2 := if oldVolume ≠ t1.volume then t1.emit Effect.VolumeChanged else t1
  t2.emit (Effect.outputSetVolume t2.volume)

/-- `GaplessTransport::RemoveFromActive`: `std::find` and `erase` remove the
first occurrence. -/
def RemoveFromActive (player : Player) (t : GaplessTransport) : GaplessTransport :=
  let t1 := t.emit Effect.lockAcquire
  let found := decide (player ∈ t1.active)
  let t2 := if found then { t1 with active := t1.active.erase player } else t1
  let t3 := t2.emit Effect.lockRelease
  if found then t3.emit (Effect.playerDestroy player) else t3

/-- `GaplessTransport::OnPlaybackStarted`. -/
def OnPlaybackStarted (player : Player) (t : GaplessTransport) : GaplessTransport :=
  (t.RaiseStreamEvent StreamPlaying player).SetPlaybackState PlaybackPlaying

/-- `GaplessTransport::OnPlaybackAlmostEnded`. -/
def OnPlaybackAlmostEnded (player : Player) (t : GaplessTransport) : GaplessTransport :=
  let t1 := t.SetNextCanStart true
  let t2 := t1.emit Effect.lockAcquire
  let t3 := if t2.nextPlayer.isSome then t2.StartWithPlayer t2.nextPlayer else t2
  let t4 := t3.emit Effect.lockRelease
  t4.RaiseStreamEvent StreamAlmostDone player

/-- `GaplessTransport::OnPlaybackFinished`. -/
def OnPlaybackFinished (player : Player) (t : GaplessTransport) : GaplessTransport :=
  let t1 := t.RaiseStreamEvent StreamFinished player
  let t2 := t1.emit Effect.lockAcquire
  let count := t2.active.length
  let front : Option Player := if count ≠ 0 then t2.active.head? else none
  let playerIsFront := decide (some player = front)
  let startedNext := t2.nextPlayer.isSome && playerIsFront
  let t3 := if startedNext then t2.StartWithPlayer t2.nextPlayer else t2
  let stopped :=
    if !startedNext then decide (count = 0) || (decide (count = 1) && playerIsFront)
    else false
  let t4 := t3.emit Effect.lockRelease
  let t5 := if stopped then t4.Stop else t4
  t5.RemoveFromActive player

/-- `GaplessTransport::OnPlaybackError`. -/
def OnPlaybackError (player : Player) (t : GaplessTransport) : GaplessTransport :=
  ((t.RaiseStreamEvent StreamError player).SetPlaybackState PlaybackStopped).RemoveFromActive
    player

/-! ## Observations on traces and states -/

/-- The effects appended to the trace on the way from `t` to the later `t'`. -/
def effectsSince (t t' : GaplessTransport) : List Effect :=
  t'.trace.drop t.trace.length

/-- The player of a `Player::Destroy` call. -/
def destroyed? : Effect → Option Player
  | Effect.playerDestroy p => some p
  | _ => none

/-- The player of a `Player::Play` call. -/
def played? : Effect → Option Player
  | Effect.playerPlay p => some p
  | _ => none

/-- The player returned by a `Player::Create` call. -/
def created? : Effect → Option Player
  | Effect.playerCreate p => some p
  | _ => none

/-- The state carried by a playback-state-changed notification. -/
def playbackState? : Effect → Option PlaybackState
  | Effect.PlaybackEvent s => some s
  | _ => none

/-- The kind and url of a stream event. -/
def streamEvent? : Effect → Option (StreamEventType × String)
  | Effect.StreamEvent k u => some (k, u)
  | _ => none

/-- Whether the effect is a call on the output. -/
def isOutputCall : Effect → Bool
  | Effect.outputResume => true
  | Effect.outputPause => true
  | Effect.outputStop => true
  | Effect.outputSetVolume _ => true
  | _ => false

/-- The players on which `Destroy` is called, in order, one entry per call. -/
def destroyCalls (es : List Effect) : List Player :=
  es.filterMap destroyed?

/-- The players on which `Play` is called, in order. -/
def playCalls (es : List Effect) : List Player :=
  es.filterMap played?

/-- The players created, in order. -/
def createCalls (es : List Effect) : List Player :=
  es.filterMap created?

/-- The playback-state-changed notifications, in order. -/
def playbackEvents (es : List Effect) : List PlaybackState :=
  es.filterMap playbackState?

/-- The stream events, in order. -/
def streamEvents (es : List Effect) : List (StreamEventType × String) :=
  es.filterMap streamEvent?

/-- The calls on the output, in order. -/
def outputCalls (es : List Effect) : List Effect :=
  es.filter isOutputCall

/-- The handles the transport holds: the pending player, then the active
players, one entry per slot. -/
def held (t : GaplessTransport) : List Player :=
  t.nextPlayer.toList ++ t.active

/-- The argument of an `Output.SetVolume` call. -/
def outputVolume? : Effect → Option ℚ
  | Effect.outputSetVolume v => some v
  | _ => none

/-- The volumes sent to the output, in order; the last one is the volume the
output holds. -/
def outputVolumes (es : List Effect) : List ℚ :=
  es.filterMap outputVolume?

/-- The effects of a trace that are made while the state lock is held and
should not be: a `Destroy`, an `Output.Stop`, or a further acquisition of the
lock.  `depth` is the number of acquisitions not yet released. -/
def lockViolations : Nat → List Effect → List Effect
  | _, [] => []
  | depth, Effect.lockAcquire :: es =>
    (if depth = 0 then [] else [Effect.lockAcquire]) ++ lockViolations (depth + 1) es
  | depth, Effect.lockRelease :: es => lockViolations (depth - 1) es
  | depth, Effect.playerDestroy p :: es =>
    (if depth = 0 then [] else [Effect.playerDestroy p]) ++ lockViolations depth es
  | depth, Effect.outputStop :: es =>
    (if depth = 0 then [] else [Effect.outputStop]) ++ lockViolations depth es
  | depth, _ :: es => lockViolations depth es

/-! ## Sequences of operations -/

/-- The public operations of the transport and the listener callbacks the
players deliver to it. -/
inductive Op where
  | Start (url : String)
  | PrepareNextTrack (url : String)
  | Stop
  | Pause
  | Resume
  | GetPlaybackState
  | Position
  | SetPosition (seconds : ℚ)
  | IsMuted
  | SetMuted (muted : Bool)
  | Volume
  | SetVolume (volume : ℚ)
  | OnPlaybackStarted (player : Player)
  | OnPlaybackAlmostEnded (player : Player)
  | OnPlaybackFinished (player : Player)
  | OnPlaybackError (player : Player)
  deriving DecidableEq, Repr

/-- Run one operation or callback; a returned value is dropped.  `Position`
is run with players that answer `0`: the answer has no influence on the
transport. -/
def step (op : Op) (t : GaplessTransport) : GaplessTransport :=
  match op with
  | Op.Start url => t.Start url
  | Op.PrepareNextTrack url => t.PrepareNextTrack url
  | Op.Stop => t.Stop
  | Op.Pause => t.Pause.2
  | Op.Resume => t.Resume.2
  | Op.GetPlaybackState => t.GetPlaybackState.2
  | Op.Position => (t.Position (fun _ => 0)).2
  | Op.SetPosition seconds => t.SetPosition seconds
  | Op.IsMuted => t
  | Op.SetMuted muted => t.SetMuted muted
  | Op.Volume => t
  | Op.SetVolume volume => t.SetVolume volume
  | Op.OnPlaybackStarted player => t.OnPlaybackStarted player
  | Op.OnPlaybackAlmostEnded player => t.OnPlaybackAlmostEnded player
  | Op.OnPlaybackFinished player => t.OnPlaybackFinished player
  | Op.OnPlaybackError player => t.OnPlaybackError player

/-- Run a sequence of operations and callbacks, one after the other. -/
def run (ops : List Op) (t : GaplessTransport) : GaplessTransport :=
  ops.foldl (fun s op => step op s) t

/-- From `t` to `t'` the trace was only extended, with no
playback-state-changed notification, and the stored state is the same. -/
def Quiet (t t' : GaplessTransport) : Prop :=
  t'.state = t.state ∧ ∃ E, t'.trace = t.trace ++ E ∧ playbackEvents E = []

/-- From `t` to `t'` the trace was only extended, with one
playback-state-changed notification carrying the new stored state when that
differs from the old one, and with none when it does not. -/
def AtMostOne (t t' : GaplessTransport) : Prop :=
  ∃ E, t'.trace = t.trace ++ E ∧
    playbackEvents E = if t'.state = t.state then [] else [t'.state]

/-- The ownership invariant: no handle is held twice (the active set has no
duplicate and the pending player is not active), and every held handle was
created earlier, so that the next handle `Player::Create` returns is fresh. -/
def Owned (t : GaplessTransport) : Prop :=
  t.held.Nodup ∧ ∀ p ∈ t.held, p.id < t.created

/-- The start gate and the pending slot agree: when `nextCanStart` is true no
player is pending. -/
def GateOK (t : GaplessTransport) : Prop :=
  t.nextCanStart = true → t.nextPlayer = none

/-- The url of a Scheduled stream event, the event `StartWithPlayer` raises
when it has started a player. -/
def scheduled? : Effect → Option String
  | Effect.StreamEvent StreamScheduled u => some u
  | _ => none

/-- The urls of the players started, in order. -/
def scheduledUrls (es : List Effect) : List String :=
  es.filterMap scheduled?

/-- In the trace no `Play` is called on a player after a `Destroy` of that
player. -/
def PlayBeforeDestroy (tr : List Effect) : Prop :=
  ∀ pre post p, tr = pre ++ Effect.playerPlay p :: post → p ∉ destroyCalls pre

/-- The ownership invariant together with its history: no handle is held
twice, held handles were created earlier, no player is destroyed twice, a
destroyed player is not held (and was created earlier), and no `Play` follows
a `Destroy` of the same player. -/
def Safe (t : GaplessTransport) : Prop :=
  Owned t ∧ (destroyCalls t.trace).Nodup ∧
    (∀ p ∈ destroyCalls t.trace, p ∉ t.held ∧ p.id < t.created) ∧
    PlayBeforeDestroy t.trace

/-! ## Example states -/

/-- The player `Start "A"` creates from the initial state. -/
def playerA : Player := { id := 0, url := "A" }

/-- The player `PrepareNextTrack "B"` creates after that. -/
def playerB : Player := { id := 1, url := "B" }

/-- `Start("A")`, then `OnPlaybackStarted(A)`. -/
def playingA : GaplessTransport :=
  (init.Start "A").OnPlaybackStarted playerA

/-- `Start("A")`, `OnPlaybackStarted(A)`, then `PrepareNextTrack("B")`. -/
def preparedB : GaplessTransport :=
  playingA.PrepareNextTrack "B"

/-- `Start("A")`, `OnPlaybackStarted(A)`, `PrepareNextTrack("B")`, then
`OnPlaybackError(B)`: the pending player reports an error while `A` plays. -/
def erroredB : GaplessTransport :=
  preparedB.OnPlaybackError playerB

/-- The gapless commit: `Start("A")`, `OnPlaybackStarted(A)`,
`PrepareNextTrack("B")`, then `OnPlaybackAlmostEnded(A)`. -/
def committedB : GaplessTransport :=
  preparedB.OnPlaybackAlmostEnded playerA

/-- The player `PrepareNextTrack "C"` creates after `A` and `B`. -/
def playerC : Player := { id := 2, url := "C" }

/-- The gapless commit scenario followed by `PrepareNextTrack("C")`: `A` and
`B` are active and `C` is pending. -/
def preparedC : GaplessTransport :=
  committedB.PrepareNextTrack "C"

/-- `Start("A")`, `OnPlaybackError(A)`, then `PrepareNextTrack("B")`: no player
is active and `B` is pending. -/
def pendingOnlyB : GaplessTransport :=
  ((init.Start "A").OnPlaybackError playerA).PrepareNextTrack "B"

/-- `Start("A")`, `OnPlaybackStarted(A)`, then `OnPlaybackAlmostEnded(A)` with
nothing pending: the start gate is left open. -/
def almostEndedA : GaplessTransport :=
  playingA.OnPlaybackAlmostEnded playerA

/-- `SetMuted(true)` from the initial state. -/
def mutedInit : GaplessTransport :=
  init.SetMuted true

/-- `SetVolume(0.6)` from the initial state. -/
def volumeSet : GaplessTransport :=
  init.SetVolume (3 / 5)

/-- What one operation `op`, taking `t` to `t'`, does to the start gate: if it
started a player the gate is closed afterwards, and if it changed the gate it
either started a player or is an `OnPlaybackAlmostEnded` callback. -/
def GateStep (op : Op) (t t' : GaplessTransport) : Prop :=
  (scheduledUrls (effectsSince t t') ≠ [] → t'.nextCanStart = false) ∧
  (t'.nextCanStart ≠ t.nextCanStart →
    scheduledUrls (effectsSince t t') ≠ [] ∨ ∃ p, op = Op.OnPlaybackAlmostEnded p)

/-! ## Lemmas on the loop of `StopInternal` -/

theorem destroyAllBut_eq (ex : Option Player) (l : List Player) :
    destroyAllBut ex l =
      (l.filter (fun p => decide (some p = ex)),
        (l.filter (fun p => decide (some p ≠ ex))).map Effect.playerDestroy) := by
  induction l with
  | nil => rfl
  | cons p rest ih =>
    by_cases h : some p = ex <;> simp [destroyAllBut, ih, h]

theorem destroyAllBut_none (l : List Player) :
    destroyAllBut none l = ([], l.map Effect.playerDestroy) := by
  induction l with
  | nil => rfl
  | cons p rest ih => simp [destroyAllBut, ih]

theorem destroyAllBut_append_self (n : Player) (l : List Player) (h : n ∉ l) :
    destroyAllBut (some n) (l ++ [n]) = ([n], l.map Effect.playerDestroy) := by
  induction l with
  | nil => simp [destroyAllBut]
  | cons p rest ih =>
    have hp : p ≠ n := fun e => h (e ▸ List.mem_cons_self _ _)
    have hr : n ∉ rest := fun m => h (List.mem_cons_of_mem _ m)
    simp [destroyAllBut, ih hr, hp]

/-! ## Lemmas on the observations of a run of `Destroy` or `Play` calls -/

theorem filterMap_destroyed_destroy (l : List Player) :
    List.filterMap (destroyed? ∘ Effect.playerDestroy) l = l := by
  induction l with
  | nil => rfl
  | cons p rest ih => simp [destroyed?, ih]

theorem filterMap_played_destroy (l : List Player) :
    List.filterMap (played? ∘ Effect.playerDestroy) l = [] := by
  induction l with
  | nil => rfl
  | cons p rest ih => simp [played?, ih]

theorem filterMap_created_destroy (l : List Player) :
    List.filterMap (created? ∘ Effect.playerDestroy) l = [] := by
  induction l with
  | nil => rfl
  | cons p rest ih => simp [created?, ih]

theorem filterMap_playbackState_destroy (l : List Player) :
    List.filterMap (playbackState? ∘ Effect.playerDestroy) l = [] := by
  induction l with
  | nil => rfl
  | cons p rest ih => simp [playbackState?, ih]

theorem filterMap_streamEvent_destroy (l : List Player) :
    List.filterMap (streamEvent? ∘ Effect.playerDestroy) l = [] := by
  induction l with
  | nil => rfl
  | cons p rest ih => simp [streamEvent?, ih]

theorem filter_isOutputCall_destroy (l : List Player) :
    List.filter (isOutputCall ∘ Effect.playerDestroy) l = [] := by
  induction l with
  | nil => rfl
  | cons p rest ih => simp [isOutputCall, ih]

theorem filterMap_destroyed_play (l : List Player) :
    List.filterMap (destroyed? ∘ Effect.playerPlay) l = [] := by
  induction l with
  | nil => rfl
  | cons p rest ih => simp [destroyed?, ih]

theorem filterMap_playbackState_play (l : List Player) :
    List.filterMap (playbackState? ∘ Effect.playerPlay) l = [] := by
  induction l with
  | nil => rfl
  | cons p rest ih => simp [playbackState?, ih]

/-! ## What each operation does, case by case -/

theorem OnPlaybackAlmostEnded_pending (t : GaplessTransport) (n p : Player)
    (h : t.nextPlayer = some n) :
    t.OnPlaybackAlmostEnded p =
      { t with
        nextPlayer := none
        nextCanStart := false
        active := t.active ++ [n]
        trace := t.trace ++ [Effect.lockAcquire, Effect.lockRelease, Effect.lockAcquire,
          Effect.lockAcquire, Effect.lockRelease, Effect.lockAcquire, Effect.lockRelease,
          Effect.outputResume, Effect.playerPlay n,
          Effect.StreamEvent StreamScheduled n.url, Effect.lockRelease,
          Effect.StreamEvent StreamAlmostDone p.url] } := by
  simp [OnPlaybackAlmostEnded, StartWithPlayer, StopInternal, SetNextCanStart, emit,
    RaiseStreamEvent, h]

theorem Start_fresh (t : GaplessTransport) (url : String)
    (hfresh : (t.PlayerCreate url).1 ∉ t.held) :
    t.Start url =
      { t with
        nextPlayer := none
        nextCanStart := false
        active := [(t.PlayerCreate url).1]
        created := t.created + 1
        trace := t.trace ++ [Effect.playerCreate (t.PlayerCreate url).1, Effect.lockAcquire]
          ++ t.nextPlayer.toList.map Effect.playerDestroy
          ++ [Effect.lockRelease, Effect.lockAcquire]
          ++ t.active.map Effect.playerDestroy
          ++ [Effect.lockRelease, Effect.outputStop, Effect.lockAcquire, Effect.lockRelease,
            Effect.outputResume, Effect.playerPlay (t.PlayerCreate url).1,
            Effect.StreamEvent StreamScheduled url] } := by
  simp only [held, List.mem_append, not_or, Option.mem_toList, Option.mem_def] at hfresh
  obtain ⟨h1, h2⟩ := hfresh
  have h2x : ({ id := t.created, url := url } : Player) ∉ t.active := h2
  cases hn : t.nextPlayer with
  | none =>
    simp [Start, StartWithPlayer, StopInternal, SetNextCanStart, emit, RaiseStreamEvent,
      PlayerCreate, RESET_NEXT_PLAYER, destroyAllBut_append_self _ _ h2x, hn]
  | some q =>
    have hq : ({ id := t.created, url := url } : Player) ≠ q := by
      intro e; apply h1; rw [hn, ← e]; rfl
    have hq2 : ¬ (q = ({ id := t.created, url := url } : Player)) := fun e => hq e.symm
    simp [Start, StartWithPlayer, StopInternal, SetNextCanStart, emit, RaiseStreamEvent,
      PlayerCreate, RESET_NEXT_PLAYER, destroyAllBut_append_self _ _ h2x, hn, hq, hq2]

theorem OnPlaybackFinished_last (t : GaplessTransport) (p : Player)
    (ha : t.active = [p]) (hn : t.nextPlayer = none) :
    t.OnPlaybackFinished p =
      { t with
        state := PlaybackStopped
        active := []
        trace := t.trace ++ [Effect.StreamEvent StreamFinished p.url, Effect.lockAcquire,
            Effect.lockRelease, Effect.lockAcquire, Effect.playerDestroy p, Effect.lockRelease,
            Effect.outputStop, Effect.lockAcquire, Effect.lockRelease]
          ++ (if t.state = PlaybackStopped then [] else [Effect.PlaybackEvent PlaybackStopped])
          ++ [Effect.lockAcquire, Effect.lockRelease] } := by
  by_cases hs : t.state = PlaybackStopped <;>
  simp [OnPlaybackFinished, Stop, StopInternal, SetPlaybackState, RemoveFromActive, emit,
    RaiseStreamEvent, RESET_NEXT_PLAYER, destroyAllBut, ha, hn, hs]

theorem OnPlaybackFinished_other (t : GaplessTransport) (p : Player)
    (hp : p ∈ t.active) (hlen : 2 ≤ t.active.length) (hn : t.nextPlayer = none) :
    t.OnPlaybackFinished p =
      { t with
        active := t.active.erase p
        trace := t.trace ++ [Effect.StreamEvent StreamFinished p.url, Effect.lockAcquire,
            Effect.lockRelease, Effect.lockAcquire, Effect.lockRelease,
            Effect.playerDestroy p] } := by
  have h0 : t.active ≠ [] := by
    intro h; rw [h] at hlen; simp at hlen
  have h1 : t.active.length ≠ 1 := by omega
  simp [OnPlaybackFinished, Stop, StopInternal, SetPlaybackState, RemoveFromActive, emit,
    RaiseStreamEvent, RESET_NEXT_PLAYER, hn, hp, h0, h1]

theorem two_le_length_of_mem_ne {p q : Player} {l : List Player}
    (hp : p ∈ l) (hq : q ∈ l) (hqp : q ≠ p) : 2 ≤ l.length := by
  match l, hp, hq with
  | [a], hp, hq =>
    simp only [List.mem_singleton] at hp hq
    exact absurd (hq.trans hp.symm) hqp
  | _ :: _ :: _, _, _ => simp

theorem OnPlaybackFinished_front_pending (t : GaplessTransport) (n p : Player)
    (h : t.nextPlayer = some n) (hf : t.active.head? = some p) :
    t.OnPlaybackFinished p =
      { t with
        nextPlayer := none
        nextCanStart := false
        active := t.active.erase p ++ [n]
        trace := t.trace ++ [Effect.StreamEvent StreamFinished p.url, Effect.lockAcquire,
            Effect.lockAcquire, Effect.lockRelease, Effect.lockAcquire, Effect.lockRelease,
            Effect.outputResume, Effect.playerPlay n,
            Effect.StreamEvent StreamScheduled n.url, Effect.lockRelease,
            Effect.lockAcquire, Effect.lockRelease, Effect.playerDestroy p] } := by
  obtain ⟨tl, htl⟩ : ∃ tl, t.active = p :: tl := by
    cases ha : t.active with
    | nil => rw [ha] at hf; simp at hf
    | cons a tl => rw [ha] at hf; simp at hf; exact ⟨tl, by rw [hf]⟩
  simp [OnPlaybackFinished, StartWithPlayer, StopInternal, SetNextCanStart, RemoveFromActive,
    emit, RaiseStreamEvent, h, htl]

theorem OnPlaybackFinished_nonfront_pending (t : GaplessTransport) (n p : Player)
    (h : t.nextPlayer = some n) (hf : t.active.head? ≠ some p) (hne : t.active ≠ []) :
    t.OnPlaybackFinished p =
      { t with
        active := t.active.erase p
        trace := t.trace ++ [Effect.StreamEvent StreamFinished p.url, Effect.lockAcquire,
            Effect.lockRelease, Effect.lockAcquire, Effect.lockRelease]
          ++ (if p ∈ t.active then [Effect.playerDestroy p] else []) } := by
  have hf2 : ¬ (some p = t.active.head?) := fun e => hf e.symm
  by_cases hp : p ∈ t.active
  · simp [OnPlaybackFinished, RemoveFromActive, emit, RaiseStreamEvent, h, hf2, hne, hp]
  · simp [OnPlaybackFinished, RemoveFromActive, emit, RaiseStreamEvent, h, hf2, hne, hp,
      List.erase_of_not_mem hp]

theorem OnPlaybackFinished_empty_pending (t : GaplessTransport) (n p : Player)
    (h : t.nextPlayer = some n) (ha : t.active = []) :
    t.OnPlaybackFinished p =
      { t with
        state := PlaybackStopped
        nextPlayer := none
        trace := t.trace ++ [Effect.StreamEvent StreamFinished p.url, Effect.lockAcquire,
            Effect.lockRelease, Effect.lockAcquire, Effect.playerDestroy n, Effect.lockRelease,
            Effect.outputStop, Effect.lockAcquire, Effect.lockRelease]
          ++ (if t.state = PlaybackStopped then [] else [Effect.PlaybackEvent PlaybackStopped])
          ++ [Effect.lockAcquire, Effect.lockRelease] } := by
  by_cases hs : t.state = PlaybackStopped <;>
  simp [OnPlaybackFinished, Stop, StopInternal, SetPlaybackState, RemoveFromActive, emit,
    RaiseStreamEvent, RESET_NEXT_PLAYER, destroyAllBut, ha, h, hs]

theorem PrepareNextTrack_closed (t : GaplessTransport) (u : String)
    (h : t.nextCanStart = false) :
    t.PrepareNextTrack u =
      { t with
        nextPlayer := some { id := t.created, url := u }
        created := t.created + 1
        trace := t.trace ++ [Effect.lockAcquire]
          ++ t.nextPlayer.toList.map Effect.playerDestroy
          ++ [Effect.playerCreate { id := t.created, url := u }, Effect.lockRelease] } := by
  cases hn : t.nextPlayer <;>
    simp [PrepareNextTrack, RESET_NEXT_PLAYER, PlayerCreate, emit, h, hn]

theorem PrepareNextTrack_open (t : GaplessTransport) (u : String)
    (h : t.nextCanStart = true) :
    t.PrepareNextTrack u =
      { t with
        nextPlayer := none
        nextCanStart := false
        active := t.active ++ [{ id := t.created, url := u }]
        created := t.created + 1
        trace := t.trace ++ [Effect.lockAcquire]
          ++ t.nextPlayer.toList.map Effect.playerDestroy
          ++ [Effect.playerCreate { id := t.created, url := u }, Effect.lockRelease,
            Effect.lockAcquire, Effect.lockRelease, Effect.lockAcquire, Effect.lockRelease,
            Effect.outputResume, Effect.playerPlay { id := t.created, url := u },
            Effect.StreamEvent StreamScheduled u] } := by
  cases hn : t.nextPlayer <;>
    simp [PrepareNextTrack, RESET_NEXT_PLAYER, PlayerCreate, StartWithPlayer, StopInternal,
      SetNextCanStart, RaiseStreamEvent, emit, h, hn]

theorem OnPlaybackError_eq (t : GaplessTransport) (p : Player) :
    t.OnPlaybackError p =
      { t with
        state := PlaybackStopped
        active := t.active.erase p
        trace := t.trace ++ [Effect.StreamEvent StreamError p.url, Effect.lockAcquire,
            Effect.lockRelease]
          ++ (if t.state = PlaybackStopped then [] else [Effect.PlaybackEvent PlaybackStopped])
          ++ [Effect.lockAcquire, Effect.lockRelease]
          ++ (if p ∈ t.active then [Effect.playerDestroy p] else []) } := by
  by_cases hs : t.state = PlaybackStopped <;> by_cases hp : p ∈ t.active <;>
    simp [OnPlaybackError, SetPlaybackState, RemoveFromActive, RaiseStreamEvent, emit, hs, hp,
      List.erase_of_not_mem]

theorem Stop_eq (t : GaplessTransport) :
    t.Stop =
      { t with
        state := PlaybackStopped
        nextPlayer := none
        active := []
        trace := t.trace ++ [Effect.lockAcquire]
          ++ t.nextPlayer.toList.map Effect.playerDestroy
          ++ t.active.map Effect.playerDestroy
          ++ [Effect.lockRelease, Effect.outputStop, Effect.lockAcquire, Effect.lockRelease]
          ++ (if t.state = PlaybackStopped then []
              else [Effect.PlaybackEvent PlaybackStopped]) } := by
  by_cases hs : t.state = PlaybackStopped <;> cases hn : t.nextPlayer <;>
    simp [Stop, StopInternal, SetPlaybackState, RESET_NEXT_PLAYER, emit, destroyAllBut_none,
      hs, hn]

/-! ## The gapless commit -/

/-- C1 — gapless commit.  In every state with a pending next player `n`, and
for every player `p`, `OnPlaybackAlmostEnded(p)` starts `n` and cuts nothing:
the active set becomes the old one with `n` appended (so every player that was
active is still a member), the pending slot is empty, `nextCanStart` is false,
the playback state is unchanged, no `Destroy` and no `Output.Stop` is issued,
`n.Play` is called and a Scheduled stream event for the url of `n` is raised. -/
theorem OnPlaybackAlmostEnded_commits (t : GaplessTransport) (n p : Player)
    (h : t.nextPlayer = some n) :
    (t.OnPlaybackAlmostEnded p).active = t.active ++ [n] ∧
    (∀ q ∈ t.active, q ∈ (t.OnPlaybackAlmostEnded p).active) ∧
    (t.OnPlaybackAlmostEnded p).nextPlayer = none ∧
    (t.OnPlaybackAlmostEnded p).nextCanStart = false ∧
    (t.OnPlaybackAlmostEnded p).state = t.state ∧
    destroyCalls (effectsSince t (t.OnPlaybackAlmostEnded p)) = [] ∧
    Effect.outputStop ∉ effectsSince t (t.OnPlaybackAlmostEnded p) ∧
    playCalls (effectsSince t (t.OnPlaybackAlmostEnded p)) = [n] ∧
    Effect.StreamEvent StreamScheduled n.url ∈ effectsSince t (t.OnPlaybackAlmostEnded p) := by
  rw [OnPlaybackAlmostEnded_pending t n p h]
  simp [effectsSince, destroyCalls, playCalls, destroyed?, played?]
  intro q hq
  exact Or.inl hq

/-- In the scenario `Start("A")`, `OnPlaybackStarted(A)`, `PrepareNextTrack("B")`,
`OnPlaybackAlmostEnded(A)`: `B` is pending before the callback, and after it
the state is still Playing, `A` and `B` are both active and `B` was played. -/
theorem OnPlaybackAlmostEnded_commits_witness :
    preparedB.nextPlayer = some playerB ∧
    preparedB.state = PlaybackPlaying ∧
    committedB.state = PlaybackPlaying ∧
    committedB.active = [playerA, playerB] ∧
    playCalls (effectsSince preparedB committedB) = [playerB] :=
  have h := OnPlaybackAlmostEnded_commits preparedB playerB playerA (by decide)
  ⟨by decide, by decide, h.2.2.2.2.1.trans (by decide), h.1.trans (by decide),
    h.2.2.2.2.2.2.2.1⟩

/-! ## Start -/

/-- C2 — hard cut on `Start`.  In every state, when the handle `n` that
`Player::Create` returns is fresh (not held by the transport), `Start(url)`
leaves the active set equal to `[n]`, the pending slot empty and `nextCanStart`
false; `Destroy` is called once for each held entry (pending player, then the
active ones), hence exactly once on every player that was active or pending
when no handle was held twice; the calls on the output are `Stop` and then
`Resume`; `Play` is called on `n` only; the one stream event raised is
Scheduled(url); the playback state is unchanged and no playback-state-changed
notification is raised. -/
theorem Start_hard_cut (t : GaplessTransport) (url : String)
    (hfresh : (t.PlayerCreate url).1 ∉ t.held) :
    (t.Start url).active = [(t.PlayerCreate url).1] ∧
    (t.Start url).nextPlayer = none ∧
    (t.Start url).nextCanStart = false ∧
    destroyCalls (effectsSince t (t.Start url)) = t.held ∧
    (t.held.Nodup →
      ∀ q ∈ t.held, (destroyCalls (effectsSince t (t.Start url))).count q = 1) ∧
    outputCalls (effectsSince t (t.Start url)) = [Effect.outputStop, Effect.outputResume] ∧
    playCalls (effectsSince t (t.Start url)) = [(t.PlayerCreate url).1] ∧
    streamEvents (effectsSince t (t.Start url)) = [(StreamScheduled, url)] ∧
    (t.Start url).state = t.state ∧
    playbackEvents (effectsSince t (t.Start url)) = [] := by
  have hd : destroyCalls (effectsSince t (t.Start url)) = t.held := by
    rw [Start_fresh t url hfresh]
    cases hn : t.nextPlayer <;>
      simp [effectsSince, destroyCalls, destroyed?, held, hn, List.filterMap_append,
        List.filterMap_map, filterMap_destroyed_destroy]
  refine ⟨?_, ?_, ?_, hd, ?_, ?_, ?_, ?_, ?_, ?_⟩
  · rw [Start_fresh t url hfresh]
  · rw [Start_fresh t url hfresh]
  · rw [Start_fresh t url hfresh]
  · intro hnd q hq
    rw [hd]
    exact List.count_eq_one_of_mem hnd hq
  · rw [Start_fresh t url hfresh]
    simp [effectsSince, outputCalls, isOutputCall, List.filter_append, List.filter_map,
      filter_isOutputCall_destroy]
  · rw [Start_fresh t url hfresh]
    simp [effectsSince, playCalls, played?, List.filterMap_append, List.filterMap_map,
      filterMap_played_destroy]
  · rw [Start_fresh t url hfresh]
    simp [effectsSince, streamEvents, streamEvent?, List.filterMap_append, List.filterMap_map,
      filterMap_streamEvent_destroy]
  · rw [Start_fresh t url hfresh]
  · rw [Start_fresh t url hfresh]
    simp [effectsSince, playbackEvents, playbackState?, List.filterMap_append,
      List.filterMap_map, filterMap_playbackState_destroy]

/-- In the state after `Start("A")`, `OnPlaybackStarted(A)`,
`PrepareNextTrack("B")`, where `A` is active and `B` pending, `Start("C")`
creates a fresh handle, destroys `B` and `A` once each and leaves only the new
player active. -/
theorem Start_hard_cut_witness :
    (preparedB.PlayerCreate "C").1 ∉ preparedB.held ∧
    preparedB.held.Nodup ∧
    (preparedB.Start "C").active = [(preparedB.PlayerCreate "C").1] ∧
    destroyCalls (effectsSince preparedB (preparedB.Start "C")) = [playerB, playerA] ∧
    (destroyCalls (effectsSince preparedB (preparedB.Start "C"))).count playerA = 1 ∧
    (destroyCalls (effectsSince preparedB (preparedB.Start "C"))).count playerB = 1 :=
  have h := Start_hard_cut preparedB "C" (by decide)
  ⟨by decide, by decide, h.1, h.2.2.2.1.trans (by decide),
    h.2.2.2.2.1 (by decide) playerA (by decide), h.2.2.2.2.1 (by decide) playerB (by decide)⟩

/-! ## Finish of a player -/

/-- C3 — natural finish without successor.  In every state whose active set is
exactly `[p]` and whose pending slot is empty, `OnPlaybackFinished(p)` leaves
the playback state Stopped and the active set empty, calls `Output.Stop`, and
calls `Destroy` on `p` exactly once (and on nothing else).  The Finished stream
event for `p` is the first effect of the call, so it precedes the
playback-state-changed(Stopped) notification, which is raised when the state
was not Stopped already. -/
theorem OnPlaybackFinished_without_successor (t : GaplessTransport) (p : Player)
    (ha : t.active = [p]) (hn : t.nextPlayer = none) :
    (t.OnPlaybackFinished p).state = PlaybackStopped ∧
    (t.OnPlaybackFinished p).active = [] ∧
    Effect.outputStop ∈ effectsSince t (t.OnPlaybackFinished p) ∧
    destroyCalls (effectsSince t (t.OnPlaybackFinished p)) = [p] ∧
    (destroyCalls (effectsSince t (t.OnPlaybackFinished p))).count p = 1 ∧
    ∃ post, effectsSince t (t.OnPlaybackFinished p) =
        Effect.StreamEvent StreamFinished p.url :: post ∧
      playbackEvents post =
        if t.state = PlaybackStopped then [] else [PlaybackStopped] := by
  rw [OnPlaybackFinished_last t p ha hn]
  refine ⟨rfl, rfl, ?_, ?_, ?_, ?_⟩
  · simp [effectsSince]
  · by_cases hs : t.state = PlaybackStopped <;>
      simp [effectsSince, destroyCalls, destroyed?, hs]
  · by_cases hs : t.state = PlaybackStopped <;>
      simp [effectsSince, destroyCalls, destroyed?, hs]
  · refine ⟨_, by simp only [effectsSince, List.append_assoc, List.drop_left,
      List.cons_append, List.nil_append]; rfl, ?_⟩
    by_cases hs : t.state = PlaybackStopped <;>
      simp [playbackEvents, playbackState?, hs]

/-- The scenario `Start("A")`, `OnPlaybackStarted(A)`, `OnPlaybackFinished(A)`:
the state goes from Playing to Stopped, `A` leaves the active set, and the
notification is raised after the Finished event. -/
theorem OnPlaybackFinished_without_successor_witness :
    playingA.active = [playerA] ∧
    playingA.nextPlayer = none ∧
    playingA.state = PlaybackPlaying ∧
    (playingA.OnPlaybackFinished playerA).state = PlaybackStopped ∧
    (playingA.OnPlaybackFinished playerA).active = [] ∧
    destroyCalls (effectsSince playingA (playingA.OnPlaybackFinished playerA)) = [playerA] ∧
    streamEvents (effectsSince playingA (playingA.OnPlaybackFinished playerA)) =
      [(StreamFinished, "A")] ∧
    playbackEvents (effectsSince playingA (playingA.OnPlaybackFinished playerA)) =
      [PlaybackStopped] :=
  have h := OnPlaybackFinished_without_successor playingA playerA (by decide) (by decide)
  ⟨by decide, by decide, by decide, h.1, h.2.1, h.2.2.2.1, by decide, by decide⟩

/-- C4 — finish of the old player after a successor took over.  In every state
whose active set contains `p` and another player `q` and whose pending slot is
empty, `OnPlaybackFinished(p)` leaves the playback state unchanged, raises no
playback-state-changed notification, does not call `Output.Stop`, and only
removes and destroys `p`: the active set becomes the old one with (the first
occurrence of) `p` erased — the other players stay, in the same order — and
`Destroy` is called on `p` alone, once.  When the active set had no duplicate,
`p` is no longer a member. -/
theorem OnPlaybackFinished_superseded (t : GaplessTransport) (p q : Player)
    (hp : p ∈ t.active) (hq : q ∈ t.active) (hqp : q ≠ p) (hn : t.nextPlayer = none) :
    (t.OnPlaybackFinished p).state = t.state ∧
    playbackEvents (effectsSince t (t.OnPlaybackFinished p)) = [] ∧
    Effect.outputStop ∉ effectsSince t (t.OnPlaybackFinished p) ∧
    (t.OnPlaybackFinished p).active = t.active.erase p ∧
    (∀ r ∈ t.active, r ≠ p → r ∈ (t.OnPlaybackFinished p).active) ∧
    destroyCalls (effectsSince t (t.OnPlaybackFinished p)) = [p] ∧
    (t.active.Nodup →
      p ∉ (t.OnPlaybackFinished p).active ∧
      (t.OnPlaybackFinished p).active = t.active.filter (fun r => r != p)) := by
  rw [OnPlaybackFinished_other t p hp (two_le_length_of_mem_ne hp hq hqp) hn]
  refine ⟨rfl, ?_, ?_, rfl, ?_, ?_, ?_⟩
  · simp [effectsSince, playbackEvents, playbackState?]
  · simp [effectsSince]
  · intro r hr hrp
    exact (List.mem_erase_of_ne hrp).mpr hr
  · simp [effectsSince, destroyCalls, destroyed?]
  · intro hnd
    exact ⟨hnd.not_mem_erase, hnd.erase_eq_filter p⟩

/-- After the gapless commit scenario (`A` and `B` active, nothing pending),
`OnPlaybackFinished(A)` keeps the state Playing and leaves exactly `B`
active. -/
theorem OnPlaybackFinished_superseded_witness :
    playerA ∈ committedB.active ∧
    playerB ∈ committedB.active ∧
    playerB ≠ playerA ∧
    committedB.nextPlayer = none ∧
    committedB.active.Nodup ∧
    (committedB.OnPlaybackFinished playerA).state = PlaybackPlaying ∧
    (committedB.OnPlaybackFinished playerA).active = [playerB] ∧
    playerA ∉ (committedB.OnPlaybackFinished playerA).active ∧
    destroyCalls (effectsSince committedB (committedB.OnPlaybackFinished playerA)) =
      [playerA] :=
  have h := OnPlaybackFinished_superseded committedB playerA playerB
    (by decide) (by decide) (by decide) (by decide)
  ⟨by decide, by decide, by decide, by decide, by decide, h.1.trans (by decide),
    h.2.2.2.1.trans (by decide), (h.2.2.2.2.2.2 (by decide)).1, h.2.2.2.2.2.1⟩

/-- C5, as the claim states its last part: in the state `pendingOnlyB` (no
active player, `B` pending) the player `A` is not the front of the active set,
yet `OnPlaybackFinished(A)` does not leave `B` pending and undestroyed: the
transport stops, which destroys `B` and empties the pending slot. -/
theorem OnPlaybackFinished_nonfront_counterexample :
    pendingOnlyB.nextPlayer = some playerB ∧
    pendingOnlyB.active.head? ≠ some playerA ∧
    ¬ ((pendingOnlyB.OnPlaybackFinished playerA).nextPlayer = some playerB ∧
        playerB ∉ destroyCalls
          (effectsSince pendingOnlyB (pendingOnlyB.OnPlaybackFinished playerA))) := by
  decide

/-- C5, amended — finish with a queued successor.  In every state with a
pending next player `n`, `OnPlaybackFinished(p)` plays `n` if and only if `p`
is the front of the active set.  When `p` is the front: the active set becomes
the old one without `p` and with `n` appended, the pending slot is empty,
`nextCanStart` is false, the playback state is unchanged, `Output.Stop` is not
called and `Destroy` is called on `p` only.  When `p` is not the front and the
active set is not empty (no handle being held twice): `n` stays pending and is
neither played nor destroyed.  When the active set is empty: the transport
stops, `n` is destroyed without being played and the pending slot is empty. -/
theorem OnPlaybackFinished_with_pending (t : GaplessTransport) (n p : Player)
    (h : t.nextPlayer = some n) :
    (n ∈ playCalls (effectsSince t (t.OnPlaybackFinished p)) ↔ t.active.head? = some p) ∧
    (t.active.head? = some p →
      (t.OnPlaybackFinished p).active = t.active.erase p ++ [n] ∧
      (t.OnPlaybackFinished p).nextPlayer = none ∧
      (t.OnPlaybackFinished p).nextCanStart = false ∧
      (t.OnPlaybackFinished p).state = t.state ∧
      Effect.outputStop ∉ effectsSince t (t.OnPlaybackFinished p) ∧
      destroyCalls (effectsSince t (t.OnPlaybackFinished p)) = [p]) ∧
    (t.active.head? ≠ some p → t.active ≠ [] → t.held.Nodup →
      (t.OnPlaybackFinished p).nextPlayer = some n ∧
      n ∉ playCalls (effectsSince t (t.OnPlaybackFinished p)) ∧
      n ∉ destroyCalls (effectsSince t (t.OnPlaybackFinished p))) ∧
    (t.active = [] →
      (t.OnPlaybackFinished p).state = PlaybackStopped ∧
      (t.OnPlaybackFinished p).nextPlayer = none ∧
      Effect.outputStop ∈ effectsSince t (t.OnPlaybackFinished p) ∧
      playCalls (effectsSince t (t.OnPlaybackFinished p)) = [] ∧
      destroyCalls (effectsSince t (t.OnPlaybackFinished p)) = [n]) := by
  have hfront : t.active.head? = some p →
      playCalls (effectsSince t (t.OnPlaybackFinished p)) = [n] := by
    intro hf
    rw [OnPlaybackFinished_front_pending t n p h hf]
    simp [effectsSince, playCalls, played?]
  have hother : t.active.head? ≠ some p →
      playCalls (effectsSince t (t.OnPlaybackFinished p)) = [] := by
    intro hf
    by_cases ha : t.active = []
    · rw [OnPlaybackFinished_empty_pending t n p h ha]
      by_cases hs : t.state = PlaybackStopped <;>
        simp [effectsSince, playCalls, played?, hs]
    · rw [OnPlaybackFinished_nonfront_pending t n p h hf ha]
      by_cases hp : p ∈ t.active <;> simp [effectsSince, playCalls, played?, hp]
  refine ⟨?_, ?_, ?_, ?_⟩
  · constructor
    · intro hmem
      by_contra hf
      rw [hother hf] at hmem
      simp at hmem
    · intro hf
      rw [hfront hf]
      simp
  · intro hf
    rw [OnPlaybackFinished_front_pending t n p h hf]
    refine ⟨rfl, rfl, rfl, rfl, ?_, ?_⟩
    · simp [effectsSince]
    · simp [effectsSince, destroyCalls, destroyed?]
  · intro hf ha hnd
    have hn : n ∉ t.active := by
      intro hmem
      exact List.disjoint_of_nodup_append hnd (by simp [h]) hmem
    refine ⟨?_, ?_, ?_⟩
    · rw [OnPlaybackFinished_nonfront_pending t n p h hf ha]
      exact h
    · rw [hother hf]
      simp
    · rw [OnPlaybackFinished_nonfront_pending t n p h hf ha]
      by_cases hp : p ∈ t.active
      · have hnp : n ≠ p := fun e => hn (e ▸ hp)
        simp [effectsSince, destroyCalls, destroyed?, hp, hnp]
      · simp [effectsSince, destroyCalls, destroyed?, hp]
  · intro ha
    rw [OnPlaybackFinished_empty_pending t n p h ha]
    refine ⟨rfl, rfl, ?_, ?_, ?_⟩ <;>
      by_cases hs : t.state = PlaybackStopped <;>
        simp [effectsSince, playCalls, played?, destroyCalls, destroyed?, hs]

/-- Three instances.  With `A` active and `B` pending, `OnPlaybackFinished(A)`
(the front) starts `B`.  With `A`, `B` active and `C` pending,
`OnPlaybackFinished(B)` (not the front) leaves `C` pending and untouched.  With
nothing active and `B` pending, `OnPlaybackFinished(A)` destroys `B`. -/
theorem OnPlaybackFinished_with_pending_witness :
    (preparedB.nextPlayer = some playerB ∧
      preparedB.active.head? = some playerA ∧
      (preparedB.OnPlaybackFinished playerA).active = [playerB] ∧
      (preparedB.OnPlaybackFinished playerA).state = PlaybackPlaying ∧
      destroyCalls (effectsSince preparedB (preparedB.OnPlaybackFinished playerA)) =
        [playerA]) ∧
    (preparedC.nextPlayer = some playerC ∧
      preparedC.active.head? ≠ some playerB ∧
      preparedC.active ≠ [] ∧
      preparedC.held.Nodup ∧
      (preparedC.OnPlaybackFinished playerB).nextPlayer = some playerC ∧
      playerC ∉ destroyCalls (effectsSince preparedC (preparedC.OnPlaybackFinished playerB))) ∧
    (pendingOnlyB.nextPlayer = some playerB ∧
      pendingOnlyB.active = [] ∧
      (pendingOnlyB.OnPlaybackFinished playerA).nextPlayer = none ∧
      destroyCalls (effectsSince pendingOnlyB (pendingOnlyB.OnPlaybackFinished playerA)) =
        [playerB]) :=
  have h1 := (OnPlaybackFinished_with_pending preparedB playerB playerA (by decide)).2.1
    (by decide)
  have h2 := (OnPlaybackFinished_with_pending preparedC playerC playerB (by decide)).2.2.1
    (by decide) (by decide) (by decide)
  have h3 := (OnPlaybackFinished_with_pending pendingOnlyB playerB playerA (by decide)).2.2.2
    (by decide)
  ⟨⟨by decide, by decide, h1.1.trans (by decide), h1.2.2.2.1.trans (by decide), h1.2.2.2.2.2⟩,
    ⟨by decide, by decide, by decide, by decide, h2.1, h2.2.2⟩,
    ⟨by decide, by decide, h3.2.1, h3.2.2.2.2⟩⟩

/-! ## Preparing the next track -/

/-- C6 — at most one pending player.  In every state with `nextCanStart` false,
for all urls `u1`, `u2`, `PrepareNextTrack(u1); PrepareNextTrack(u2)` creates
two players, leaves the one created for `u2` in the pending slot, calls no
`Play`, and leaves the active set and the playback state as they were.
`Destroy` is called on the player that was pending before (if any) and then on
the player created for `u1`; on the latter exactly once, its handle being fresh
(not held by the transport before). -/
theorem PrepareNextTrack_twice (t : GaplessTransport) (u1 u2 : String)
    (h : t.nextCanStart = false) :
    createCalls (effectsSince t ((t.PrepareNextTrack u1).PrepareNextTrack u2)) =
      [{ id := t.created, url := u1 }, { id := t.created + 1, url := u2 }] ∧
    ((t.PrepareNextTrack u1).PrepareNextTrack u2).nextPlayer =
      some { id := t.created + 1, url := u2 } ∧
    destroyCalls (effectsSince t ((t.PrepareNextTrack u1).PrepareNextTrack u2)) =
      t.nextPlayer.toList ++ [{ id := t.created, url := u1 }] ∧
    (({ id := t.created, url := u1 } : Player) ∉ t.held →
      (destroyCalls (effectsSince t ((t.PrepareNextTrack u1).PrepareNextTrack u2))).count
        { id := t.created, url := u1 } = 1) ∧
    playCalls (effectsSince t ((t.PrepareNextTrack u1).PrepareNextTrack u2)) = [] ∧
    ((t.PrepareNextTrack u1).PrepareNextTrack u2).active = t.active ∧
    ((t.PrepareNextTrack u1).PrepareNextTrack u2).state = t.state := by
  have h1 : (t.PrepareNextTrack u1).nextCanStart = false := by
    rw [PrepareNextTrack_closed t u1 h]
    exact h
  have hd : destroyCalls (effectsSince t ((t.PrepareNextTrack u1).PrepareNextTrack u2)) =
      t.nextPlayer.toList ++ [{ id := t.created, url := u1 }] := by
    rw [PrepareNextTrack_closed _ u2 h1, PrepareNextTrack_closed t u1 h]
    cases hn : t.nextPlayer <;>
      simp [effectsSince, destroyCalls, destroyed?, hn]
  refine ⟨?_, ?_, hd, ?_, ?_, ?_, ?_⟩
  · rw [PrepareNextTrack_closed _ u2 h1, PrepareNextTrack_closed t u1 h]
    cases hn : t.nextPlayer <;>
      simp [effectsSince, createCalls, created?, hn]
  · rw [PrepareNextTrack_closed _ u2 h1, PrepareNextTrack_closed t u1 h]
  · intro hfresh
    rw [hd]
    cases hn : t.nextPlayer with
    | none => simp
    | some q =>
      have hq : q ≠ ({ id := t.created, url := u1 } : Player) := by
        intro e
        apply hfresh
        simp [held, hn, e]
      simp [List.count_cons, hq]
  · rw [PrepareNextTrack_closed _ u2 h1, PrepareNextTrack_closed t u1 h]
    cases hn : t.nextPlayer <;>
      simp [effectsSince, playCalls, played?, hn]
  · rw [PrepareNextTrack_closed _ u2 h1, PrepareNextTrack_closed t u1 h]
  · rw [PrepareNextTrack_closed _ u2 h1, PrepareNextTrack_closed t u1 h]

/-- With `A` playing and nothing pending, `PrepareNextTrack("B")` followed by
`PrepareNextTrack("C")` leaves `C` pending and destroys `B` once. -/
theorem PrepareNextTrack_twice_witness :
    playingA.nextCanStart = false ∧
    playerB ∉ playingA.held ∧
    ((playingA.PrepareNextTrack "B").PrepareNextTrack "C").nextPlayer = some playerC ∧
    destroyCalls (effectsSince playingA ((playingA.PrepareNextTrack "B").PrepareNextTrack "C"))
      = [playerB] ∧
    (destroyCalls (effectsSince playingA
      ((playingA.PrepareNextTrack "B").PrepareNextTrack "C"))).count playerB = 1 ∧
    ((playingA.PrepareNextTrack "B").PrepareNextTrack "C").active = [playerA] :=
  have h := PrepareNextTrack_twice playingA "B" "C" (by decide)
  ⟨by decide, by decide, h.2.1, h.2.2.1, h.2.2.2.1 (by decide), h.2.2.2.2.2.1⟩

/-- C7 — late preload starts immediately.  In every state with `nextCanStart`
true, for every url `u`, `PrepareNextTrack(u)` starts the player `n` it
creates as a gapless continuation: `n` is appended to the active set (it is
its last element), the pending slot is empty, `nextCanStart` is false, every
player that was active is still active, `Output.Stop` is not called, `Play` is
called on `n` and a Scheduled stream event for `u` is raised.  The only
`Destroy` issued is on a player that was pending before the call, so no
previously active player is destroyed when no handle was held twice. -/
theorem PrepareNextTrack_late (t : GaplessTransport) (u : String)
    (h : t.nextCanStart = true) :
    createCalls (effectsSince t (t.PrepareNextTrack u)) = [{ id := t.created, url := u }] ∧
    (t.PrepareNextTrack u).active = t.active ++ [{ id := t.created, url := u }] ∧
    (t.PrepareNextTrack u).active.getLast? = some { id := t.created, url := u } ∧
    (t.PrepareNextTrack u).nextPlayer = none ∧
    (t.PrepareNextTrack u).nextCanStart = false ∧
    (∀ q ∈ t.active, q ∈ (t.PrepareNextTrack u).active) ∧
    destroyCalls (effectsSince t (t.PrepareNextTrack u)) = t.nextPlayer.toList ∧
    (t.held.Nodup →
      ∀ q ∈ t.active, q ∉ destroyCalls (effectsSince t (t.PrepareNextTrack u))) ∧
    Effect.outputStop ∉ effectsSince t (t.PrepareNextTrack u) ∧
    playCalls (effectsSince t (t.PrepareNextTrack u)) = [{ id := t.created, url := u }] ∧
    Effect.StreamEvent StreamScheduled u ∈ effectsSince t (t.PrepareNextTrack u) := by
  have hd : destroyCalls (effectsSince t (t.PrepareNextTrack u)) = t.nextPlayer.toList := by
    rw [PrepareNextTrack_open t u h]
    cases hn : t.nextPlayer <;> simp [effectsSince, destroyCalls, destroyed?, hn]
  refine ⟨?_, ?_, ?_, ?_, ?_, ?_, hd, ?_, ?_, ?_, ?_⟩
  · rw [PrepareNextTrack_open t u h]
    cases hn : t.nextPlayer <;> simp [effectsSince, createCalls, created?, hn]
  · rw [PrepareNextTrack_open t u h]
  · rw [PrepareNextTrack_open t u h]
    simp
  · rw [PrepareNextTrack_open t u h]
  · rw [PrepareNextTrack_open t u h]
  · rw [PrepareNextTrack_open t u h]
    intro q hq
    exact List.mem_append_left _ hq
  · intro hnd q hq hmem
    rw [hd] at hmem
    have hdis := List.disjoint_of_nodup_append hnd
    exact hdis hmem hq
  · rw [PrepareNextTrack_open t u h]
    cases hn : t.nextPlayer <;> simp [effectsSince, hn]
  · rw [PrepareNextTrack_open t u h]
    cases hn : t.nextPlayer <;> simp [effectsSince, playCalls, played?, hn]
  · rw [PrepareNextTrack_open t u h]
    cases hn : t.nextPlayer <;> simp [effectsSince, hn]

/-- After `Start("A")`, `OnPlaybackStarted(A)`, `OnPlaybackAlmostEnded(A)` the
gate is open, and `PrepareNextTrack("B")` starts `B` at once next to `A`. -/
theorem PrepareNextTrack_late_witness :
    almostEndedA.nextCanStart = true ∧
    almostEndedA.held.Nodup ∧
    (almostEndedA.PrepareNextTrack "B").active = [playerA, playerB] ∧
    (almostEndedA.PrepareNextTrack "B").nextPlayer = none ∧
    (almostEndedA.PrepareNextTrack "B").nextCanStart = false ∧
    playerA ∉ destroyCalls (effectsSince almostEndedA (almostEndedA.PrepareNextTrack "B")) ∧
    playCalls (effectsSince almostEndedA (almostEndedA.PrepareNextTrack "B")) = [playerB] :=
  have h := PrepareNextTrack_late almostEndedA "B" (by decide)
  ⟨by decide, by decide, h.2.1.trans (by decide), h.2.2.2.1, h.2.2.2.2.1,
    h.2.2.2.2.2.2.2.1 (by decide) playerA (by decide), h.2.2.2.2.2.2.2.2.2.1.trans (by decide)⟩

/-! ## Errors -/

/-- C8 — the code at a failing input.  In the state after `Start("A")`,
`OnPlaybackStarted(A)`, `PrepareNextTrack("B")` the player `B` is held by the
transport as the pending next player.  `OnPlaybackError(B)` raises the Error
stream event for `"B"` and the playback-state-changed(Stopped) notification,
yet `B` is still pending afterwards and `Destroy` has not been called on it:
the only effects are the two notifications and the lock traffic.  The errored
player is then started by the next callback of `A`: `OnPlaybackAlmostEnded(A)`
as well as `OnPlaybackFinished(A)` move `B` into the active set and call
`Play` on it, and the playback state is left Stopped. -/
theorem OnPlaybackError_misses_pending :
    preparedB.active = [playerA] ∧
    preparedB.nextPlayer = some playerB ∧
    preparedB.state = PlaybackPlaying ∧
    effectsSince preparedB erroredB =
      [Effect.StreamEvent StreamError "B", Effect.lockAcquire, Effect.lockRelease,
        Effect.PlaybackEvent PlaybackStopped, Effect.lockAcquire, Effect.lockRelease] ∧
    erroredB.state = PlaybackStopped ∧
    erroredB.active = [playerA] ∧
    erroredB.nextPlayer = some playerB ∧
    (destroyCalls (effectsSince preparedB erroredB)).count playerB = 0 ∧
    (erroredB.OnPlaybackAlmostEnded playerA).active = [playerA, playerB] ∧
    playCalls (effectsSince erroredB (erroredB.OnPlaybackAlmostEnded playerA)) = [playerB] ∧
    (erroredB.OnPlaybackAlmostEnded playerA).state = PlaybackStopped ∧
    (erroredB.OnPlaybackFinished playerA).active = [playerB] ∧
    playCalls (effectsSince erroredB (erroredB.OnPlaybackFinished playerA)) = [playerB] ∧
    destroyCalls (effectsSince erroredB (erroredB.OnPlaybackFinished playerA)) = [playerA] ∧
    (erroredB.OnPlaybackFinished playerA).state = PlaybackStopped := by
  decide

/-- `OnPlaybackError` in every state.  For every player `p`,
`OnPlaybackError(p)` raises exactly one stream event, Error for the url of
`p`, leaves the playback state Stopped, raises
playback-state-changed(Stopped) if and only if the state was not Stopped
already, creates and plays no player, does not write the pending slot and
erases (the first occurrence of) `p` from the active set.  When `p` is a
member of the active set, `Destroy` is called on `p` exactly once and on no
other player, and if no handle was held twice `p` is afterwards neither active
nor pending.  When `p` is not a member of the active set, no `Destroy` is
called at all. -/
theorem OnPlaybackError_retires (t : GaplessTransport) (p : Player) :
    streamEvents (effectsSince t (t.OnPlaybackError p)) = [(StreamError, p.url)] ∧
    (t.OnPlaybackError p).state = PlaybackStopped ∧
    playbackEvents (effectsSince t (t.OnPlaybackError p)) =
      (if t.state = PlaybackStopped then [] else [PlaybackStopped]) ∧
    createCalls (effectsSince t (t.OnPlaybackError p)) = [] ∧
    playCalls (effectsSince t (t.OnPlaybackError p)) = [] ∧
    (t.OnPlaybackError p).nextPlayer = t.nextPlayer ∧
    (t.OnPlaybackError p).active = t.active.erase p ∧
    (p ∈ t.active →
      destroyCalls (effectsSince t (t.OnPlaybackError p)) = [p] ∧
      (destroyCalls (effectsSince t (t.OnPlaybackError p))).count p = 1 ∧
      (t.held.Nodup →
        p ∉ (t.OnPlaybackError p).active ∧ (t.OnPlaybackError p).nextPlayer ≠ some p)) ∧
    (p ∉ t.active → destroyCalls (effectsSince t (t.OnPlaybackError p)) = []) := by
  rw [OnPlaybackError_eq t p]
  refine ⟨?_, rfl, ?_, ?_, ?_, rfl, rfl, ?_, ?_⟩
  · by_cases hs : t.state = PlaybackStopped <;> by_cases hp : p ∈ t.active <;>
      simp [effectsSince, streamEvents, streamEvent?, hs, hp]
  · by_cases hs : t.state = PlaybackStopped <;> by_cases hp : p ∈ t.active <;>
      simp [effectsSince, playbackEvents, playbackState?, hs, hp]
  · by_cases hs : t.state = PlaybackStopped <;> by_cases hp : p ∈ t.active <;>
      simp [effectsSince, createCalls, created?, hs, hp]
  · by_cases hs : t.state = PlaybackStopped <;> by_cases hp : p ∈ t.active <;>
      simp [effectsSince, playCalls, played?, hs, hp]
  · intro hp
    refine ⟨?_, ?_, ?_⟩
    · by_cases hs : t.state = PlaybackStopped <;>
        simp [effectsSince, destroyCalls, destroyed?, hs, hp]
    · by_cases hs : t.state = PlaybackStopped <;>
        simp [effectsSince, destroyCalls, destroyed?, hs, hp]
    · intro hnd
      constructor
      · exact (List.Nodup.of_append_right hnd).not_mem_erase
      · intro hn
        have hn2 : t.nextPlayer = some p := hn
        have hdis := List.disjoint_of_nodup_append hnd
        exact hdis (by simp [hn2]) hp
  · intro hp
    by_cases hs : t.state = PlaybackStopped <;>
      simp [effectsSince, destroyCalls, destroyed?, hs, hp]

/-- With `A` playing, `OnPlaybackError(A)` stops the transport, notifies, and
removes and destroys `A`. -/
theorem OnPlaybackError_retires_witness :
    playerA ∈ playingA.active ∧
    playingA.held.Nodup ∧
    (playingA.OnPlaybackError playerA).state = PlaybackStopped ∧
    playbackEvents (effectsSince playingA (playingA.OnPlaybackError playerA)) =
      [PlaybackStopped] ∧
    (playingA.OnPlaybackError playerA).active = [] ∧
    destroyCalls (effectsSince playingA (playingA.OnPlaybackError playerA)) = [playerA] ∧
    playerA ∉ (playingA.OnPlaybackError playerA).active :=
  have h := OnPlaybackError_retires playingA playerA
  have ha := h.2.2.2.2.2.2.2.1 (by decide)
  ⟨by decide, by decide, h.2.1, h.2.2.1.trans (by decide), h.2.2.2.2.2.2.1.trans (by decide),
    ha.1, (ha.2.2 (by decide)).1⟩

/-- The defect in every state: when `p` is the pending next player and not a
member of the active set, `OnPlaybackError(p)` leaves `p` pending and calls no
`Destroy`, and a following `OnPlaybackAlmostEnded(q)` calls `Play` on `p`. -/
theorem OnPlaybackError_pending_general (t : GaplessTransport) (p q : Player)
    (hn : t.nextPlayer = some p) (hp : p ∉ t.active) :
    (t.OnPlaybackError p).nextPlayer = some p ∧
    (t.OnPlaybackError p).active = t.active ∧
    destroyCalls (effectsSince t (t.OnPlaybackError p)) = [] ∧
    playCalls (effectsSince (t.OnPlaybackError p)
      ((t.OnPlaybackError p).OnPlaybackAlmostEnded q)) = [p] ∧
    ((t.OnPlaybackError p).OnPlaybackAlmostEnded q).state = PlaybackStopped := by
  have hnext : (t.OnPlaybackError p).nextPlayer = some p := by
    rw [OnPlaybackError_eq]
    exact hn
  refine ⟨hnext, ?_, ?_, ?_, ?_⟩
  · rw [OnPlaybackError_eq]
    exact List.erase_of_not_mem hp
  · rw [OnPlaybackError_eq]
    by_cases hs : t.state = PlaybackStopped <;>
      simp [effectsSince, destroyCalls, destroyed?, hs, hp]
  · rw [OnPlaybackAlmostEnded_pending _ p q hnext]
    simp [effectsSince, playCalls, played?]
  · rw [OnPlaybackAlmostEnded_pending _ p q hnext, OnPlaybackError_eq]

/-! ## Stop -/

/-- C9 — `Stop` is a hard stop.  In every state, `Stop()` leaves the playback
state Stopped, the active set empty and the pending slot empty, and calls
`Output.Stop`.  `Destroy` is called once for each held entry (the pending
player, then the active ones, in order), hence exactly once on each player that
was active or pending when no handle was held twice. -/
theorem Stop_hard (t : GaplessTransport) :
    t.Stop.state = PlaybackStopped ∧
    t.Stop.active = [] ∧
    t.Stop.nextPlayer = none ∧
    Effect.outputStop ∈ effectsSince t t.Stop ∧
    destroyCalls (effectsSince t t.Stop) = t.held ∧
    (t.held.Nodup → ∀ q ∈ t.held, (destroyCalls (effectsSince t t.Stop)).count q = 1) := by
  have hd : destroyCalls (effectsSince t t.Stop) = t.held := by
    rw [Stop_eq t]
    by_cases hs : t.state = PlaybackStopped <;> cases hn : t.nextPlayer <;>
      simp [effectsSince, destroyCalls, destroyed?, held, hs, hn, List.filterMap_append,
        List.filterMap_map, filterMap_destroyed_destroy]
  refine ⟨?_, ?_, ?_, ?_, hd, ?_⟩
  · rw [Stop_eq t]
  · rw [Stop_eq t]
  · rw [Stop_eq t]
  · rw [Stop_eq t]
    simp [effectsSince]
  · intro hnd q hq
    rw [hd]
    exact List.count_eq_one_of_mem hnd hq

/-- With `A` active and `B` pending, `Stop()` destroys `B` and `A` once each
and leaves nothing held. -/
theorem Stop_hard_witness :
    preparedB.held.Nodup ∧
    preparedB.Stop.state = PlaybackStopped ∧
    preparedB.Stop.held = [] ∧
    destroyCalls (effectsSince preparedB preparedB.Stop) = [playerB, playerA] ∧
    (destroyCalls (effectsSince preparedB preparedB.Stop)).count playerA = 1 ∧
    (destroyCalls (effectsSince preparedB preparedB.Stop)).count playerB = 1 :=
  have h := Stop_hard preparedB
  ⟨by decide, h.1, by decide, h.2.2.2.2.1.trans (by decide),
    h.2.2.2.2.2 (by decide) playerA (by decide), h.2.2.2.2.2 (by decide) playerB (by decide)⟩

/-! ## Deduplication of playback-state notifications -/

theorem effectsSince_of_trace {t t' : GaplessTransport} {E : List Effect}
    (h : t'.trace = t.trace ++ E) : effectsSince t t' = E := by
  simp [effectsSince, h]

theorem playbackEvents_append (a b : List Effect) :
    playbackEvents (a ++ b) = playbackEvents a ++ playbackEvents b := by
  simp [playbackEvents, List.filterMap_append]

theorem Quiet.refl (t : GaplessTransport) : Quiet t t :=
  ⟨rfl, [], by simp, rfl⟩

theorem Quiet.trans {a b c : GaplessTransport} (h1 : Quiet a b) (h2 : Quiet b c) :
    Quiet a c := by
  obtain ⟨hs1, E1, ht1, he1⟩ := h1
  obtain ⟨hs2, E2, ht2, he2⟩ := h2
  refine ⟨hs2.trans hs1, E1 ++ E2, ?_, ?_⟩
  · rw [ht2, ht1, List.append_assoc]
  · rw [playbackEvents_append, he1, he2]; rfl

theorem Quiet.emit {t x : GaplessTransport} (e : Effect) (he : playbackState? e = none)
    (h : Quiet t x) : Quiet t (x.emit e) :=
  h.trans ⟨rfl, [e], rfl, by simp [playbackEvents, he]⟩

theorem Quiet.update {t x : GaplessTransport} (v : ℚ) (np : Option Player) (g m : Bool)
    (a : List Player) (c : Nat) (h : Quiet t x) :
    Quiet t
      { volume := v
        state := x.state
        nextPlayer := np
        nextCanStart := g
        muted := m
        active := a
        created := c
        trace := x.trace } :=
  h

theorem Quiet.update_trace {t x : GaplessTransport} (v : ℚ) (np : Option Player) (g m : Bool)
    (a : List Player) (c : Nat) (E : List Effect) (hE : playbackEvents E = [])
    (h : Quiet t x) :
    Quiet t
      { volume := v
        state := x.state
        nextPlayer := np
        nextCanStart := g
        muted := m
        active := a
        created := c
        trace := x.trace ++ E } :=
  h.trans ⟨rfl, E, rfl, hE⟩

theorem Quiet.RESET_NEXT_PLAYER {t x : GaplessTransport} (h : Quiet t x) :
    Quiet t x.RESET_NEXT_PLAYER := by
  unfold GaplessTransport.RESET_NEXT_PLAYER
  split
  · apply Quiet.update
    exact Quiet.emit _ (by rfl) h
  · exact h

theorem Quiet.SetNextCanStart {t x : GaplessTransport} (b : Bool) (h : Quiet t x) :
    Quiet t (x.SetNextCanStart b) := by
  unfold GaplessTransport.SetNextCanStart
  dsimp only
  apply Quiet.emit _ (by rfl)
  apply Quiet.update
  exact Quiet.emit _ (by rfl) h

theorem Quiet.RaiseStreamEvent {t x : GaplessTransport} (k : StreamEventType) (p : Player)
    (h : Quiet t x) : Quiet t (x.RaiseStreamEvent k p) :=
  Quiet.emit _ (by rfl) h

theorem playbackEvents_destroyAllBut (ex : Option Player) (l : List Player) :
    playbackEvents (destroyAllBut ex l).2 = [] := by
  rw [destroyAllBut_eq]
  simp [playbackEvents, List.filterMap_map, filterMap_playbackState_destroy]

theorem Quiet.StopInternal_suppressed {t x : GaplessTransport} (stopOutput : Bool)
    (exclude : Option Player) (h : Quiet t x) :
    Quiet t (x.StopInternal true stopOutput exclude) := by
  unfold GaplessTransport.StopInternal
  cases stopOutput
  · exact h
  · dsimp only
    simp only [Bool.not_true, Bool.false_eq_true, if_false, if_true]
    apply Quiet.emit _ (by rfl)
    apply Quiet.emit _ (by rfl)
    apply Quiet.update_trace _ _ _ _ _ _ _ (playbackEvents_destroyAllBut _ _)
    apply Quiet.RESET_NEXT_PLAYER
    exact Quiet.emit _ (by rfl) h

theorem Quiet.StartWithPlayer {t x : GaplessTransport} (np : Option Player) (h : Quiet t x) :
    Quiet t (x.StartWithPlayer np) := by
  unfold GaplessTransport.StartWithPlayer
  cases np with
  | none => exact h
  | some p =>
    dsimp only
    apply Quiet.RaiseStreamEvent
    apply Quiet.emit _ (by rfl)
    apply Quiet.emit _ (by rfl)
    apply Quiet.SetNextCanStart
    apply Quiet.StopInternal_suppressed
    apply Quiet.emit _ (by rfl)
    apply Quiet.update
    split
    · split
      · exact Quiet.emit _ (by rfl) (Quiet.emit _ (by rfl) h)
      · exact Quiet.emit _ (by rfl) h
    · exact Quiet.emit _ (by rfl) h

theorem Quiet.PlayerCreate {t x : GaplessTransport} (url : String) (h : Quiet t x) :
    Quiet t (x.PlayerCreate url).2 := by
  unfold GaplessTransport.PlayerCreate
  dsimp only
  exact Quiet.update_trace _ _ _ _ _ _ _ rfl h

theorem Quiet.PrepareNextTrack {t x : GaplessTransport} (url : String) (h : Quiet t x) :
    Quiet t (x.PrepareNextTrack url) := by
  unfold GaplessTransport.PrepareNextTrack
  dsimp only
  have h4 : Quiet t
      ({ ((x.emit Effect.lockAcquire).RESET_NEXT_PLAYER.PlayerCreate url).2 with
          nextPlayer :=
            some ((x.emit Effect.lockAcquire).RESET_NEXT_PLAYER.PlayerCreate url).1 }.emit
        Effect.lockRelease) := by
    apply Quiet.emit _ (by rfl)
    apply Quiet.update
    apply Quiet.PlayerCreate
    apply Quiet.RESET_NEXT_PLAYER
    exact Quiet.emit _ (by rfl) h
  split
  · exact Quiet.StartWithPlayer _ h4
  · exact h4

theorem Quiet.Start {t x : GaplessTransport} (url : String) (h : Quiet t x) :
    Quiet t (x.Start url) := by
  unfold GaplessTransport.Start
  dsimp only
  apply Quiet.StartWithPlayer
  exact Quiet.PlayerCreate _ h

theorem Quiet.GetPlaybackState {t x : GaplessTransport} (h : Quiet t x) :
    Quiet t x.GetPlaybackState.2 := by
  unfold GaplessTransport.GetPlaybackState
  dsimp only
  exact Quiet.emit _ (by rfl) (Quiet.emit _ (by rfl) h)

theorem Quiet.Position {t x : GaplessTransport} (f : Player → ℚ) (h : Quiet t x) :
    Quiet t (x.Position f).2 := by
  unfold GaplessTransport.Position
  dsimp only
  split
  · exact Quiet.emit _ (by rfl) (Quiet.emit _ (by rfl) (Quiet.emit _ (by rfl) h))
  · exact Quiet.emit _ (by rfl) (Quiet.emit _ (by rfl) h)

theorem Quiet.SetPosition {t x : GaplessTransport} (seconds : ℚ) (h : Quiet t x) :
    Quiet t (x.SetPosition seconds) := by
  unfold GaplessTransport.SetPosition
  dsimp only
  apply Quiet.emit _ (by rfl)
  split
  · exact Quiet.emit _ (by rfl) (Quiet.emit _ (by rfl) (Quiet.emit _ (by rfl) h))
  · exact Quiet.emit _ (by rfl) h

theorem Quiet.SetMuted {t x : GaplessTransport} (muted : Bool) (h : Quiet t x) :
    Quiet t (x.SetMuted muted) := by
  unfold GaplessTransport.SetMuted
  split
  · dsimp only
    apply Quiet.emit _ (by rfl)
    apply Quiet.emit _ (by rfl)
    exact Quiet.update _ _ _ _ _ _ h
  · exact h

theorem Quiet.SetVolume {t x : GaplessTransport} (volume : ℚ) (h : Quiet t x) :
    Quiet t (x.SetVolume volume) := by
  unfold GaplessTransport.SetVolume
  dsimp only
  apply Quiet.emit _ (by rfl)
  split
  · apply Quiet.emit _ (by rfl)
    exact Quiet.update _ _ _ _ _ _ h
  · exact Quiet.update _ _ _ _ _ _ h

theorem Quiet.branch {t a b : GaplessTransport} {c : Prop} [Decidable c]
    (ha : Quiet t a) (hb : Quiet t b) : Quiet t (if c then a else b) := by
  split
  · exact ha
  · exact hb

theorem Quiet.RemoveFromActive {t x : GaplessTransport} (player : Player) (h : Quiet t x) :
    Quiet t (x.RemoveFromActive player) := by
  unfold GaplessTransport.RemoveFromActive
  dsimp only
  have h1 : Quiet t (x.emit Effect.lockAcquire) := Quiet.emit _ (by rfl) h
  apply Quiet.branch
  · apply Quiet.emit _ (by rfl)
    apply Quiet.emit _ (by rfl)
    exact Quiet.branch (Quiet.update _ _ _ _ _ _ h1) h1
  · apply Quiet.emit _ (by rfl)
    exact Quiet.branch (Quiet.update _ _ _ _ _ _ h1) h1

theorem Quiet.OnPlaybackAlmostEnded {t x : GaplessTransport} (player : Player)
    (h : Quiet t x) : Quiet t (x.OnPlaybackAlmostEnded player) := by
  unfold GaplessTransport.OnPlaybackAlmostEnded
  dsimp only
  apply Quiet.RaiseStreamEvent
  apply Quiet.emit _ (by rfl)
  have h2 : Quiet t ((x.SetNextCanStart true).emit Effect.lockAcquire) :=
    Quiet.emit _ (by rfl) (Quiet.SetNextCanStart _ h)
  split
  · exact Quiet.StartWithPlayer _ h2
  · exact h2

theorem Quiet.atMostOne {t x : GaplessTransport} (h : Quiet t x) : AtMostOne t x := by
  obtain ⟨hs, E, ht, he⟩ := h
  exact ⟨E, ht, by rw [he, if_pos hs]⟩

theorem AtMostOne.quiet {t x y : GaplessTransport} (h : AtMostOne t x) (hq : Quiet x y) :
    AtMostOne t y := by
  obtain ⟨E1, ht1, he1⟩ := h
  obtain ⟨hs, E2, ht2, he2⟩ := hq
  refine ⟨E1 ++ E2, ?_, ?_⟩
  · rw [ht2, ht1, List.append_assoc]
  · rw [playbackEvents_append, he1, he2, hs, List.append_nil]

theorem Quiet.SetPlaybackState {t x : GaplessTransport} (s : PlaybackState) (h : Quiet t x) :
    AtMostOne t (x.SetPlaybackState s) := by
  obtain ⟨hs, E, ht, he⟩ := h
  by_cases hx : x.state = s
  · refine ⟨E ++ [Effect.lockAcquire, Effect.lockRelease], ?_, ?_⟩
    · simp [GaplessTransport.SetPlaybackState, GaplessTransport.emit, hx, ht]
    · have hst : (x.SetPlaybackState s).state = t.state := by
        simp [GaplessTransport.SetPlaybackState, GaplessTransport.emit, hx, ← hs]
      rw [if_pos hst, playbackEvents_append, he]
      rfl
  · refine ⟨E ++ [Effect.lockAcquire, Effect.lockRelease, Effect.PlaybackEvent s], ?_, ?_⟩
    · simp [GaplessTransport.SetPlaybackState, GaplessTransport.emit, hx, ht]
    · have hst : (x.SetPlaybackState s).state = s := by
        simp [GaplessTransport.SetPlaybackState, GaplessTransport.emit, hx]
      have hne : ¬ (x.SetPlaybackState s).state = t.state := by
        rw [hst, ← hs]
        exact fun e => hx e.symm
      rw [if_neg hne, playbackEvents_append, he, hst]
      rfl

theorem Quiet.StopInternal {t x : GaplessTransport} (suppressStopEvent stopOutput : Bool)
    (exclude : Option Player) (h : Quiet t x) :
    AtMostOne t (x.StopInternal suppressStopEvent stopOutput exclude) := by
  cases suppressStopEvent
  · have hq := Quiet.StopInternal_suppressed stopOutput exclude h
    unfold GaplessTransport.StopInternal at hq ⊢
    simp only [Bool.not_true, Bool.not_false, Bool.false_eq_true, if_false, if_true] at hq ⊢
    exact Quiet.SetPlaybackState _ hq
  · exact (Quiet.StopInternal_suppressed stopOutput exclude h).atMostOne

theorem Quiet.Stop {t x : GaplessTransport} (h : Quiet t x) : AtMostOne t x.Stop :=
  Quiet.StopInternal _ _ _ h

theorem Quiet.Pause {t x : GaplessTransport} (h : Quiet t x) : AtMostOne t x.Pause.2 := by
  unfold GaplessTransport.Pause
  dsimp only
  have h3 : Quiet t (((x.emit Effect.outputPause).emit Effect.lockAcquire).emit
      Effect.lockRelease) :=
    Quiet.emit _ (by rfl) (Quiet.emit _ (by rfl) (Quiet.emit _ (by rfl) h))
  split
  · exact Quiet.SetPlaybackState _ h3
  · exact h3.atMostOne

theorem Quiet.Resume {t x : GaplessTransport} (h : Quiet t x) : AtMostOne t x.Resume.2 := by
  unfold GaplessTransport.Resume
  dsimp only
  have hplay : playbackEvents
      (((x.emit Effect.outputResume).emit Effect.lockAcquire).active.map Effect.playerPlay)
        = [] := by
    simp [playbackEvents, List.filterMap_map, filterMap_playbackState_play]
  have h4 : Quiet t
      ({ (x.emit Effect.outputResume).emit Effect.lockAcquire with
          trace := ((x.emit Effect.outputResume).emit Effect.lockAcquire).trace ++
            ((x.emit Effect.outputResume).emit Effect.lockAcquire).active.map
              Effect.playerPlay }.emit Effect.lockRelease) := by
    apply Quiet.emit _ (by rfl)
    apply Quiet.update_trace _ _ _ _ _ _ _ hplay
    exact Quiet.emit _ (by rfl) (Quiet.emit _ (by rfl) h)
  split
  · exact Quiet.SetPlaybackState _ h4
  · exact h4.atMostOne

theorem Quiet.OnPlaybackStarted {t x : GaplessTransport} (player : Player) (h : Quiet t x) :
    AtMostOne t (x.OnPlaybackStarted player) :=
  Quiet.SetPlaybackState _ (Quiet.RaiseStreamEvent _ _ h)

theorem Quiet.OnPlaybackError {t x : GaplessTransport} (player : Player) (h : Quiet t x) :
    AtMostOne t (x.OnPlaybackError player) :=
  (Quiet.SetPlaybackState _ (Quiet.RaiseStreamEvent _ _ h)).quiet
    (Quiet.RemoveFromActive _ (Quiet.refl _))

theorem AtMostOne.either {t a b : GaplessTransport} {c : Prop} [Decidable c]
    (ha : AtMostOne t a) (hb : AtMostOne t b) : AtMostOne t (if c then a else b) := by
  split
  · exact ha
  · exact hb

theorem Quiet.OnPlaybackFinished {t x : GaplessTransport} (player : Player) (h : Quiet t x) :
    AtMostOne t (x.OnPlaybackFinished player) := by
  unfold GaplessTransport.OnPlaybackFinished
  dsimp only
  refine AtMostOne.quiet ?_ (Quiet.RemoveFromActive _ (Quiet.refl _))
  have h2 : Quiet t ((x.RaiseStreamEvent StreamFinished player).emit Effect.lockAcquire) :=
    Quiet.emit _ (by rfl) (Quiet.RaiseStreamEvent _ _ h)
  apply AtMostOne.either
  · apply Quiet.Stop
    apply Quiet.emit _ (by rfl)
    exact Quiet.branch (Quiet.StartWithPlayer _ h2) h2
  · apply Quiet.atMostOne
    apply Quiet.emit _ (by rfl)
    exact Quiet.branch (Quiet.StartWithPlayer _ h2) h2

theorem step_atMostOne (op : Op) (t : GaplessTransport) : AtMostOne t (step op t) := by
  cases op with
  | Start url => exact (Quiet.Start url (Quiet.refl t)).atMostOne
  | PrepareNextTrack url => exact (Quiet.PrepareNextTrack url (Quiet.refl t)).atMostOne
  | Stop => exact Quiet.Stop (Quiet.refl t)
  | Pause => exact Quiet.Pause (Quiet.refl t)
  | Resume => exact Quiet.Resume (Quiet.refl t)
  | GetPlaybackState => exact (Quiet.GetPlaybackState (Quiet.refl t)).atMostOne
  | Position => exact (Quiet.Position _ (Quiet.refl t)).atMostOne
  | SetPosition seconds => exact (Quiet.SetPosition seconds (Quiet.refl t)).atMostOne
  | IsMuted => exact (Quiet.refl t).atMostOne
  | SetMuted muted => exact (Quiet.SetMuted muted (Quiet.refl t)).atMostOne
  | Volume => exact (Quiet.refl t).atMostOne
  | SetVolume volume => exact (Quiet.SetVolume volume (Quiet.refl t)).atMostOne
  | OnPlaybackStarted player => exact Quiet.OnPlaybackStarted player (Quiet.refl t)
  | OnPlaybackAlmostEnded player =>
    exact (Quiet.OnPlaybackAlmostEnded player (Quiet.refl t)).atMostOne
  | OnPlaybackFinished player => exact Quiet.OnPlaybackFinished player (Quiet.refl t)
  | OnPlaybackError player => exact Quiet.OnPlaybackError player (Quiet.refl t)

theorem run_chain (ops : List Op) :
    ∀ t : GaplessTransport, ∃ E, (run ops t).trace = t.trace ++ E ∧
      List.Chain (fun a b => a ≠ b) t.state (playbackEvents E) := by
  induction ops with
  | nil => intro t; exact ⟨[], by simp [run], List.Chain.nil⟩
  | cons op ops ih =>
    intro t
    obtain ⟨E1, ht1, he1⟩ := step_atMostOne op t
    obtain ⟨E2, ht2, hc2⟩ := ih (step op t)
    refine ⟨E1 ++ E2, ?_, ?_⟩
    · show (run ops (step op t)).trace = _
      rw [ht2, ht1, List.append_assoc]
    · rw [playbackEvents_append, he1]
      by_cases hs : (step op t).state = t.state
      · rw [if_pos hs, List.nil_append, ← hs]
        exact hc2
      · rw [if_neg hs]
        exact List.Chain.cons (fun e => hs e.symm) hc2

theorem Stop_playbackEvents (t : GaplessTransport) :
    ∃ E, t.Stop.trace = t.trace ++ E ∧
      playbackEvents E = if t.state = PlaybackStopped then [] else [PlaybackStopped] := by
  rw [Stop_eq t]
  refine ⟨_, by simp only [List.append_assoc]; rfl, ?_⟩
  by_cases hs : t.state = PlaybackStopped <;>
    simp [playbackEvents, playbackState?, hs, List.filterMap_append, List.filterMap_map,
      filterMap_playbackState_destroy]

/-- C10 — state-change notifications are deduplicated.  `SetPlaybackState(target)`
raises playback-state-changed(s) only for `s = target` and only when the stored
state differs from it.  Every operation or callback raises
playback-state-changed(s) only when the stored state before it differs from
`s` (and `s` is then the stored state after it).  So in the trace of every
sequence of operations and callbacks, from every state and in particular from
the initial one, no two consecutive playback-state-changed notifications carry
the same state.  For every state, `Stop(); Stop()` raises
playback-state-changed(Stopped) at most once, and the second `Stop()` raises
no playback-state-changed notification. -/
theorem playbackEvents_deduplicated :
    (∀ (t : GaplessTransport) (target s : PlaybackState),
      s ∈ playbackEvents (effectsSince t (t.SetPlaybackState target)) →
        s = target ∧ t.state ≠ s) ∧
    (∀ (t : GaplessTransport) (op : Op) (s : PlaybackState),
      s ∈ playbackEvents (effectsSince t (step op t)) →
        t.state ≠ s ∧ (step op t).state = s) ∧
    (∀ (t : GaplessTransport) (ops : List Op),
      List.Chain' (fun a b => a ≠ b) (playbackEvents (effectsSince t (run ops t)))) ∧
    (∀ ops : List Op,
      List.Chain' (fun a b => a ≠ b) (playbackEvents (run ops init).trace)) ∧
    (∀ t : GaplessTransport,
      (playbackEvents (effectsSince t t.Stop.Stop)).count PlaybackStopped ≤ 1 ∧
      playbackEvents (effectsSince t.Stop t.Stop.Stop) = []) := by
  have hstep : ∀ (t x : GaplessTransport) (s : PlaybackState), AtMostOne t x →
      s ∈ playbackEvents (effectsSince t x) → t.state ≠ s ∧ x.state = s := by
    intro t x s h hs
    obtain ⟨E, ht, he⟩ := h
    rw [effectsSince_of_trace ht, he] at hs
    by_cases hx : x.state = t.state
    · rw [if_pos hx] at hs
      simp at hs
    · rw [if_neg hx] at hs
      simp only [List.mem_singleton] at hs
      subst hs
      exact ⟨fun e => hx e.symm, rfl⟩
  have hchain : ∀ (t : GaplessTransport) (ops : List Op),
      List.Chain' (fun a b => a ≠ b) (playbackEvents (effectsSince t (run ops t))) := by
    intro t ops
    obtain ⟨E, ht, hc⟩ := run_chain ops t
    rw [effectsSince_of_trace ht]
    exact (show List.Chain' (fun a b => a ≠ b) (t.state :: playbackEvents E) from hc).tail
  refine ⟨?_, ?_, hchain, ?_, ?_⟩
  · intro t target s hs
    have h := hstep t _ s (Quiet.SetPlaybackState target (Quiet.refl t)) hs
    refine ⟨?_, h.1⟩
    rw [← h.2]
    simp [SetPlaybackState, emit]
    split <;> rfl
  · intro t op s hs
    exact hstep t _ s (step_atMostOne op t) hs
  · intro ops
    have h := hchain init ops
    simpa [effectsSince, init] using h
  · intro t
    obtain ⟨E1, ht1, he1⟩ := Stop_playbackEvents t
    obtain ⟨E2, ht2, he2⟩ := Stop_playbackEvents t.Stop
    have hst : t.Stop.state = PlaybackStopped := by rw [Stop_eq t]
    rw [if_pos hst] at he2
    have ht : t.Stop.Stop.trace = t.trace ++ (E1 ++ E2) := by
      rw [ht2, ht1, List.append_assoc]
    rw [effectsSince_of_trace ht, effectsSince_of_trace ht2, playbackEvents_append, he1, he2]
    constructor
    · by_cases hs : t.state = PlaybackStopped <;> simp [hs]
    · rfl

/-- With `A` playing, `Stop()` raises playback-state-changed(Stopped), and the
stored state before it was not Stopped.  The sequence `Start("A")`,
`OnPlaybackStarted(A)`, `Stop()`, `Stop()` from the initial state raises
playback-state-changed(Playing) and then playback-state-changed(Stopped), once
each. -/
theorem playbackEvents_deduplicated_witness :
    PlaybackStopped ∈ playbackEvents (effectsSince playingA (step Op.Stop playingA)) ∧
    playingA.state ≠ PlaybackStopped ∧
    (step Op.Stop playingA).state = PlaybackStopped ∧
    playbackEvents
        (run [Op.Start "A", Op.OnPlaybackStarted playerA, Op.Stop, Op.Stop] init).trace =
      [PlaybackPlaying, PlaybackStopped] ∧
    List.Chain' (fun a b => a ≠ b)
      (playbackEvents
        (run [Op.Start "A", Op.OnPlaybackStarted playerA, Op.Stop, Op.Stop] init).trace) :=
  have h := playbackEvents_deduplicated.2.1 playingA Op.Stop PlaybackStopped (by decide)
  ⟨by decide, h.1, h.2, by decide,
    playbackEvents_deduplicated.2.2.2.1
      [Op.Start "A", Op.OnPlaybackStarted playerA, Op.Stop, Op.Stop]⟩

/-! ## Ownership of player handles

Every state reached from the initial one by operations and callbacks, with
arbitrary player arguments, holds no handle twice, and `Player::Create` returns
a handle it does not hold. -/

theorem owned_sub {x y : GaplessTransport} (h : Owned x)
    (hc : x.created ≤ y.created)
    (hs : ∀ p, y.held.count p ≤ x.held.count p) : Owned y := by
  constructor
  · rw [List.nodup_iff_count_le_one]
    intro a
    exact (hs a).trans (List.nodup_iff_count_le_one.mp h.1 a)
  · intro p hp
    have h1 : 0 < y.held.count p := List.count_pos_iff.mpr hp
    have h2 : p ∈ x.held := List.count_pos_iff.mp (Nat.lt_of_lt_of_le h1 (hs p))
    exact Nat.lt_of_lt_of_le (h.2 p h2) hc

theorem owned_emit {x : GaplessTransport} (e : Effect) (h : Owned x) : Owned (x.emit e) :=
  h

theorem owned_update {x : GaplessTransport} (v : ℚ) (s : PlaybackState) (g m : Bool)
    (tr : List Effect) (h : Owned x) :
    Owned
      { volume := v
        state := s
        nextPlayer := x.nextPlayer
        nextCanStart := g
        muted := m
        active := x.active
        created := x.created
        trace := tr } :=
  h

theorem owned_branch {a b : GaplessTransport} {c : Prop} [Decidable c]
    (ha : Owned a) (hb : Owned b) : Owned (if c then a else b) := by
  split
  · exact ha
  · exact hb

theorem owned_clear_next {x : GaplessTransport} (v : ℚ) (s : PlaybackState) (g m : Bool)
    (tr : List Effect) (h : Owned x) :
    Owned
      { volume := v
        state := s
        nextPlayer := none
        nextCanStart := g
        muted := m
        active := x.active
        created := x.created
        trace := tr } := by
  refine owned_sub h (Nat.le_refl _) ?_
  intro p
  simp [held]

theorem owned_set_active {x : GaplessTransport} (v : ℚ) (s : PlaybackState) (g m : Bool)
    (tr : List Effect) (a : List Player) (ha : a.Sublist x.active) (h : Owned x) :
    Owned
      { volume := v
        state := s
        nextPlayer := x.nextPlayer
        nextCanStart := g
        muted := m
        active := a
        created := x.created
        trace := tr } := by
  refine owned_sub h (Nat.le_refl _) ?_
  intro p
  simp only [held, List.count_append]
  exact Nat.add_le_add_left (ha.count_le p) _

theorem owned_RESET_NEXT_PLAYER {x : GaplessTransport} (h : Owned x) :
    Owned x.RESET_NEXT_PLAYER := by
  unfold GaplessTransport.RESET_NEXT_PLAYER
  split
  · exact owned_clear_next _ _ _ _ _ (owned_emit _ h)
  · exact h

theorem owned_SetPlaybackState {x : GaplessTransport} (s : PlaybackState) (h : Owned x) :
    Owned (x.SetPlaybackState s) := by
  unfold GaplessTransport.SetPlaybackState
  dsimp only
  exact owned_branch h h

theorem owned_SetNextCanStart {x : GaplessTransport} (b : Bool) (h : Owned x) :
    Owned (x.SetNextCanStart b) :=
  h

theorem owned_RaiseStreamEvent {x : GaplessTransport} (k : StreamEventType) (p : Player)
    (h : Owned x) : Owned (x.RaiseStreamEvent k p) :=
  h

theorem destroyAllBut_sublist (ex : Option Player) (l : List Player) :
    (destroyAllBut ex l).1.Sublist l := by
  rw [destroyAllBut_eq]
  exact List.filter_sublist l

theorem owned_StopInternal {x : GaplessTransport} (suppressStopEvent stopOutput : Bool)
    (exclude : Option Player) (h : Owned x) :
    Owned (x.StopInternal suppressStopEvent stopOutput exclude) := by
  unfold GaplessTransport.StopInternal
  dsimp only
  have h1 : Owned (if stopOutput = true then
      (({ (x.emit Effect.lockAcquire).RESET_NEXT_PLAYER with
          active := (destroyAllBut exclude (x.emit Effect.lockAcquire).RESET_NEXT_PLAYER.active).1
          trace := (x.emit Effect.lockAcquire).RESET_NEXT_PLAYER.trace ++
            (destroyAllBut exclude
              (x.emit Effect.lockAcquire).RESET_NEXT_PLAYER.active).2 }.emit
        Effect.lockRelease).emit Effect.outputStop) else x) := by
    apply owned_branch _ h
    apply owned_emit
    apply owned_emit
    apply owned_set_active _ _ _ _ _ _ (destroyAllBut_sublist _ _)
    exact owned_RESET_NEXT_PLAYER (owned_emit _ h)
  exact owned_branch (owned_SetPlaybackState _ h1) h1

theorem owned_Stop {x : GaplessTransport} (h : Owned x) : Owned x.Stop :=
  owned_StopInternal _ _ _ h

theorem owned_RemoveFromActive {x : GaplessTransport} (player : Player) (h : Owned x) :
    Owned (x.RemoveFromActive player) := by
  unfold GaplessTransport.RemoveFromActive
  dsimp only
  have h2 : Owned (if decide (player ∈ (x.emit Effect.lockAcquire).active) = true then
      { x.emit Effect.lockAcquire with
        active := (x.emit Effect.lockAcquire).active.erase player }
      else x.emit Effect.lockAcquire) := by
    apply owned_branch _ (owned_emit _ h)
    exact owned_set_active _ _ _ _ _ _ (List.erase_sublist _ _) (owned_emit _ h)
  exact owned_branch (owned_emit _ (owned_emit _ h2)) (owned_emit _ h2)

theorem StartWithPlayer_fields (x : GaplessTransport) (p : Player) :
    (x.StartWithPlayer (some p)).created = x.created ∧
    (x.StartWithPlayer (some p)).nextPlayer = none ∧
    (x.StartWithPlayer (some p)).active =
      if x.nextPlayer = some p then x.active ++ [p]
      else (x.active ++ [p]).filter (fun r => decide (some r = some p)) := by
  cases hn : x.nextPlayer with
  | none =>
    simp [GaplessTransport.StartWithPlayer, GaplessTransport.StopInternal,
      GaplessTransport.SetNextCanStart, GaplessTransport.emit,
      GaplessTransport.RaiseStreamEvent, GaplessTransport.RESET_NEXT_PLAYER,
      destroyAllBut_eq, hn]
  | some q =>
    by_cases hq : p = q
    · subst hq
      simp [GaplessTransport.StartWithPlayer, GaplessTransport.StopInternal,
        GaplessTransport.SetNextCanStart, GaplessTransport.emit,
        GaplessTransport.RaiseStreamEvent, GaplessTransport.RESET_NEXT_PLAYER, hn]
    · have hq2 : ¬ q = p := fun e => hq e.symm
      simp [GaplessTransport.StartWithPlayer, GaplessTransport.StopInternal,
        GaplessTransport.SetNextCanStart, GaplessTransport.emit,
        GaplessTransport.RaiseStreamEvent, GaplessTransport.RESET_NEXT_PLAYER,
        destroyAllBut_eq, hn, hq, hq2]

theorem owned_StartWithPlayer {x : GaplessTransport} (np : Option Player) (h : Owned x)
    (hp : np = x.nextPlayer ∨ ∀ p, np = some p → p ∉ x.held ∧ p.id < x.created) :
    Owned (x.StartWithPlayer np) := by
  cases np with
  | none => exact h
  | some p =>
    obtain ⟨hc, hn, ha⟩ := StartWithPlayer_fields x p
    have hact : x.active.Nodup := List.Nodup.of_append_right h.1
    have hbound : ∀ r ∈ x.active, r.id < x.created :=
      fun r hr => h.2 r (List.mem_append_right _ hr)
    have hpid : p.id < x.created := by
      rcases hp with hp | hp
      · exact h.2 p (by simp [held, ← hp])
      · exact (hp p rfl).2
    have hpa : p ∉ x.active := by
      rcases hp with hp | hp
      · intro hmem
        have hdis := List.disjoint_of_nodup_append h.1
        exact hdis (by simp [← hp]) hmem
      · intro hmem
        exact (hp p rfl).1 (List.mem_append_right _ hmem)
    have hnd : (x.active ++ [p]).Nodup := by
      rw [List.nodup_append]
      exact ⟨hact, List.nodup_singleton p, by
        intro a ha1 ha2
        rw [List.mem_singleton] at ha2
        exact hpa (ha2 ▸ ha1)⟩
    have hsub : (x.StartWithPlayer (some p)).active.Sublist (x.active ++ [p]) := by
      rw [ha]
      split
      · exact List.Sublist.refl _
      · exact List.filter_sublist _
    constructor
    · simp only [held, hn, Option.toList_none, List.nil_append]
      exact hnd.sublist hsub
    · intro r hr
      simp only [held, hn, Option.toList_none, List.nil_append] at hr
      rw [hc]
      have hr2 := hsub.subset hr
      rcases List.mem_append.mp hr2 with hr3 | hr3
      · exact hbound r hr3
      · rw [List.mem_singleton] at hr3
        rw [hr3]
        exact hpid

theorem owned_PlayerCreate {x : GaplessTransport} (url : String) (h : Owned x) :
    Owned (x.PlayerCreate url).2 ∧ (x.PlayerCreate url).1 ∉ (x.PlayerCreate url).2.held ∧
    (x.PlayerCreate url).1.id < (x.PlayerCreate url).2.created := by
  refine ⟨?_, ?_, ?_⟩
  · exact owned_sub (y := (x.PlayerCreate url).2) h (Nat.le_succ _) (fun p => Nat.le_refl _)
  · intro hmem
    exact Nat.lt_irrefl _ (h.2 _ hmem)
  · exact Nat.lt_succ_self _

theorem owned_Start {x : GaplessTransport} (url : String) (h : Owned x) :
    Owned (x.Start url) := by
  obtain ⟨h1, h2, h3⟩ := owned_PlayerCreate url h
  unfold GaplessTransport.Start
  dsimp only
  apply owned_StartWithPlayer _ h1
  right
  intro p hp
  cases hp
  exact ⟨h2, h3⟩

theorem owned_PrepareNextTrack {x : GaplessTransport} (url : String) (h : Owned x) :
    Owned (x.PrepareNextTrack url) := by
  unfold GaplessTransport.PrepareNextTrack
  dsimp only
  have h2 : Owned (x.emit Effect.lockAcquire).RESET_NEXT_PLAYER :=
    owned_RESET_NEXT_PLAYER (owned_emit _ h)
  have hnone : (x.emit Effect.lockAcquire).RESET_NEXT_PLAYER.nextPlayer = none := by
    unfold GaplessTransport.RESET_NEXT_PLAYER
    split
    · rfl
    · assumption
  obtain ⟨h3, h4, h5⟩ := owned_PlayerCreate url h2
  have h6 : Owned
      ({ ((x.emit Effect.lockAcquire).RESET_NEXT_PLAYER.PlayerCreate url).2 with
          nextPlayer :=
            some ((x.emit Effect.lockAcquire).RESET_NEXT_PLAYER.PlayerCreate url).1 }.emit
        Effect.lockRelease) := by
    constructor
    · show (_ :: ((x.emit Effect.lockAcquire).RESET_NEXT_PLAYER.PlayerCreate url).2.active).Nodup
      rw [List.nodup_cons]
      refine ⟨fun hmem => h4 (List.mem_append_right _ hmem), ?_⟩
      exact List.Nodup.of_append_right h3.1
    · intro r hr
      have hr2 : r ∈ ((x.emit Effect.lockAcquire).RESET_NEXT_PLAYER.PlayerCreate url).1 ::
          ((x.emit Effect.lockAcquire).RESET_NEXT_PLAYER.PlayerCreate url).2.active := hr
      rcases List.mem_cons.mp hr2 with hr3 | hr3
      · rw [hr3]
        exact h5
      · exact h3.2 r (List.mem_append_right _ hr3)
  apply owned_branch _ h6
  exact owned_StartWithPlayer _ h6 (Or.inl rfl)

theorem owned_OnPlaybackStarted {x : GaplessTransport} (player : Player) (h : Owned x) :
    Owned (x.OnPlaybackStarted player) :=
  owned_SetPlaybackState _ (owned_RaiseStreamEvent _ _ h)

theorem owned_OnPlaybackAlmostEnded {x : GaplessTransport} (player : Player) (h : Owned x) :
    Owned (x.OnPlaybackAlmostEnded player) := by
  unfold GaplessTransport.OnPlaybackAlmostEnded
  dsimp only
  apply owned_RaiseStreamEvent
  apply owned_emit
  have h2 : Owned ((x.SetNextCanStart true).emit Effect.lockAcquire) := h
  exact owned_branch (owned_StartWithPlayer _ h2 (Or.inl rfl)) h2

theorem owned_OnPlaybackFinished {x : GaplessTransport} (player : Player) (h : Owned x) :
    Owned (x.OnPlaybackFinished player) := by
  unfold GaplessTransport.OnPlaybackFinished
  dsimp only
  apply owned_RemoveFromActive
  have h2 : Owned ((x.RaiseStreamEvent StreamFinished player).emit Effect.lockAcquire) := h
  have h3 := owned_StartWithPlayer _ h2 (Or.inl rfl)
  apply owned_branch
  · apply owned_Stop
    apply owned_emit
    exact owned_branch h3 h2
  · apply owned_emit
    exact owned_branch h3 h2

theorem owned_OnPlaybackError {x : GaplessTransport} (player : Player) (h : Owned x) :
    Owned (x.OnPlaybackError player) :=
  owned_RemoveFromActive _ (owned_SetPlaybackState _ (owned_RaiseStreamEvent _ _ h))

theorem owned_Pause {x : GaplessTransport} (h : Owned x) : Owned x.Pause.2 := by
  unfold GaplessTransport.Pause
  dsimp only
  split
  · exact owned_SetPlaybackState _ h
  · exact h

theorem owned_Resume {x : GaplessTransport} (h : Owned x) : Owned x.Resume.2 := by
  unfold GaplessTransport.Resume
  dsimp only
  split
  · exact owned_SetPlaybackState _ h
  · exact h

theorem owned_Position {x : GaplessTransport} (f : Player → ℚ) (h : Owned x) :
    Owned (x.Position f).2 := by
  unfold GaplessTransport.Position
  dsimp only
  split
  · exact h
  · exact h

theorem owned_SetPosition {x : GaplessTransport} (seconds : ℚ) (h : Owned x) :
    Owned (x.SetPosition seconds) := by
  unfold GaplessTransport.SetPosition
  dsimp only
  apply owned_emit
  split
  · exact h
  · exact h

theorem owned_SetMuted {x : GaplessTransport} (muted : Bool) (h : Owned x) :
    Owned (x.SetMuted muted) := by
  unfold GaplessTransport.SetMuted
  split
  · exact h
  · exact h

theorem owned_SetVolume {x : GaplessTransport} (volume : ℚ) (h : Owned x) :
    Owned (x.SetVolume volume) := by
  unfold GaplessTransport.SetVolume
  dsimp only
  apply owned_emit
  split
  · exact h
  · exact h

theorem owned_init : Owned GaplessTransport.init :=
  ⟨List.nodup_nil, fun _ hp => absurd hp (List.not_mem_nil _)⟩

theorem owned_step {x : GaplessTransport} (op : Op) (h : Owned x) : Owned (step op x) := by
  cases op with
  | Start url => exact owned_Start url h
  | PrepareNextTrack url => exact owned_PrepareNextTrack url h
  | Stop => exact owned_Stop h
  | Pause => exact owned_Pause h
  | Resume => exact owned_Resume h
  | GetPlaybackState => exact h
  | Position => exact owned_Position _ h
  | SetPosition seconds => exact owned_SetPosition seconds h
  | IsMuted => exact h
  | SetMuted muted => exact owned_SetMuted muted h
  | Volume => exact h
  | SetVolume volume => exact owned_SetVolume volume h
  | OnPlaybackStarted player => exact owned_OnPlaybackStarted player h
  | OnPlaybackAlmostEnded player => exact owned_OnPlaybackAlmostEnded player h
  | OnPlaybackFinished player => exact owned_OnPlaybackFinished player h
  | OnPlaybackError player => exact owned_OnPlaybackError player h

theorem owned_run (ops : List Op) : ∀ {x : GaplessTransport}, Owned x → Owned (run ops x) := by
  induction ops with
  | nil => intro x h; exact h
  | cons op ops ih => intro x h; exact ih (owned_step op h)

theorem owned_fresh {x : GaplessTransport} (url : String) (h : Owned x) :
    (x.PlayerCreate url).1 ∉ x.held :=
  (owned_PlayerCreate url h).2.1

theorem owned_reachable (ops : List Op) : Owned (run ops init) :=
  owned_run ops owned_init

theorem held_nodup_reachable (ops : List Op) : (run ops init).held.Nodup :=
  (owned_reachable ops).1

theorem PlayerCreate_fresh_reachable (ops : List Op) (url : String) :
    ((run ops init).PlayerCreate url).1 ∉ (run ops init).held :=
  owned_fresh url (owned_reachable ops)

/-! ## What the remaining operations do, case by case -/

theorem Pause_eq (t : GaplessTransport) :
    t.Pause =
      if t.active = [] then
        (false, { t with trace := t.trace ++ [Effect.outputPause, Effect.lockAcquire,
            Effect.lockRelease] })
      else
        (true, { t with
          state := PlaybackPaused
          trace := t.trace ++ [Effect.outputPause, Effect.lockAcquire, Effect.lockRelease,
              Effect.lockAcquire, Effect.lockRelease]
            ++ (if t.state = PlaybackPaused then []
                else [Effect.PlaybackEvent PlaybackPaused]) }) := by
  by_cases ha : t.active = [] <;> by_cases hs : t.state = PlaybackPaused <;>
    simp [Pause, SetPlaybackState, emit, ha, hs]

theorem Resume_eq (t : GaplessTransport) :
    t.Resume =
      if t.active = [] then
        (false, { t with trace := t.trace ++ [Effect.outputResume, Effect.lockAcquire,
            Effect.lockRelease] })
      else
        (true, { t with
          state := PlaybackPlaying
          trace := t.trace ++ [Effect.outputResume, Effect.lockAcquire]
            ++ t.active.map Effect.playerPlay
            ++ [Effect.lockRelease, Effect.lockAcquire, Effect.lockRelease]
            ++ (if t.state = PlaybackPlaying then []
                else [Effect.PlaybackEvent PlaybackPlaying]) }) := by
  by_cases ha : t.active = [] <;> by_cases hs : t.state = PlaybackPlaying <;>
    simp [Resume, SetPlaybackState, emit, ha, hs]

theorem GetPlaybackState_eq (t : GaplessTransport) :
    t.GetPlaybackState =
      (t.state, { t with trace := t.trace ++ [Effect.lockAcquire, Effect.lockRelease] }) := by
  simp [GetPlaybackState, emit]

theorem Position_eq (f : Player → ℚ) (t : GaplessTransport) :
    t.Position f =
      match t.active with
      | front :: _ =>
        (f front, { t with trace := t.trace ++ [Effect.lockAcquire,
          Effect.playerPosition front, Effect.lockRelease] })
      | [] => (0, { t with trace := t.trace ++ [Effect.lockAcquire, Effect.lockRelease] }) := by
  cases ha : t.active <;> simp [Position, emit, ha]

theorem SetPosition_eq (seconds : ℚ) (t : GaplessTransport) :
    t.SetPosition seconds =
      match t.active with
      | front :: _ =>
        { t with trace := t.trace ++ [Effect.lockAcquire,
          Effect.playerSetPosition front seconds, Effect.TimeChanged seconds,
          Effect.lockRelease] }
      | [] => { t with trace := t.trace ++ [Effect.lockAcquire, Effect.lockRelease] } := by
  cases ha : t.active <;> simp [SetPosition, emit, ha]

theorem SetMuted_eq (muted : Bool) (t : GaplessTransport) :
    t.SetMuted muted =
      if t.muted = muted then t
      else
        { t with
          muted := muted
          trace := t.trace ++ [Effect.outputSetVolume (if muted then 0 else t.volume),
            Effect.VolumeChanged] } := by
  by_cases hm : t.muted = muted <;> simp [SetMuted, emit, hm]

theorem SetVolume_eq (volume : ℚ) (t : GaplessTransport) :
    t.SetVolume volume =
      { t with
        volume := max 0 (min 1 volume)
        trace := t.trace
          ++ (if t.volume = max 0 (min 1 volume) then [] else [Effect.VolumeChanged])
          ++ [Effect.outputSetVolume (max 0 (min 1 volume))] } := by
  by_cases hv : t.volume = max 0 (min 1 volume) <;> simp [SetVolume, emit, hv]

theorem OnPlaybackStarted_eq (p : Player) (t : GaplessTransport) :
    t.OnPlaybackStarted p =
      { t with
        state := PlaybackPlaying
        trace := t.trace ++ [Effect.StreamEvent StreamPlaying p.url, Effect.lockAcquire,
            Effect.lockRelease]
          ++ (if t.state = PlaybackPlaying then []
              else [Effect.PlaybackEvent PlaybackPlaying]) } := by
  by_cases hs : t.state = PlaybackPlaying <;>
    simp [OnPlaybackStarted, SetPlaybackState, RaiseStreamEvent, emit, hs]

theorem OnPlaybackAlmostEnded_idle (t : GaplessTransport) (p : Player)
    (h : t.nextPlayer = none) :
    t.OnPlaybackAlmostEnded p =
      { t with
        nextCanStart := true
        trace := t.trace ++ [Effect.lockAcquire, Effect.lockRelease, Effect.lockAcquire,
          Effect.lockRelease, Effect.StreamEvent StreamAlmostDone p.url] } := by
  simp [OnPlaybackAlmostEnded, SetNextCanStart, RaiseStreamEvent, emit, h]

theorem OnPlaybackFinished_empty_idle (t : GaplessTransport) (p : Player)
    (h : t.nextPlayer = none) (ha : t.active = []) :
    t.OnPlaybackFinished p =
      { t with
        state := PlaybackStopped
        trace := t.trace ++ [Effect.StreamEvent StreamFinished p.url, Effect.lockAcquire,
            Effect.lockRelease, Effect.lockAcquire, Effect.lockRelease,
            Effect.outputStop, Effect.lockAcquire, Effect.lockRelease]
          ++ (if t.state = PlaybackStopped then [] else [Effect.PlaybackEvent PlaybackStopped])
          ++ [Effect.lockAcquire, Effect.lockRelease] } := by
  by_cases hs : t.state = PlaybackStopped <;>
  simp [OnPlaybackFinished, Stop, StopInternal, SetPlaybackState, RemoveFromActive, emit,
    RaiseStreamEvent, RESET_NEXT_PLAYER, destroyAllBut, ha, h, hs]

theorem OnPlaybackFinished_idle (t : GaplessTransport) (p : Player)
    (h : t.nextPlayer = none) (ha : t.active ≠ []) (hp : t.active ≠ [p]) :
    t.OnPlaybackFinished p =
      { t with
        active := t.active.erase p
        trace := t.trace ++ [Effect.StreamEvent StreamFinished p.url, Effect.lockAcquire,
            Effect.lockRelease, Effect.lockAcquire, Effect.lockRelease]
          ++ (if p ∈ t.active then [Effect.playerDestroy p] else []) } := by
  have hstop : ¬ (t.active.length = 1 ∧ some p = t.active.head?) := by
    rintro ⟨h1, h2⟩
    apply hp
    match hact : t.active, h1, h2 with
    | [a], _, h2 =>
      simp only [List.head?_cons, Option.some.injEq] at h2
      rw [h2]
  by_cases hmem : p ∈ t.active
  · simp [OnPlaybackFinished, RemoveFromActive, emit, RaiseStreamEvent, h, ha, hmem, hstop]
  · simp [OnPlaybackFinished, RemoveFromActive, emit, RaiseStreamEvent, h, ha, hmem,
      List.erase_of_not_mem hmem, hstop]

/-! ## Pause and Resume -/

/-- C11 — Pause/Resume transitions.  In every state, `Pause()` returns true if
and only if the active set is not empty, and so does `Resume()`.  When the
result is true the playback state afterwards is Paused (for `Pause`) or
Playing (for `Resume`); when it is false the playback state is unchanged and
no playback-state-changed notification is raised.  Neither operation changes
the active set, the pending slot or `nextCanStart`, and neither calls
`Destroy`. -/
theorem Pause_Resume_transitions (t : GaplessTransport) :
    (t.Pause.1 = true ↔ t.active ≠ []) ∧
    (t.Resume.1 = true ↔ t.active ≠ []) ∧
    (t.Pause.1 = true → t.Pause.2.state = PlaybackPaused) ∧
    (t.Resume.1 = true → t.Resume.2.state = PlaybackPlaying) ∧
    (t.Pause.1 = false →
      t.Pause.2.state = t.state ∧ playbackEvents (effectsSince t t.Pause.2) = []) ∧
    (t.Resume.1 = false →
      t.Resume.2.state = t.state ∧ playbackEvents (effectsSince t t.Resume.2) = []) ∧
    (t.Pause.2.active = t.active ∧ t.Pause.2.nextPlayer = t.nextPlayer ∧
      t.Pause.2.nextCanStart = t.nextCanStart ∧
      destroyCalls (effectsSince t t.Pause.2) = []) ∧
    (t.Resume.2.active = t.active ∧ t.Resume.2.nextPlayer = t.nextPlayer ∧
      t.Resume.2.nextCanStart = t.nextCanStart ∧
      destroyCalls (effectsSince t t.Resume.2) = []) := by
  rw [Pause_eq, Resume_eq]
  by_cases ha : t.active = []
  · simp [ha, effectsSince, playbackEvents, playbackState?, destroyCalls, destroyed?]
  · by_cases hs : t.state = PlaybackPaused <;> by_cases hr : t.state = PlaybackPlaying <;>
      simp [ha, hs, hr, effectsSince, playbackEvents, playbackState?, destroyCalls, destroyed?,
        List.filterMap_append, List.filterMap_map, filterMap_destroyed_play]

/-- With `A` playing, `Pause()` returns true and leaves the state Paused, and a
following `Resume()` returns true and leaves it Playing.  From the initial
state, where nothing is active, both return false and the state stays
Stopped. -/
theorem Pause_Resume_transitions_witness :
    playingA.active ≠ [] ∧
    playingA.Pause.1 = true ∧
    playingA.Pause.2.state = PlaybackPaused ∧
    playingA.Pause.2.Resume.1 = true ∧
    playingA.Pause.2.Resume.2.state = PlaybackPlaying ∧
    init.Pause.1 = false ∧
    init.Pause.2.state = PlaybackStopped ∧
    init.Resume.1 = false ∧
    playbackEvents (effectsSince init init.Resume.2) = [] :=
  have h := Pause_Resume_transitions playingA
  have h2 := Pause_Resume_transitions playingA.Pause.2
  have h0 := Pause_Resume_transitions init
  ⟨by decide, h.1.mpr (by decide), h.2.2.1 (h.1.mpr (by decide)),
    h2.2.1.mpr (by decide), h2.2.2.2.1 (h2.2.1.mpr (by decide)),
    by decide, (h0.2.2.2.2.1 (by decide)).1, by decide, (h0.2.2.2.2.2.1 (by decide)).2⟩

/-- C12, as the claim states it: in the initial state the active set is empty,
yet `Pause()` calls `Output.Pause` and `Resume()` calls `Output.Resume`. -/
theorem Pause_Resume_idle_counterexample :
    init.active = [] ∧
    outputCalls (effectsSince init init.Pause.2) = [Effect.outputPause] ∧
    outputCalls (effectsSince init init.Resume.2) = [Effect.outputResume] ∧
    ¬ (outputCalls (effectsSince init init.Pause.2) = [] ∧
        outputCalls (effectsSince init init.Resume.2) = []) := by
  decide

/-- C12, amended — `Pause` and `Resume` without an active player.  In every
state whose active set is empty, `Pause()` and `Resume()` return false and
leave every field of the transport as it was; the effects are one call on the
output (`Output.Pause`, respectively `Output.Resume`) followed by taking and
releasing the lock: no notification is raised and no call is made on a
player. -/
theorem Pause_Resume_idle (t : GaplessTransport) (ha : t.active = []) :
    t.Pause =
      (false, { t with trace := t.trace ++ [Effect.outputPause, Effect.lockAcquire,
        Effect.lockRelease] }) ∧
    t.Resume =
      (false, { t with trace := t.trace ++ [Effect.outputResume, Effect.lockAcquire,
        Effect.lockRelease] }) ∧
    effectsSince t t.Pause.2 =
      [Effect.outputPause, Effect.lockAcquire, Effect.lockRelease] ∧
    effectsSince t t.Resume.2 =
      [Effect.outputResume, Effect.lockAcquire, Effect.lockRelease] := by
  rw [Pause_eq, Resume_eq]
  simp [ha, effectsSince]

/-- From the initial state, `Pause()` and `Resume()` return false and change
nothing but the trace, to which each adds its call on the output. -/
theorem Pause_Resume_idle_witness :
    init.active = [] ∧
    init.Pause.1 = false ∧
    init.Resume.1 = false ∧
    init.Pause.2.state = init.state ∧
    effectsSince init init.Pause.2 =
      [Effect.outputPause, Effect.lockAcquire, Effect.lockRelease] ∧
    effectsSince init init.Resume.2 =
      [Effect.outputResume, Effect.lockAcquire, Effect.lockRelease] :=
  have h := Pause_Resume_idle init (by decide)
  ⟨by decide, by decide, by decide, by decide, h.2.2.1, h.2.2.2⟩

/-! ## Volume and mute -/

/-- C13 — volume clamping and change notification.  In every state and for
every value `v`, after `SetVolume(v)` the stored volume, as `Volume()` returns
it, is `max 0 (min 1 v)`; it lies in `[0, 1]`; and a volume-changed
notification is raised if and only if that clamped value differs from the
volume stored before the call.  `SetVolume(-1)` stores `0` and `SetVolume(2)`
stores `1`; `SetVolume` of the current value (a value in `[0, 1]`) raises no
notification. -/
theorem SetVolume_clamps (t : GaplessTransport) (v : ℚ) :
    (t.SetVolume v).Volume = max 0 (min 1 v) ∧
    0 ≤ (t.SetVolume v).Volume ∧
    (t.SetVolume v).Volume ≤ 1 ∧
    (Effect.VolumeChanged ∈ effectsSince t (t.SetVolume v) ↔ max 0 (min 1 v) ≠ t.Volume) ∧
    (t.SetVolume (-1)).Volume = 0 ∧
    (t.SetVolume 2).Volume = 1 ∧
    (0 ≤ t.Volume → t.Volume ≤ 1 →
      Effect.VolumeChanged ∉ effectsSince t (t.SetVolume t.Volume)) := by
  refine ⟨?_, ?_, ?_, ?_, ?_, ?_, ?_⟩
  · rw [SetVolume_eq]; rfl
  · rw [SetVolume_eq]; exact le_max_left _ _
  · rw [SetVolume_eq]; exact max_le (by norm_num) (min_le_left _ _)
  · rw [SetVolume_eq]
    by_cases hv : t.volume = max 0 (min 1 v)
    · simp [effectsSince, Volume, hv]
    · simp [effectsSince, Volume, hv]
      exact fun e => hv e.symm
  · rw [SetVolume_eq]; simp [Volume]
  · rw [SetVolume_eq]; simp [Volume]
  · intro h0 h1
    rw [SetVolume_eq]
    have hc : max 0 (min 1 t.Volume) = t.Volume := by
      rw [min_eq_right h1, max_eq_right h0]
    rw [hc]
    simp [effectsSince, Volume]

/-- From the initial state, where the volume is `1`: `SetVolume(-1)` stores
`0`, `SetVolume(2)` stores `1`, `SetVolume(0.6)` stores `0.6` and notifies, and
`SetVolume(1)` does not notify. -/
theorem SetVolume_clamps_witness :
    (init.SetVolume (-1)).Volume = 0 ∧
    (init.SetVolume 2).Volume = 1 ∧
    ((init.SetVolume (3 / 5)).Volume = 3 / 5) ∧
    Effect.VolumeChanged ∈ effectsSince init (init.SetVolume (3 / 5)) ∧
    Effect.VolumeChanged ∉ effectsSince init (init.SetVolume init.Volume) :=
  have h := SetVolume_clamps init (3 / 5)
  have h0 := SetVolume_clamps init init.Volume
  ⟨(SetVolume_clamps init 0).2.2.2.2.1, (SetVolume_clamps init 0).2.2.2.2.2.1,
    h.1.trans (by norm_num), h.2.2.2.1.mpr (by norm_num [Volume, init]),
    h0.2.2.2.2.2.2 (by norm_num [Volume, init]) (by norm_num [Volume, init])⟩

/-- C14 — the code at the failing input.  After `SetMuted(true)` from the
initial state the transport is muted and the output holds `0`; `SetVolume(0.5)`
then leaves the transport muted, stores `0.5`, and sends `0.5` to
`Output.SetVolume`. -/
theorem SetVolume_muted_propagates :
    mutedInit.muted = true ∧
    outputVolumes mutedInit.trace = [0] ∧
    (mutedInit.SetVolume (1 / 2)).muted = true ∧
    (mutedInit.SetVolume (1 / 2)).Volume = 1 / 2 ∧
    outputVolumes (effectsSince mutedInit (mutedInit.SetVolume (1 / 2))) = [1 / 2] := by
  have hm : mutedInit =
      { init with
        muted := true
        trace := [Effect.outputSetVolume 0, Effect.VolumeChanged] } := by
    simp [mutedInit, SetMuted_eq, init]
  have hc : max (0 : ℚ) (min 1 (1 / 2)) = 1 / 2 := by norm_num
  rw [SetVolume_eq, hc, hm]
  refine ⟨rfl, ?_, rfl, rfl, ?_⟩
  · simp [outputVolumes, outputVolume?]
  · simp [effectsSince, outputVolumes, outputVolume?, init]

/-- `SetVolume` does not read `muted`: in every state it sends the clamped
value to `Output.SetVolume` and leaves `muted` as it was. -/
theorem SetVolume_muted_general (t : GaplessTransport) (v : ℚ) :
    (t.SetVolume v).muted = t.muted ∧
    outputVolumes (effectsSince t (t.SetVolume v)) = [max 0 (min 1 v)] := by
  rw [SetVolume_eq]
  by_cases hv : t.volume = max 0 (min 1 v) <;>
    simp [effectsSince, outputVolumes, outputVolume?, hv]

/-- C15 — mute round trip.  In every state with `muted = false` and stored
volume `x`, `SetMuted(true)` sends `0` to `Output.SetVolume` and a following
`SetMuted(false)` sends exactly `x`; each of the two calls raises
volume-changed; `Volume()` returns `x` before, between and after them; and
`SetMuted` never changes the stored volume, in any state. -/
theorem SetMuted_round_trip (t : GaplessTransport) (hm : t.muted = false) :
    outputVolumes (effectsSince t (t.SetMuted true)) = [0] ∧
    outputVolumes (effectsSince (t.SetMuted true) ((t.SetMuted true).SetMuted false)) =
      [t.Volume] ∧
    Effect.VolumeChanged ∈ effectsSince t (t.SetMuted true) ∧
    Effect.VolumeChanged ∈
      effectsSince (t.SetMuted true) ((t.SetMuted true).SetMuted false) ∧
    (t.SetMuted true).Volume = t.Volume ∧
    ((t.SetMuted true).SetMuted false).Volume = t.Volume ∧
    (t.SetMuted true).muted = true ∧
    ((t.SetMuted true).SetMuted false).muted = false ∧
    (∀ (x : GaplessTransport) (b : Bool), (x.SetMuted b).Volume = x.Volume) := by
  have h1 : t.SetMuted true =
      { t with
        muted := true
        trace := t.trace ++ [Effect.outputSetVolume 0, Effect.VolumeChanged] } := by
    simp [SetMuted_eq, hm]
  have h2 : (t.SetMuted true).SetMuted false =
      { t with
        muted := false
        trace := t.trace ++ [Effect.outputSetVolume 0, Effect.VolumeChanged,
          Effect.outputSetVolume t.volume, Effect.VolumeChanged] } := by
    rw [h1]
    simp [SetMuted_eq]
  refine ⟨?_, ?_, ?_, ?_, ?_, ?_, ?_, ?_, ?_⟩
  · rw [h1]; simp [effectsSince, outputVolumes, outputVolume?]
  · rw [h2, h1]; simp [effectsSince, outputVolumes, outputVolume?, Volume]
  · rw [h1]; simp [effectsSince]
  · rw [h2, h1]; simp [effectsSince]
  · rw [h1]; rfl
  · rw [h2]; rfl
  · rw [h1]
  · rw [h2]
  · intro x b
    rw [SetMuted_eq]
    split <;> rfl

/-- The sequence `SetVolume(0.6)`, `SetMuted(true)`, `SetMuted(false)` from
the initial state: the output receives `0` and then `0.6`, and the stored
volume stays `0.6`. -/
theorem SetMuted_round_trip_witness :
    volumeSet.muted = false ∧
    volumeSet.Volume = 3 / 5 ∧
    outputVolumes (effectsSince volumeSet (volumeSet.SetMuted true)) = [0] ∧
    outputVolumes
        (effectsSince (volumeSet.SetMuted true) ((volumeSet.SetMuted true).SetMuted false)) =
      [3 / 5] ∧
    ((volumeSet.SetMuted true).SetMuted false).Volume = 3 / 5 :=
  have hm : volumeSet.muted = false := by
    rw [volumeSet, SetVolume_eq]; rfl
  have hv : volumeSet.Volume = 3 / 5 := by
    rw [volumeSet, SetVolume_eq]
    show max (0 : ℚ) (min 1 (3 / 5)) = 3 / 5
    norm_num
  have h := SetMuted_round_trip volumeSet hm
  ⟨hm, hv, h.1, hv ▸ h.2.1, h.2.2.2.2.2.1.trans hv⟩

/-! ## The primary player -/

/-- C16, as the claim states it: after `Start("A")`, `OnPlaybackStarted(A)`,
`PrepareNextTrack("B")`, `OnPlaybackAlmostEnded(A)` the active set is `[A, B]`,
so its front is not `B`; `Position()` does not ask `B` and `SetPosition` does
not seek `B`. -/
theorem primary_after_handoff_counterexample :
    committedB.active = [playerA, playerB] ∧
    committedB.active.head? ≠ some playerB ∧
    effectsSince committedB (committedB.Position (fun _ => 0)).2 ≠
      [Effect.lockAcquire, Effect.playerPosition playerB, Effect.lockRelease] ∧
    effectsSince committedB (committedB.SetPosition 0) ≠
      [Effect.lockAcquire, Effect.playerSetPosition playerB 0, Effect.TimeChanged 0,
        Effect.lockRelease] := by
  decide

/-- C16, amended — the primary player after a gapless handoff.  A gapless
commit appends the new player at the back: in every state with a pending
player `n` and a front player `a`, after `OnPlaybackAlmostEnded(p)` the front
is still `a`.  After `Start("A")`, `OnPlaybackStarted(A)`,
`PrepareNextTrack("B")`, `OnPlaybackAlmostEnded(A)` the active set is `[A, B]`
and its front is `A`: `Position()` returns the position of `A` and
`SetPosition(s)` seeks `A`.  Once `OnPlaybackFinished(A)` has removed `A`, the
front is `B`: `Position()` returns the position of `B` and `SetPosition(s)`
seeks `B`. -/
theorem primary_after_handoff :
    (∀ (t : GaplessTransport) (n p a : Player) (rest : List Player),
      t.nextPlayer = some n → t.active = a :: rest →
        (t.OnPlaybackAlmostEnded p).active = a :: (rest ++ [n]) ∧
        (t.OnPlaybackAlmostEnded p).active.head? = some a) ∧
    committedB.active = [playerA, playerB] ∧
    committedB.active.head? = some playerA ∧
    (∀ f : Player → ℚ, (committedB.Position f).1 = f playerA) ∧
    (∀ f : Player → ℚ, effectsSince committedB (committedB.Position f).2 =
      [Effect.lockAcquire, Effect.playerPosition playerA, Effect.lockRelease]) ∧
    (∀ s : ℚ, effectsSince committedB (committedB.SetPosition s) =
      [Effect.lockAcquire, Effect.playerSetPosition playerA s, Effect.TimeChanged s,
        Effect.lockRelease]) ∧
    (committedB.OnPlaybackFinished playerA).active = [playerB] ∧
    (∀ f : Player → ℚ, ((committedB.OnPlaybackFinished playerA).Position f).1 = f playerB) ∧
    (∀ s : ℚ, effectsSince (committedB.OnPlaybackFinished playerA)
        ((committedB.OnPlaybackFinished playerA).SetPosition s) =
      [Effect.lockAcquire, Effect.playerSetPosition playerB s, Effect.TimeChanged s,
        Effect.lockRelease]) := by
  have hc : committedB.active = [playerA, playerB] := by decide
  have hf : (committedB.OnPlaybackFinished playerA).active = [playerB] := by decide
  refine ⟨?_, hc, by decide, ?_, ?_, ?_, hf, ?_, ?_⟩
  · intro t n p a rest hn ha
    rw [OnPlaybackAlmostEnded_pending t n p hn]
    simp [ha]
  · intro f
    rw [Position_eq, hc]
  · intro f
    rw [Position_eq, hc]
    simp [effectsSince]
  · intro s
    rw [SetPosition_eq, hc]
    simp [effectsSince]
  · intro f
    rw [Position_eq, hf]
  · intro s
    rw [SetPosition_eq, hf]
    simp [effectsSince]

/-- With `A` active and `B` pending, `OnPlaybackAlmostEnded(A)` leaves `A` at
the front, and `Position()` then answers with the position of `A` (here the
number of its handle, `0`). -/
theorem primary_after_handoff_witness :
    preparedB.nextPlayer = some playerB ∧
    preparedB.active = [playerA] ∧
    (preparedB.OnPlaybackAlmostEnded playerA).active.head? = some playerA ∧
    (committedB.Position (fun q => (q.id : ℚ))).1 = 0 :=
  ⟨by decide, by decide,
    (primary_after_handoff.1 preparedB playerB playerA playerA [] (by decide) (by decide)).2,
    (primary_after_handoff.2.2.2.1 (fun q => (q.id : ℚ))).trans (by simp [playerA])⟩

/-! ## The state lock -/

theorem lockViolations_destroy (l : List Player) (rest : List Effect) :
    lockViolations 1 (l.map Effect.playerDestroy ++ rest) =
      l.map Effect.playerDestroy ++ lockViolations 1 rest := by
  induction l with
  | nil => rfl
  | cons p l ih => simp [lockViolations, ih]

/-- C17 — the code at failing inputs.  With `A` playing, the trace of `Stop()`
has `Destroy(A)` between taking the lock and releasing it.  With `A` active
and `B` pending, `PrepareNextTrack("C")` destroys `B` and `Start("C")` destroys
`B` and `A` while holding the lock, and `OnPlaybackAlmostEnded(A)` and
`OnPlaybackFinished(A)` take the lock twice more while holding it (they call
`StartWithPlayer` inside their critical section).  `RemoveFromActive` does
keep the discipline: it destroys the player after releasing the lock. -/
theorem lock_discipline_broken :
    effectsSince playingA playingA.Stop =
      [Effect.lockAcquire, Effect.playerDestroy playerA, Effect.lockRelease, Effect.outputStop,
        Effect.lockAcquire, Effect.lockRelease, Effect.PlaybackEvent PlaybackStopped] ∧
    lockViolations 0 (effectsSince playingA playingA.Stop) = [Effect.playerDestroy playerA] ∧
    lockViolations 0 (effectsSince preparedB (preparedB.PrepareNextTrack "C")) =
      [Effect.playerDestroy playerB] ∧
    lockViolations 0 (effectsSince preparedB (preparedB.Start "C")) =
      [Effect.playerDestroy playerB, Effect.playerDestroy playerA] ∧
    effectsSince preparedB (preparedB.OnPlaybackAlmostEnded playerA) =
      [Effect.lockAcquire, Effect.lockRelease, Effect.lockAcquire, Effect.lockAcquire,
        Effect.lockRelease, Effect.lockAcquire, Effect.lockRelease, Effect.outputResume,
        Effect.playerPlay playerB, Effect.StreamEvent StreamScheduled "B", Effect.lockRelease,
        Effect.StreamEvent StreamAlmostDone "A"] ∧
    lockViolations 0 (effectsSince preparedB (preparedB.OnPlaybackAlmostEnded playerA)) =
      [Effect.lockAcquire, Effect.lockAcquire] ∧
    lockViolations 0 (effectsSince preparedB (preparedB.OnPlaybackFinished playerA)) =
      [Effect.lockAcquire, Effect.lockAcquire] ∧
    lockViolations 0 (effectsSince playingA (playingA.RemoveFromActive playerA)) = [] := by
  decide

/-- The same in every state: `Stop()` calls `Destroy` on every held player
while holding the lock; with a pending player, `OnPlaybackAlmostEnded` takes
the lock twice more while holding it; `RemoveFromActive` breaks no rule. -/
theorem lock_discipline_broken_general :
    (∀ t : GaplessTransport,
      lockViolations 0 (effectsSince t t.Stop) = t.held.map Effect.playerDestroy) ∧
    (∀ (t : GaplessTransport) (n p : Player), t.nextPlayer = some n →
      lockViolations 0 (effectsSince t (t.OnPlaybackAlmostEnded p)) =
        [Effect.lockAcquire, Effect.lockAcquire]) ∧
    (∀ (t : GaplessTransport) (p : Player),
      lockViolations 0 (effectsSince t (t.RemoveFromActive p)) = []) := by
  refine ⟨?_, ?_, ?_⟩
  · intro t
    have he : effectsSince t t.Stop =
        Effect.lockAcquire :: (t.held.map Effect.playerDestroy ++
          ([Effect.lockRelease, Effect.outputStop, Effect.lockAcquire, Effect.lockRelease] ++
            if t.state = PlaybackStopped then []
            else [Effect.PlaybackEvent PlaybackStopped])) := by
      rw [Stop_eq]
      simp [effectsSince, held]
    rw [he]
    show [] ++ lockViolations 1 _ = _
    rw [List.nil_append, lockViolations_destroy]
    by_cases hs : t.state = PlaybackStopped <;> simp [lockViolations, hs]
  · intro t n p hn
    rw [OnPlaybackAlmostEnded_pending t n p hn]
    simp [effectsSince, lockViolations]
  · intro t p
    by_cases hp : p ∈ t.active <;>
      simp [RemoveFromActive, emit, effectsSince, lockViolations, hp]

/-! ## `StartWithPlayer` and `OnPlaybackFinished` in general -/

theorem StartWithPlayer_eq (x : GaplessTransport) (p : Player) :
    x.StartWithPlayer (some p) =
      if x.nextPlayer = some p then
        { x with
          nextPlayer := none
          nextCanStart := false
          active := x.active ++ [p]
          trace := x.trace ++ [Effect.lockAcquire, Effect.lockRelease, Effect.lockAcquire,
            Effect.lockRelease, Effect.outputResume, Effect.playerPlay p,
            Effect.StreamEvent StreamScheduled p.url] }
      else
        { x with
          nextPlayer := none
          nextCanStart := false
          active := (x.active ++ [p]).filter (fun r => decide (some r = some p))
          trace := x.trace ++ [Effect.lockAcquire]
            ++ x.nextPlayer.toList.map Effect.playerDestroy
            ++ [Effect.lockRelease, Effect.lockAcquire]
            ++ ((x.active ++ [p]).filter (fun r => decide (some r ≠ some p))).map
                Effect.playerDestroy
            ++ [Effect.lockRelease, Effect.outputStop, Effect.lockAcquire, Effect.lockRelease,
              Effect.outputResume, Effect.playerPlay p,
              Effect.StreamEvent StreamScheduled p.url] } := by
  cases hn : x.nextPlayer with
  | none =>
    simp [GaplessTransport.StartWithPlayer, GaplessTransport.StopInternal,
      GaplessTransport.SetNextCanStart, GaplessTransport.emit,
      GaplessTransport.RaiseStreamEvent, GaplessTransport.RESET_NEXT_PLAYER,
      destroyAllBut_eq, hn]
  | some q =>
    by_cases hq : p = q
    · subst hq
      simp [GaplessTransport.StartWithPlayer, GaplessTransport.StopInternal,
        GaplessTransport.SetNextCanStart, GaplessTransport.emit,
        GaplessTransport.RaiseStreamEvent, GaplessTransport.RESET_NEXT_PLAYER, hn]
    · have hq2 : ¬ q = p := fun e => hq e.symm
      simp [GaplessTransport.StartWithPlayer, GaplessTransport.StopInternal,
        GaplessTransport.SetNextCanStart, GaplessTransport.emit,
        GaplessTransport.RaiseStreamEvent, GaplessTransport.RESET_NEXT_PLAYER,
        destroyAllBut_eq, hn, hq, hq2]

theorem OnPlaybackFinished_cases (t : GaplessTransport) (p : Player) :
    (∃ n, t.nextPlayer = some n ∧ t.active.head? = some p) ∨
    (∃ n, t.nextPlayer = some n ∧ t.active.head? ≠ some p ∧ t.active ≠ []) ∨
    (∃ n, t.nextPlayer = some n ∧ t.active = []) ∨
    (t.nextPlayer = none ∧ t.active = [p]) ∨
    (t.nextPlayer = none ∧ t.active = []) ∨
    (t.nextPlayer = none ∧ t.active ≠ [] ∧ t.active ≠ [p]) := by
  cases hn : t.nextPlayer with
  | none =>
    by_cases ha : t.active = []
    · exact Or.inr (Or.inr (Or.inr (Or.inr (Or.inl ⟨rfl, ha⟩))))
    · by_cases hp : t.active = [p]
      · exact Or.inr (Or.inr (Or.inr (Or.inl ⟨rfl, hp⟩)))
      · exact Or.inr (Or.inr (Or.inr (Or.inr (Or.inr ⟨rfl, ha, hp⟩))))
  | some n =>
    by_cases ha : t.active = []
    · exact Or.inr (Or.inr (Or.inl ⟨n, rfl, ha⟩))
    · by_cases hf : t.active.head? = some p
      · exact Or.inl ⟨n, rfl, hf⟩
      · exact Or.inr (Or.inl ⟨n, rfl, hf, ha⟩)

/-! ## The start gate and the pending slot -/

theorem gateOK_step (op : Op) (t : GaplessTransport) (h : GateOK t) : GateOK (step op t) := by
  cases op with
  | Start url =>
    intro _
    exact (StartWithPlayer_fields _ _).2.1
  | PrepareNextTrack url =>
    show GateOK (t.PrepareNextTrack url)
    cases hg : t.nextCanStart with
    | false =>
      rw [PrepareNextTrack_closed t url hg]
      intro hc
      exact absurd (hg.symm.trans hc) (by decide)
    | true =>
      rw [PrepareNextTrack_open t url hg]
      intro _
      rfl
  | Stop =>
    show GateOK t.Stop
    rw [Stop_eq]
    intro _
    rfl
  | Pause =>
    show GateOK t.Pause.2
    rw [Pause_eq]
    split <;> exact h
  | Resume =>
    show GateOK t.Resume.2
    rw [Resume_eq]
    split <;> exact h
  | GetPlaybackState => exact h
  | Position =>
    show GateOK (t.Position _).2
    rw [Position_eq]
    split <;> exact h
  | SetPosition seconds =>
    show GateOK (t.SetPosition seconds)
    rw [SetPosition_eq]
    split <;> exact h
  | IsMuted => exact h
  | SetMuted muted =>
    show GateOK (t.SetMuted muted)
    rw [SetMuted_eq]
    split <;> exact h
  | Volume => exact h
  | SetVolume volume =>
    show GateOK (t.SetVolume volume)
    rw [SetVolume_eq]
    exact h
  | OnPlaybackStarted player =>
    show GateOK (t.OnPlaybackStarted player)
    rw [OnPlaybackStarted_eq]
    exact h
  | OnPlaybackAlmostEnded player =>
    show GateOK (t.OnPlaybackAlmostEnded player)
    cases hn : t.nextPlayer with
    | none =>
      rw [OnPlaybackAlmostEnded_idle t player hn]
      intro _
      exact hn
    | some n =>
      rw [OnPlaybackAlmostEnded_pending t n player hn]
      intro _
      rfl
  | OnPlaybackFinished player =>
    show GateOK (t.OnPlaybackFinished player)
    rcases OnPlaybackFinished_cases t player with
      ⟨n, hn, hf⟩ | ⟨n, hn, hf, ha⟩ | ⟨n, hn, ha⟩ | ⟨hn, ha⟩ | ⟨hn, ha⟩ | ⟨hn, ha, hp⟩
    · rw [OnPlaybackFinished_front_pending t n player hn hf]
      intro _
      rfl
    · rw [OnPlaybackFinished_nonfront_pending t n player hn hf ha]
      exact h
    · rw [OnPlaybackFinished_empty_pending t n player hn ha]
      intro _
      rfl
    · rw [OnPlaybackFinished_last t player ha hn]
      exact h
    · rw [OnPlaybackFinished_empty_idle t player hn ha]
      exact h
    · rw [OnPlaybackFinished_idle t player hn ha hp]
      exact h
  | OnPlaybackError player =>
    show GateOK (t.OnPlaybackError player)
    rw [OnPlaybackError_eq]
    exact h

theorem gateOK_run (ops : List Op) : ∀ t : GaplessTransport, GateOK t → GateOK (run ops t) := by
  induction ops with
  | nil => intro t h; exact h
  | cons op ops ih => intro t h; exact ih _ (gateOK_step op t h)

/-- C20 — a pending player never waits behind an open gate.  In every state
reached from the initial state by a sequence of public operations and listener
callbacks (with arbitrary arguments), `nextCanStart = true` and a non-empty
pending slot never hold together: when the gate is open the pending slot is
empty, and when a player is pending the gate is closed. -/
theorem pending_never_behind_open_gate :
    (∀ ops : List Op,
      ¬ ((run ops init).nextCanStart = true ∧ (run ops init).nextPlayer.isSome = true)) ∧
    (∀ ops : List Op, (run ops init).nextCanStart = true → (run ops init).nextPlayer = none) ∧
    (∀ (ops : List Op) (n : Player),
      (run ops init).nextPlayer = some n → (run ops init).nextCanStart = false) := by
  have h : ∀ ops : List Op, GateOK (run ops init) :=
    fun ops => gateOK_run ops init (fun hc => absurd hc (by decide))
  refine ⟨?_, h, ?_⟩
  · rintro ops ⟨hg, hn⟩
    rw [h ops hg] at hn
    exact absurd hn (by decide)
  · intro ops n hn
    cases hg : (run ops init).nextCanStart with
    | false => rfl
    | true =>
      rw [h ops hg] at hn
      cases hn

/-- After `Start("A")`, `OnPlaybackStarted(A)`, `PrepareNextTrack("B")` the
player `B` is pending and the gate is closed; after `Start("A")`,
`OnPlaybackStarted(A)`, `OnPlaybackAlmostEnded(A)` the gate is open and nothing
is pending. -/
theorem pending_never_behind_open_gate_witness :
    (run [Op.Start "A", Op.OnPlaybackStarted playerA, Op.PrepareNextTrack "B"] init).nextPlayer
      = some playerB ∧
    (run [Op.Start "A", Op.OnPlaybackStarted playerA, Op.PrepareNextTrack "B"]
      init).nextCanStart = false ∧
    (run [Op.Start "A", Op.OnPlaybackStarted playerA, Op.OnPlaybackAlmostEnded playerA]
      init).nextCanStart = true ∧
    (run [Op.Start "A", Op.OnPlaybackStarted playerA, Op.OnPlaybackAlmostEnded playerA]
      init).nextPlayer = none :=
  ⟨by decide,
    pending_never_behind_open_gate.2.2
      [Op.Start "A", Op.OnPlaybackStarted playerA, Op.PrepareNextTrack "B"] playerB (by decide),
    by decide,
    pending_never_behind_open_gate.2.1
      [Op.Start "A", Op.OnPlaybackStarted playerA, Op.OnPlaybackAlmostEnded playerA]
      (by decide)⟩

/-! ## The start gate -/

theorem filterMap_scheduled_destroy (l : List Player) :
    List.filterMap (scheduled? ∘ Effect.playerDestroy) l = [] := by
  induction l with
  | nil => rfl
  | cons p rest ih => simp [scheduled?, ih]

theorem filterMap_scheduled_play (l : List Player) :
    List.filterMap (scheduled? ∘ Effect.playerPlay) l = [] := by
  induction l with
  | nil => rfl
  | cons p rest ih => simp [scheduled?, ih]

theorem scheduledUrls_append (a b : List Effect) :
    scheduledUrls (a ++ b) = scheduledUrls a ++ scheduledUrls b := by
  simp [scheduledUrls, List.filterMap_append]

theorem gate_frame {t t' : GaplessTransport} (op : Op)
    (hg : t'.nextCanStart = t.nextCanStart)
    (hs : scheduledUrls (effectsSince t t') = []) : GateStep op t t' :=
  ⟨fun h => absurd hs h, fun h => absurd hg h⟩

theorem gate_started {t t' : GaplessTransport} (op : Op)
    (hg : t'.nextCanStart = false)
    (hs : scheduledUrls (effectsSince t t') ≠ []) : GateStep op t t' :=
  ⟨fun _ => hg, fun _ => Or.inl hs⟩

theorem gate_step (op : Op) (t : GaplessTransport) : GateStep op t (step op t) := by
  cases op with
  | Start url =>
    show GateStep _ t ((t.PlayerCreate url).2.StartWithPlayer (some (t.PlayerCreate url).1))
    rw [StartWithPlayer_eq]
    split
    · apply gate_started _ (by rfl)
      simp [effectsSince, PlayerCreate, scheduledUrls, scheduled?]
    · apply gate_started _ (by rfl)
      simp [effectsSince, PlayerCreate, scheduledUrls, scheduled?, List.filterMap_append]
  | PrepareNextTrack url =>
    show GateStep _ t (t.PrepareNextTrack url)
    cases hg : t.nextCanStart with
    | false =>
      rw [PrepareNextTrack_closed t url hg]
      apply gate_frame _ (by rfl)
      cases hn : t.nextPlayer <;> simp [effectsSince, scheduledUrls, scheduled?, hn]
    | true =>
      rw [PrepareNextTrack_open t url hg]
      apply gate_started _ (by rfl)
      cases hn : t.nextPlayer <;> simp [effectsSince, scheduledUrls, scheduled?, hn]
  | Stop =>
    show GateStep _ t t.Stop
    rw [Stop_eq]
    apply gate_frame _ (by rfl)
    by_cases hs : t.state = PlaybackStopped <;>
      simp [effectsSince, scheduledUrls, scheduled?, hs, List.filterMap_append,
        List.filterMap_map, filterMap_scheduled_destroy]
  | Pause =>
    show GateStep _ t t.Pause.2
    rw [Pause_eq]
    by_cases ha : t.active = [] <;> by_cases hs : t.state = PlaybackPaused <;>
      simp only [ha, hs, if_true, if_false] <;> apply gate_frame _ (by rfl) <;>
      simp [effectsSince, scheduledUrls, scheduled?]
  | Resume =>
    show GateStep _ t t.Resume.2
    rw [Resume_eq]
    by_cases ha : t.active = [] <;> by_cases hs : t.state = PlaybackPlaying <;>
      simp only [ha, hs, if_true, if_false] <;> apply gate_frame _ (by rfl) <;>
      simp [effectsSince, scheduledUrls, scheduled?, List.filterMap_append,
        List.filterMap_map, filterMap_scheduled_play]
  | GetPlaybackState =>
    show GateStep _ t t.GetPlaybackState.2
    rw [GetPlaybackState_eq]
    apply gate_frame _ (by rfl)
    simp [effectsSince, scheduledUrls, scheduled?]
  | Position =>
    show GateStep _ t (t.Position _).2
    rw [Position_eq]
    cases ha : t.active <;> apply gate_frame _ (by rfl) <;>
      simp [effectsSince, scheduledUrls, scheduled?]
  | SetPosition seconds =>
    show GateStep _ t (t.SetPosition seconds)
    rw [SetPosition_eq]
    cases ha : t.active <;> apply gate_frame _ (by rfl) <;>
      simp [effectsSince, scheduledUrls, scheduled?]
  | IsMuted =>
    apply gate_frame _ (by rfl)
    simp [step, effectsSince, scheduledUrls]
  | SetMuted muted =>
    show GateStep _ t (t.SetMuted muted)
    rw [SetMuted_eq]
    by_cases hm : t.muted = muted <;> simp only [hm, if_true, if_false] <;>
      apply gate_frame _ (by rfl) <;> simp [effectsSince, scheduledUrls, scheduled?]
  | Volume =>
    apply gate_frame _ (by rfl)
    simp [step, effectsSince, scheduledUrls]
  | SetVolume volume =>
    show GateStep _ t (t.SetVolume volume)
    rw [SetVolume_eq]
    apply gate_frame _ (by rfl)
    by_cases hv : t.volume = max 0 (min 1 volume) <;>
      simp [effectsSince, scheduledUrls, scheduled?, hv]
  | OnPlaybackStarted player =>
    show GateStep _ t (t.OnPlaybackStarted player)
    rw [OnPlaybackStarted_eq]
    apply gate_frame _ (by rfl)
    by_cases hs : t.state = PlaybackPlaying <;>
      simp [effectsSince, scheduledUrls, scheduled?, hs]
  | OnPlaybackAlmostEnded player =>
    show GateStep _ t (t.OnPlaybackAlmostEnded player)
    cases hn : t.nextPlayer with
    | none =>
      rw [OnPlaybackAlmostEnded_idle t player hn]
      refine ⟨fun h => absurd ?_ h, fun _ => Or.inr ⟨player, rfl⟩⟩
      simp [effectsSince, scheduledUrls, scheduled?]
    | some n =>
      rw [OnPlaybackAlmostEnded_pending t n player hn]
      apply gate_started _ (by rfl)
      simp [effectsSince, scheduledUrls, scheduled?]
  | OnPlaybackFinished player =>
    show GateStep _ t (t.OnPlaybackFinished player)
    rcases OnPlaybackFinished_cases t player with
      ⟨n, hn, hf⟩ | ⟨n, hn, hf, ha⟩ | ⟨n, hn, ha⟩ | ⟨hn, ha⟩ | ⟨hn, ha⟩ | ⟨hn, ha, hp⟩
    · rw [OnPlaybackFinished_front_pending t n player hn hf]
      apply gate_started _ (by rfl)
      simp [effectsSince, scheduledUrls, scheduled?]
    · rw [OnPlaybackFinished_nonfront_pending t n player hn hf ha]
      apply gate_frame _ (by rfl)
      by_cases hm : player ∈ t.active <;> simp [effectsSince, scheduledUrls, scheduled?, hm]
    · rw [OnPlaybackFinished_empty_pending t n player hn ha]
      apply gate_frame _ (by rfl)
      by_cases hs : t.state = PlaybackStopped <;>
        simp [effectsSince, scheduledUrls, scheduled?, hs]
    · rw [OnPlaybackFinished_last t player ha hn]
      apply gate_frame _ (by rfl)
      by_cases hs : t.state = PlaybackStopped <;>
        simp [effectsSince, scheduledUrls, scheduled?, hs]
    · rw [OnPlaybackFinished_empty_idle t player hn ha]
      apply gate_frame _ (by rfl)
      by_cases hs : t.state = PlaybackStopped <;>
        simp [effectsSince, scheduledUrls, scheduled?, hs]
    · rw [OnPlaybackFinished_idle t player hn ha hp]
      apply gate_frame _ (by rfl)
      by_cases hm : player ∈ t.active <;> simp [effectsSince, scheduledUrls, scheduled?, hm]
  | OnPlaybackError player =>
    show GateStep _ t (t.OnPlaybackError player)
    rw [OnPlaybackError_eq]
    apply gate_frame _ (by rfl)
    by_cases hs : t.state = PlaybackStopped <;> by_cases hm : player ∈ t.active <;>
      simp [effectsSince, scheduledUrls, scheduled?, hs, hm]

theorem run_append (a b : List Op) (t : GaplessTransport) :
    run (a ++ b) t = run b (run a t) := by
  simp [run, List.foldl_append]

theorem run_trace (ops : List Op) (t : GaplessTransport) :
    ∃ E, (run ops t).trace = t.trace ++ E := by
  obtain ⟨E, h, _⟩ := run_chain ops t
  exact ⟨E, h⟩

theorem step_trace (op : Op) (t : GaplessTransport) :
    ∃ E, (step op t).trace = t.trace ++ E := by
  obtain ⟨E, h, _⟩ := step_atMostOne op t
  exact ⟨E, h⟩

theorem effectsSince_trans {a b c : GaplessTransport}
    (h1 : ∃ E, b.trace = a.trace ++ E) (h2 : ∃ E, c.trace = b.trace ++ E) :
    effectsSince a c = effectsSince a b ++ effectsSince b c := by
  obtain ⟨E1, h1⟩ := h1
  obtain ⟨E2, h2⟩ := h2
  have h3 : c.trace = a.trace ++ (E1 ++ E2) := by rw [h2, h1, List.append_assoc]
  rw [effectsSince_of_trace h1, effectsSince_of_trace h2, effectsSince_of_trace h3]

theorem almostEnded_opens (t : GaplessTransport) (p : Player)
    (h : scheduledUrls (effectsSince t (t.OnPlaybackAlmostEnded p)) = []) :
    (t.OnPlaybackAlmostEnded p).nextCanStart = true := by
  cases hn : t.nextPlayer with
  | none => rw [OnPlaybackAlmostEnded_idle t p hn]
  | some n =>
    rw [OnPlaybackAlmostEnded_pending t n p hn] at h
    simp [effectsSince, scheduledUrls, scheduled?] at h

theorem gate_open_only_if (ops : List Op) :
    (run ops init).nextCanStart = true →
      ∃ pre p post, ops = pre ++ Op.OnPlaybackAlmostEnded p :: post ∧
        scheduledUrls (effectsSince (run pre init) (run ops init)) = [] := by
  induction ops using List.reverseRecOn with
  | nil => intro h; exact absurd h (by decide)
  | append_singleton ops op ih =>
    intro h
    have hrun : run (ops ++ [op]) init = step op (run ops init) := by
      rw [run_append]; rfl
    rw [hrun] at h ⊢
    obtain ⟨h1, h2⟩ := gate_step op (run ops init)
    have hs : scheduledUrls (effectsSince (run ops init) (step op (run ops init))) = [] := by
      by_contra hne
      rw [h1 hne] at h
      exact absurd h (by decide)
    cases hg : (run ops init).nextCanStart with
    | true =>
      obtain ⟨pre, p, post, hops, hnone⟩ := ih hg
      refine ⟨pre, p, post ++ [op], by rw [hops]; simp, ?_⟩
      have hpre : ∃ E, (run ops init).trace = (run pre init).trace ++ E := by
        have := run_trace (Op.OnPlaybackAlmostEnded p :: post) (run pre init)
        rw [← run_append, ← hops] at this
        exact this
      rw [effectsSince_trans hpre (step_trace op _), scheduledUrls_append, hnone, hs]
      rfl
    | false =>
      have hne : (step op (run ops init)).nextCanStart ≠ (run ops init).nextCanStart := by
        rw [h, hg]; decide
      rcases h2 hne with h3 | ⟨p, hp⟩
      · exact absurd hs h3
      · exact ⟨ops, p, [], by rw [hp], hs⟩

theorem gate_open_if (pre : List Op) (p : Player) (post : List Op) :
    scheduledUrls (effectsSince (run pre init)
        (run (pre ++ Op.OnPlaybackAlmostEnded p :: post) init)) = [] →
      (run (pre ++ Op.OnPlaybackAlmostEnded p :: post) init).nextCanStart = true := by
  induction post using List.reverseRecOn with
  | nil =>
    intro h
    have hrun : run (pre ++ [Op.OnPlaybackAlmostEnded p]) init =
        (run pre init).OnPlaybackAlmostEnded p := by
      rw [run_append]; rfl
    rw [hrun] at h ⊢
    exact almostEnded_opens _ p h
  | append_singleton post op ih =>
    intro h
    have hrun : run (pre ++ Op.OnPlaybackAlmostEnded p :: (post ++ [op])) init =
        step op (run (pre ++ Op.OnPlaybackAlmostEnded p :: post) init) := by
      rw [← List.cons_append, ← List.append_assoc, run_append]; rfl
    rw [hrun] at h ⊢
    have hpre : ∃ E, (run (pre ++ Op.OnPlaybackAlmostEnded p :: post) init).trace =
        (run pre init).trace ++ E := by
      have := run_trace (Op.OnPlaybackAlmostEnded p :: post) (run pre init)
      rw [← run_append] at this
      exact this
    rw [effectsSince_trans hpre (step_trace op _), scheduledUrls_append,
      List.append_eq_nil] at h
    have hg := ih h.1
    obtain ⟨_, h2⟩ := gate_step op (run (pre ++ Op.OnPlaybackAlmostEnded p :: post) init)
    by_contra hne
    have hne2 : (step op (run (pre ++ Op.OnPlaybackAlmostEnded p :: post) init)).nextCanStart
        ≠ (run (pre ++ Op.OnPlaybackAlmostEnded p :: post) init).nextCanStart := by
      rw [hg]; exact hne
    rcases h2 hne2 with h3 | ⟨q, hq⟩
    · exact h3 h.2
    · apply hne
      rw [hq]
      apply almostEnded_opens
      have h4 := h.2
      rw [hq] at h4
      exact h4

/-- C18, as the claim states it: after `Start("A")`, `OnPlaybackStarted(A)`,
`OnPlaybackAlmostEnded(A)`, `OnPlaybackFinished(A)` (the callbacks of a started
player, in order) the transport is Stopped with no active player and
`nextCanStart` is true; the same holds with `Stop()` in place of the last
callback. -/
theorem gate_open_when_stopped_counterexample :
    (run [Op.Start "A", Op.OnPlaybackStarted playerA, Op.OnPlaybackAlmostEnded playerA,
      Op.OnPlaybackFinished playerA] init).nextCanStart = true ∧
    (run [Op.Start "A", Op.OnPlaybackStarted playerA, Op.OnPlaybackAlmostEnded playerA,
      Op.OnPlaybackFinished playerA] init).active = [] ∧
    (run [Op.Start "A", Op.OnPlaybackStarted playerA, Op.OnPlaybackAlmostEnded playerA,
      Op.OnPlaybackFinished playerA] init).state = PlaybackStopped ∧
    (run [Op.Start "A", Op.OnPlaybackStarted playerA, Op.OnPlaybackAlmostEnded playerA,
      Op.Stop] init).nextCanStart = true ∧
    (run [Op.Start "A", Op.OnPlaybackStarted playerA, Op.OnPlaybackAlmostEnded playerA,
      Op.Stop] init).active = [] := by
  decide

/-- C18, amended — when the start gate is open.  In every state reached from
the initial state by a sequence of operations and callbacks, `nextCanStart` is
true if and only if some `OnPlaybackAlmostEnded` callback was delivered and no
player has been started (no Scheduled stream event raised) during or since
that callback.  Step by step, from every state: an operation that starts a
player leaves `nextCanStart` false, and an operation that changes
`nextCanStart` either starts a player or is an `OnPlaybackAlmostEnded`
callback.  `Stop()` empties the active set and leaves `nextCanStart` as it
was, so the gate can be open with no active player. -/
theorem nextCanStart_characterised :
    (∀ ops : List Op,
      (run ops init).nextCanStart = true ↔
        ∃ pre p post, ops = pre ++ Op.OnPlaybackAlmostEnded p :: post ∧
          scheduledUrls (effectsSince (run pre init) (run ops init)) = []) ∧
    (∀ (t : GaplessTransport) (op : Op),
      scheduledUrls (effectsSince t (step op t)) ≠ [] → (step op t).nextCanStart = false) ∧
    (∀ (t : GaplessTransport) (op : Op),
      (step op t).nextCanStart ≠ t.nextCanStart →
        scheduledUrls (effectsSince t (step op t)) ≠ [] ∨
          ∃ p, op = Op.OnPlaybackAlmostEnded p) ∧
    (∀ t : GaplessTransport, t.Stop.nextCanStart = t.nextCanStart ∧ t.Stop.active = []) := by
  refine ⟨?_, fun t op => (gate_step op t).1, fun t op => (gate_step op t).2, ?_⟩
  · intro ops
    constructor
    · exact gate_open_only_if ops
    · rintro ⟨pre, p, post, hops, h⟩
      rw [hops] at h ⊢
      exact gate_open_if pre p post h
  · intro t
    rw [Stop_eq]
    exact ⟨rfl, rfl⟩

/-- After `Start("A")`, `OnPlaybackStarted(A)`, `OnPlaybackAlmostEnded(A)`,
`Stop()` the gate is open, since no player was started after the callback;
`PrepareNextTrack("B")` at that point starts `B`, and the gate is closed
again. -/
theorem nextCanStart_characterised_witness :
    (run [Op.Start "A", Op.OnPlaybackStarted playerA, Op.OnPlaybackAlmostEnded playerA,
      Op.Stop] init).nextCanStart = true ∧
    scheduledUrls (effectsSince
      (run [Op.Start "A", Op.OnPlaybackStarted playerA, Op.OnPlaybackAlmostEnded playerA,
        Op.Stop] init)
      (step (Op.PrepareNextTrack "B")
        (run [Op.Start "A", Op.OnPlaybackStarted playerA, Op.OnPlaybackAlmostEnded playerA,
          Op.Stop] init))) = ["B"] ∧
    (step (Op.PrepareNextTrack "B")
      (run [Op.Start "A", Op.OnPlaybackStarted playerA, Op.OnPlaybackAlmostEnded playerA,
        Op.Stop] init)).nextCanStart = false :=
  ⟨(nextCanStart_characterised.1 _).mpr
      ⟨[Op.Start "A", Op.OnPlaybackStarted playerA], playerA, [Op.Stop], rfl, by decide⟩,
    by decide,
    nextCanStart_characterised.2.1 _ (Op.PrepareNextTrack "B") (by decide)⟩

/-! ## Ownership over the whole history -/

theorem destroyCalls_append (a b : List Effect) :
    destroyCalls (a ++ b) = destroyCalls a ++ destroyCalls b := by
  simp [destroyCalls, List.filterMap_append]

theorem playCalls_append (a b : List Effect) :
    playCalls (a ++ b) = playCalls a ++ playCalls b := by
  simp [playCalls, List.filterMap_append]

theorem safe_extend {t t' : GaplessTransport} (D P : List Player) (h : Safe t)
    (hO : Owned t') (hT : ∃ E, t'.trace = t.trace ++ E)
    (hD : destroyCalls (effectsSince t t') = D)
    (hP : playCalls (effectsSince t t') = P)
    (hD1 : D.Nodup) (hD2 : ∀ p ∈ D, p ∈ t.held) (hD3 : ∀ p ∈ D, p ∉ t'.held)
    (hH : ∀ p ∈ t'.held, p ∈ t.held ∨ t.created ≤ p.id)
    (hC : t.created ≤ t'.created)
    (hP2 : ∀ p ∈ P, p ∈ t'.held) : Safe t' := by
  obtain ⟨E, hE⟩ := hT
  rw [effectsSince_of_trace hE] at hD hP
  obtain ⟨hOt, hnd, hdes, hplay⟩ := h
  have hold : ∀ p ∈ destroyCalls t.trace, p ∉ t'.held := by
    intro p hp hmem
    rcases hH p hmem with h1 | h1
    · exact (hdes p hp).1 h1
    · exact absurd (hdes p hp).2 (Nat.not_lt.mpr h1)
  refine ⟨hO, ?_, ?_, ?_⟩
  · rw [hE, destroyCalls_append, hD, List.nodup_append]
    refine ⟨hnd, hD1, ?_⟩
    intro p hp1 hp2
    exact (hdes p hp1).1 (hD2 p hp2)
  · intro p hp
    rw [hE, destroyCalls_append, hD, List.mem_append] at hp
    rcases hp with hp | hp
    · exact ⟨hold p hp, Nat.lt_of_lt_of_le (hdes p hp).2 hC⟩
    · exact ⟨hD3 p hp, Nat.lt_of_lt_of_le (hOt.2 p (hD2 p hp)) hC⟩
  · intro pre post p hsplit
    rw [hE] at hsplit
    rcases List.append_eq_append_iff.mp hsplit with ⟨a, hpre, hEa⟩ | ⟨c, htr, hc⟩
    · have hpin : p ∈ P := by
        rw [← hP, hEa, playCalls_append]
        simp [playCalls, played?]
      have hheld := hP2 p hpin
      rw [hpre, destroyCalls_append, List.mem_append]
      rintro (h1 | h1)
      · exact hold p h1 hheld
      · apply hD3 p _ hheld
        rw [← hD, hEa, destroyCalls_append]
        exact List.mem_append_left _ h1
    · cases c with
      | nil =>
        simp only [List.nil_append] at hc
        simp only [List.append_nil] at htr
        have hpin : p ∈ P := by
          rw [← hP, ← hc]
          simp [playCalls, played?]
        have hheld := hP2 p hpin
        rw [← htr]
        exact fun h1 => hold p h1 hheld
      | cons e c =>
        simp only [List.cons_append, List.cons.injEq] at hc
        rw [← hc.1] at htr
        exact hplay pre c p htr

theorem safe_frame {t t' : GaplessTransport} (h : Safe t)
    (hT : ∃ E, t'.trace = t.trace ++ E)
    (hD : destroyCalls (effectsSince t t') = [])
    (hP : playCalls (effectsSince t t') = [])
    (hH : t'.held = t.held) (hC : t'.created = t.created) : Safe t' := by
  have hO : Owned t' := by
    refine ⟨hH ▸ h.1.1, ?_⟩
    intro p hp
    rw [hC]
    exact h.1.2 p (hH ▸ hp)
  refine safe_extend [] [] h hO hT hD hP List.nodup_nil ?_ ?_ ?_ (Nat.le_of_eq hC.symm) ?_
  · intro p hp; cases hp
  · intro p hp; cases hp
  · intro p hp; exact Or.inl (hH ▸ hp)
  · intro p hp; cases hp

theorem owned_active_nodup {t : GaplessTransport} (h : Owned t) : t.active.Nodup :=
  List.Nodup.of_append_right h.1

theorem owned_pending_not_active {t : GaplessTransport} {n : Player} (h : Owned t)
    (hn : t.nextPlayer = some n) : n ∉ t.active := by
  intro hmem
  exact List.disjoint_of_nodup_append h.1 (by simp [hn]) hmem

theorem filterMap_played_play (l : List Player) :
    List.filterMap (played? ∘ Effect.playerPlay) l = l := by
  induction l with
  | nil => rfl
  | cons p rest ih => simp [played?, ih]

theorem safe_Start {t : GaplessTransport} (url : String) (h : Safe t) : Safe (t.Start url) := by
  have hfresh := owned_fresh url h.1
  have hO : Owned (t.Start url) := owned_Start url h.1
  have hT : ∃ E, (t.Start url).trace = t.trace ++ E := step_trace (Op.Start url) t
  refine safe_extend t.held [(t.PlayerCreate url).1] h hO hT ?_ ?_ h.1.1 (fun _ hp => hp)
    ?_ ?_ ?_ ?_
  all_goals rw [Start_fresh t url hfresh]
  · cases hn : t.nextPlayer <;>
      simp [effectsSince, destroyCalls, destroyed?, held, hn, List.filterMap_append,
        List.filterMap_map, filterMap_destroyed_destroy]
  · simp [effectsSince, playCalls, played?, List.filterMap_append, List.filterMap_map,
      filterMap_played_destroy]
  · intro p hp hmem
    simp only [held, Option.toList_none, List.nil_append, List.mem_singleton] at hmem
    exact hfresh (hmem ▸ hp)
  · intro p hp
    simp only [held, Option.toList_none, List.nil_append, List.mem_singleton] at hp
    exact Or.inr (hp ▸ Nat.le_refl _)
  · exact Nat.le_succ _
  · intro p hp
    simpa [held] using hp

theorem safe_PrepareNextTrack {t : GaplessTransport} (url : String) (h : Safe t) :
    Safe (t.PrepareNextTrack url) := by
  have hO : Owned (t.PrepareNextTrack url) := owned_PrepareNextTrack url h.1
  have hT : ∃ E, (t.PrepareNextTrack url).trace = t.trace ++ E :=
    step_trace (Op.PrepareNextTrack url) t
  have hpend : ∀ p ∈ t.nextPlayer.toList, p ∈ t.held :=
    fun p hp => List.mem_append_left _ hp
  have hpendnd : t.nextPlayer.toList.Nodup := List.Nodup.of_append_left h.1.1
  have hne : ∀ p ∈ t.held, p ≠ ({ id := t.created, url := url } : Player) := by
    intro p hp e
    have := h.1.2 p hp
    rw [e] at this
    exact Nat.lt_irrefl _ this
  cases hg : t.nextCanStart with
  | false =>
    refine safe_extend t.nextPlayer.toList [] h hO hT ?_ ?_ hpendnd hpend ?_ ?_ ?_ ?_
    all_goals rw [PrepareNextTrack_closed t url hg]
    · cases hn : t.nextPlayer <;> simp [effectsSince, destroyCalls, destroyed?, hn]
    · cases hn : t.nextPlayer <;> simp [effectsSince, playCalls, played?, hn]
    · intro p hp hmem
      simp only [held, Option.toList_some, List.singleton_append, List.mem_cons] at hmem
      rcases hmem with hmem | hmem
      · exact hne p (hpend p hp) hmem
      · exact List.disjoint_of_nodup_append h.1.1 hp hmem
    · intro p hp
      simp only [held, Option.toList_some, List.singleton_append, List.mem_cons] at hp
      rcases hp with hp | hp
      · exact Or.inr (hp ▸ Nat.le_refl _)
      · left; exact List.mem_append_right _ hp
    · exact Nat.le_succ _
    · intro p hp; cases hp
  | true =>
    refine safe_extend t.nextPlayer.toList [{ id := t.created, url := url }] h hO hT ?_ ?_
      hpendnd hpend ?_ ?_ ?_ ?_
    all_goals rw [PrepareNextTrack_open t url hg]
    · cases hn : t.nextPlayer <;> simp [effectsSince, destroyCalls, destroyed?, hn]
    · cases hn : t.nextPlayer <;> simp [effectsSince, playCalls, played?, hn]
    · intro p hp hmem
      simp only [held, Option.toList_none, List.nil_append, List.mem_append,
        List.mem_singleton] at hmem
      rcases hmem with hmem | hmem
      · exact List.disjoint_of_nodup_append h.1.1 hp hmem
      · exact hne p (hpend p hp) hmem
    · intro p hp
      simp only [held, Option.toList_none, List.nil_append, List.mem_append,
        List.mem_singleton] at hp
      rcases hp with hp | hp
      · left; exact List.mem_append_right _ hp
      · exact Or.inr (hp ▸ Nat.le_refl _)
    · exact Nat.le_succ _
    · intro p hp
      simp only [List.mem_singleton] at hp
      simp [held, hp]

theorem safe_Stop {t : GaplessTransport} (h : Safe t) : Safe t.Stop := by
  have hO : Owned t.Stop := owned_Stop h.1
  have hT : ∃ E, t.Stop.trace = t.trace ++ E := step_trace Op.Stop t
  refine safe_extend t.held [] h hO hT ?_ ?_ h.1.1 (fun _ hp => hp) ?_ ?_ ?_ ?_
  all_goals rw [Stop_eq]
  · by_cases hs : t.state = PlaybackStopped <;> cases hn : t.nextPlayer <;>
      simp [effectsSince, destroyCalls, destroyed?, held, hs, hn, List.filterMap_append,
        List.filterMap_map, filterMap_destroyed_destroy]
  · by_cases hs : t.state = PlaybackStopped <;> cases hn : t.nextPlayer <;>
      simp [effectsSince, playCalls, played?, hs, hn, List.filterMap_append,
        List.filterMap_map, filterMap_played_destroy]
  · intro p _ hmem
    simp [held] at hmem
  · intro p hp
    simp [held] at hp
  · intro p hp; cases hp

theorem safe_Pause {t : GaplessTransport} (h : Safe t) : Safe t.Pause.2 := by
  refine safe_frame h (step_trace Op.Pause t) ?_ ?_ ?_ ?_
  all_goals rw [Pause_eq]
  all_goals by_cases ha : t.active = [] <;> by_cases hs : t.state = PlaybackPaused <;>
    simp [effectsSince, destroyCalls, destroyed?, playCalls, played?, held, ha, hs]

theorem safe_Resume {t : GaplessTransport} (h : Safe t) : Safe t.Resume.2 := by
  have hO : Owned t.Resume.2 := owned_Resume h.1
  have hT : ∃ E, t.Resume.2.trace = t.trace ++ E := step_trace Op.Resume t
  refine safe_extend [] t.active h hO hT ?_ ?_ List.nodup_nil ?_ ?_ ?_ ?_ ?_
  · rw [Resume_eq]
    by_cases ha : t.active = [] <;> by_cases hs : t.state = PlaybackPlaying <;>
      simp [effectsSince, destroyCalls, destroyed?, ha, hs, List.filterMap_append,
        List.filterMap_map, filterMap_destroyed_play]
  · rw [Resume_eq]
    by_cases ha : t.active = [] <;> by_cases hs : t.state = PlaybackPlaying <;>
      simp [effectsSince, playCalls, played?, ha, hs, List.filterMap_append,
        List.filterMap_map, filterMap_played_play]
  · intro p hp; cases hp
  · intro p hp; cases hp
  · intro p hp
    left
    rw [Resume_eq] at hp
    by_cases ha : t.active = [] <;> simpa [held, ha] using hp
  · rw [Resume_eq]
    by_cases ha : t.active = [] <;> simp [ha]
  · intro p hp
    rw [Resume_eq]
    by_cases ha : t.active = []
    · rw [ha] at hp; cases hp
    · simp [held, ha, hp]

theorem safe_GetPlaybackState {t : GaplessTransport} (h : Safe t) :
    Safe t.GetPlaybackState.2 := by
  refine safe_frame h (step_trace Op.GetPlaybackState t) ?_ ?_ ?_ ?_
  all_goals rw [GetPlaybackState_eq]
  all_goals simp [effectsSince, destroyCalls, destroyed?, playCalls, played?, held]

theorem safe_Position {t : GaplessTransport} (f : Player → ℚ) (h : Safe t) :
    Safe (t.Position f).2 := by
  have hT : ∃ E, (t.Position f).2.trace = t.trace ++ E := by
    rw [Position_eq]
    cases ha : t.active
    · exact ⟨_, rfl⟩
    · exact ⟨_, rfl⟩
  refine safe_frame h hT ?_ ?_ ?_ ?_
  all_goals rw [Position_eq]
  all_goals cases ha : t.active <;>
    simp [effectsSince, destroyCalls, destroyed?, playCalls, played?, held, ha]

theorem safe_SetPosition {t : GaplessTransport} (seconds : ℚ) (h : Safe t) :
    Safe (t.SetPosition seconds) := by
  refine safe_frame h (step_trace (Op.SetPosition seconds) t) ?_ ?_ ?_ ?_
  all_goals rw [SetPosition_eq]
  all_goals cases ha : t.active <;>
    simp [effectsSince, destroyCalls, destroyed?, playCalls, played?, held, ha]

theorem safe_SetMuted {t : GaplessTransport} (muted : Bool) (h : Safe t) :
    Safe (t.SetMuted muted) := by
  refine safe_frame h (step_trace (Op.SetMuted muted) t) ?_ ?_ ?_ ?_
  all_goals rw [SetMuted_eq]
  all_goals by_cases hm : t.muted = muted <;>
    simp [effectsSince, destroyCalls, destroyed?, playCalls, played?, held, hm]

theorem safe_SetVolume {t : GaplessTransport} (volume : ℚ) (h : Safe t) :
    Safe (t.SetVolume volume) := by
  refine safe_frame h (step_trace (Op.SetVolume volume) t) ?_ ?_ ?_ ?_
  all_goals rw [SetVolume_eq]
  all_goals by_cases hv : t.volume = max 0 (min 1 volume) <;>
    simp [effectsSince, destroyCalls, destroyed?, playCalls, played?, held, hv]

theorem safe_OnPlaybackStarted {t : GaplessTransport} (player : Player) (h : Safe t) :
    Safe (t.OnPlaybackStarted player) := by
  refine safe_frame h (step_trace (Op.OnPlaybackStarted player) t) ?_ ?_ ?_ ?_
  all_goals rw [OnPlaybackStarted_eq]
  all_goals by_cases hs : t.state = PlaybackPlaying <;>
    simp [effectsSince, destroyCalls, destroyed?, playCalls, played?, held, hs]

theorem safe_OnPlaybackAlmostEnded {t : GaplessTransport} (player : Player) (h : Safe t) :
    Safe (t.OnPlaybackAlmostEnded player) := by
  have hO : Owned (t.OnPlaybackAlmostEnded player) := owned_OnPlaybackAlmostEnded player h.1
  have hT : ∃ E, (t.OnPlaybackAlmostEnded player).trace = t.trace ++ E :=
    step_trace (Op.OnPlaybackAlmostEnded player) t
  cases hn : t.nextPlayer with
  | none =>
    refine safe_frame h hT ?_ ?_ ?_ ?_
    all_goals rw [OnPlaybackAlmostEnded_idle t player hn]
    all_goals simp [effectsSince, destroyCalls, destroyed?, playCalls, played?, held]
  | some n =>
    refine safe_extend [] [n] h hO hT ?_ ?_ List.nodup_nil ?_ ?_ ?_ ?_ ?_
    · rw [OnPlaybackAlmostEnded_pending t n player hn]
      simp [effectsSince, destroyCalls, destroyed?]
    · rw [OnPlaybackAlmostEnded_pending t n player hn]
      simp [effectsSince, playCalls, played?]
    · intro p hp; cases hp
    · intro p hp; cases hp
    · intro p hp
      left
      rw [OnPlaybackAlmostEnded_pending t n player hn] at hp
      simp only [held, Option.toList_none, List.nil_append, List.mem_append,
        List.mem_singleton] at hp
      rcases hp with hp | hp
      · exact List.mem_append_right _ hp
      · simp [held, hn, hp]
    · rw [OnPlaybackAlmostEnded_pending t n player hn]
    · intro p hp
      rw [OnPlaybackAlmostEnded_pending t n player hn]
      simp only [List.mem_singleton] at hp
      simp [held, hp]

theorem safe_retire {t t' : GaplessTransport} (p : Player) (h : Safe t)
    (hO : Owned t') (hT : ∃ E, t'.trace = t.trace ++ E)
    (hD : destroyCalls (effectsSince t t') = if p ∈ t.active then [p] else [])
    (hP : playCalls (effectsSince t t') = [])
    (hH : t'.held = t.nextPlayer.toList ++ t.active.erase p)
    (hC : t'.created = t.created) : Safe t' := by
  have hnot : p ∈ t.active → p ∉ t'.held := by
    intro hp hmem
    rw [hH, List.mem_append] at hmem
    rcases hmem with hmem | hmem
    · exact List.disjoint_of_nodup_append h.1.1 hmem hp
    · exact (owned_active_nodup h.1).not_mem_erase hmem
  refine safe_extend (if p ∈ t.active then [p] else []) [] h hO hT hD hP ?_ ?_ ?_ ?_
    (Nat.le_of_eq hC.symm) ?_
  · split
    · exact List.nodup_singleton p
    · exact List.nodup_nil
  · intro q hq
    split at hq
    · rw [List.mem_singleton] at hq
      rw [hq]
      exact List.mem_append_right _ (by assumption)
    · cases hq
  · intro q hq
    split at hq
    · rw [List.mem_singleton] at hq
      rw [hq]
      exact hnot (by assumption)
    · cases hq
  · intro q hq
    left
    rw [hH, List.mem_append] at hq
    rcases hq with hq | hq
    · exact List.mem_append_left _ hq
    · exact List.mem_append_right _ (List.mem_of_mem_erase hq)
  · intro q hq; cases hq

theorem safe_OnPlaybackError {t : GaplessTransport} (player : Player) (h : Safe t) :
    Safe (t.OnPlaybackError player) := by
  refine safe_retire player h (owned_OnPlaybackError player h.1)
    (step_trace (Op.OnPlaybackError player) t) ?_ ?_ ?_ ?_
  all_goals rw [OnPlaybackError_eq]
  · by_cases hs : t.state = PlaybackStopped <;> by_cases hp : player ∈ t.active <;>
      simp [effectsSince, destroyCalls, destroyed?, hs, hp]
  · by_cases hs : t.state = PlaybackStopped <;> by_cases hp : player ∈ t.active <;>
      simp [effectsSince, playCalls, played?, hs, hp]
  · rfl

theorem safe_OnPlaybackFinished {t : GaplessTransport} (player : Player) (h : Safe t) :
    Safe (t.OnPlaybackFinished player) := by
  have hO : Owned (t.OnPlaybackFinished player) := owned_OnPlaybackFinished player h.1
  have hT : ∃ E, (t.OnPlaybackFinished player).trace = t.trace ++ E :=
    step_trace (Op.OnPlaybackFinished player) t
  rcases OnPlaybackFinished_cases t player with
    ⟨n, hn, hf⟩ | ⟨n, hn, hf, ha⟩ | ⟨n, hn, ha⟩ | ⟨hn, ha⟩ | ⟨hn, ha⟩ | ⟨hn, ha, hp⟩
  · have hmem : player ∈ t.active := by
      cases hact : t.active with
      | nil => rw [hact] at hf; cases hf
      | cons a l =>
        rw [hact] at hf
        simp only [List.head?_cons, Option.some.injEq] at hf
        rw [hf]
        exact List.mem_cons_self _ _
    have hnp : n ≠ player := fun e => owned_pending_not_active h.1 hn (e ▸ hmem)
    refine safe_extend [player] [n] h hO hT ?_ ?_ (List.nodup_singleton _) ?_ ?_ ?_ ?_ ?_
    · rw [OnPlaybackFinished_front_pending t n player hn hf]
      simp [effectsSince, destroyCalls, destroyed?]
    · rw [OnPlaybackFinished_front_pending t n player hn hf]
      simp [effectsSince, playCalls, played?]
    · intro q hq
      rw [List.mem_singleton] at hq
      rw [hq]
      exact List.mem_append_right _ hmem
    · intro q hq hheld
      rw [List.mem_singleton] at hq
      rw [OnPlaybackFinished_front_pending t n player hn hf, hq] at hheld
      simp only [held, Option.toList_none, List.nil_append, List.mem_append,
        List.mem_singleton] at hheld
      rcases hheld with h1 | h1
      · exact (owned_active_nodup h.1).not_mem_erase h1
      · exact hnp h1.symm
    · intro q hq
      left
      rw [OnPlaybackFinished_front_pending t n player hn hf] at hq
      simp only [held, Option.toList_none, List.nil_append, List.mem_append,
        List.mem_singleton] at hq
      rcases hq with h1 | h1
      · exact List.mem_append_right _ (List.mem_of_mem_erase h1)
      · simp [held, hn, h1]
    · rw [OnPlaybackFinished_front_pending t n player hn hf]
    · intro q hq
      rw [List.mem_singleton] at hq
      rw [OnPlaybackFinished_front_pending t n player hn hf]
      simp [held, hq]
  · refine safe_retire player h hO hT ?_ ?_ ?_ ?_
    all_goals rw [OnPlaybackFinished_nonfront_pending t n player hn hf ha]
    · by_cases hm : player ∈ t.active <;> simp [effectsSince, destroyCalls, destroyed?, hm]
    · by_cases hm : player ∈ t.active <;> simp [effectsSince, playCalls, played?, hm]
    · rfl
  · refine safe_extend [n] [] h hO hT ?_ ?_ (List.nodup_singleton _) ?_ ?_ ?_ ?_ ?_
    · rw [OnPlaybackFinished_empty_pending t n player hn ha]
      by_cases hs : t.state = PlaybackStopped <;>
        simp [effectsSince, destroyCalls, destroyed?, hs]
    · rw [OnPlaybackFinished_empty_pending t n player hn ha]
      by_cases hs : t.state = PlaybackStopped <;>
        simp [effectsSince, playCalls, played?, hs]
    · intro q hq
      rw [List.mem_singleton] at hq
      simp [held, hn, hq]
    · intro q _ hheld
      rw [OnPlaybackFinished_empty_pending t n player hn ha] at hheld
      simp [held, ha] at hheld
    · intro q hq
      rw [OnPlaybackFinished_empty_pending t n player hn ha] at hq
      simp [held, ha] at hq
    · rw [OnPlaybackFinished_empty_pending t n player hn ha]
    · intro q hq; cases hq
  · refine safe_extend [player] [] h hO hT ?_ ?_ (List.nodup_singleton _) ?_ ?_ ?_ ?_ ?_
    · rw [OnPlaybackFinished_last t player ha hn]
      by_cases hs : t.state = PlaybackStopped <;>
        simp [effectsSince, destroyCalls, destroyed?, hs]
    · rw [OnPlaybackFinished_last t player ha hn]
      by_cases hs : t.state = PlaybackStopped <;>
        simp [effectsSince, playCalls, played?, hs]
    · intro q hq
      rw [List.mem_singleton] at hq
      simp [held, ha, hq]
    · intro q _ hheld
      rw [OnPlaybackFinished_last t player ha hn] at hheld
      simp [held, hn] at hheld
    · intro q hq
      rw [OnPlaybackFinished_last t player ha hn] at hq
      simp [held, hn] at hq
    · rw [OnPlaybackFinished_last t player ha hn]
    · intro q hq; cases hq
  · refine safe_frame h hT ?_ ?_ ?_ ?_
    all_goals rw [OnPlaybackFinished_empty_idle t player hn ha]
    all_goals by_cases hs : t.state = PlaybackStopped <;>
      simp [effectsSince, destroyCalls, destroyed?, playCalls, played?, held, hs]
  · refine safe_retire player h hO hT ?_ ?_ ?_ ?_
    all_goals rw [OnPlaybackFinished_idle t player hn ha hp]
    · by_cases hm : player ∈ t.active <;> simp [effectsSince, destroyCalls, destroyed?, hm]
    · by_cases hm : player ∈ t.active <;> simp [effectsSince, playCalls, played?, hm]
    · rfl

theorem safe_step {t : GaplessTransport} (op : Op) (h : Safe t) : Safe (step op t) := by
  cases op with
  | Start url => exact safe_Start url h
  | PrepareNextTrack url => exact safe_PrepareNextTrack url h
  | Stop => exact safe_Stop h
  | Pause => exact safe_Pause h
  | Resume => exact safe_Resume h
  | GetPlaybackState => exact safe_GetPlaybackState h
  | Position => exact safe_Position _ h
  | SetPosition seconds => exact safe_SetPosition seconds h
  | IsMuted => exact h
  | SetMuted muted => exact safe_SetMuted muted h
  | Volume => exact h
  | SetVolume volume => exact safe_SetVolume volume h
  | OnPlaybackStarted player => exact safe_OnPlaybackStarted player h
  | OnPlaybackAlmostEnded player => exact safe_OnPlaybackAlmostEnded player h
  | OnPlaybackFinished player => exact safe_OnPlaybackFinished player h
  | OnPlaybackError player => exact safe_OnPlaybackError player h

theorem safe_run (ops : List Op) : ∀ {t : GaplessTransport}, Safe t → Safe (run ops t) := by
  induction ops with
  | nil => intro t h; exact h
  | cons op ops ih => intro t h; exact ih (safe_step op h)

theorem safe_init : Safe init := by
  refine ⟨owned_init, List.nodup_nil, ?_, ?_⟩
  · intro p hp
    cases hp
  · intro pre post p hsplit
    have hnil : ([] : List Effect) = pre ++ Effect.playerPlay p :: post := hsplit
    cases pre <;> cases hnil

/-- C19 — ownership invariant.  `Player::Create` numbering its handles, so that
each differs from every handle created before, every state reached from the
initial state by a sequence of public operations and listener callbacks (with
arbitrary player arguments) satisfies: the active set has no duplicate; the
pending next player is not a member of the active set; no player on which
`Destroy` has been called is in the active set or pending; `Destroy` has not
been called twice on the same player; and no `Play` call on a player comes
after a `Destroy` call on it. -/
theorem ownership_invariant (ops : List Op) :
    (run ops init).active.Nodup ∧
    (∀ n, (run ops init).nextPlayer = some n → n ∉ (run ops init).active) ∧
    (∀ p ∈ destroyCalls (run ops init).trace,
      p ∉ (run ops init).active ∧ (run ops init).nextPlayer ≠ some p) ∧
    (destroyCalls (run ops init).trace).Nodup ∧
    (∀ p, (destroyCalls (run ops init).trace).count p ≤ 1) ∧
    (∀ pre post p, (run ops init).trace = pre ++ Effect.playerPlay p :: post →
      p ∉ destroyCalls pre) := by
  obtain ⟨hO, hnd, hdes, hplay⟩ := safe_run ops safe_init
  refine ⟨owned_active_nodup hO, fun n hn => owned_pending_not_active hO hn, ?_, hnd,
    List.nodup_iff_count_le_one.mp hnd, hplay⟩
  intro p hp
  have hnot := (hdes p hp).1
  constructor
  · exact fun hmem => hnot (List.mem_append_right _ hmem)
  · intro hn
    apply hnot
    simp [held, hn]

/-- The sequence `Start("A")`, `OnPlaybackStarted(A)`, `PrepareNextTrack("B")`,
`OnPlaybackAlmostEnded(A)`, `OnPlaybackFinished(A)`, `PrepareNextTrack("C")`,
`OnPlaybackError(A)`, `Stop()`: `A`, `C` and `B` are destroyed, once each, `A`
and `B` were played before that, and nothing is held at the end. -/
theorem ownership_invariant_witness :
    destroyCalls (run [Op.Start "A", Op.OnPlaybackStarted playerA, Op.PrepareNextTrack "B",
      Op.OnPlaybackAlmostEnded playerA, Op.OnPlaybackFinished playerA,
      Op.PrepareNextTrack "C", Op.OnPlaybackError playerA, Op.Stop] init).trace =
      [playerA, playerC, playerB] ∧
    playCalls (run [Op.Start "A", Op.OnPlaybackStarted playerA, Op.PrepareNextTrack "B",
      Op.OnPlaybackAlmostEnded playerA, Op.OnPlaybackFinished playerA,
      Op.PrepareNextTrack "C", Op.OnPlaybackError playerA, Op.Stop] init).trace =
      [playerA, playerB] ∧
    (run [Op.Start "A", Op.OnPlaybackStarted playerA, Op.PrepareNextTrack "B",
      Op.OnPlaybackAlmostEnded playerA, Op.OnPlaybackFinished playerA,
      Op.PrepareNextTrack "C", Op.OnPlaybackError playerA, Op.Stop] init).held = [] ∧
    (destroyCalls (run [Op.Start "A", Op.OnPlaybackStarted playerA, Op.PrepareNextTrack "B",
      Op.OnPlaybackAlmostEnded playerA, Op.OnPlaybackFinished playerA,
      Op.PrepareNextTrack "C", Op.OnPlaybackError playerA, Op.Stop] init).trace).Nodup :=
  ⟨by decide, by decide, by decide,
    (ownership_invariant [Op.Start "A", Op.OnPlaybackStarted playerA, Op.PrepareNextTrack "B",
      Op.OnPlaybackAlmostEnded playerA, Op.OnPlaybackFinished playerA,
      Op.PrepareNextTrack "C", Op.OnPlaybackError playerA, Op.Stop]).2.2.2.1⟩

/-! ## The stored volume over the whole history -/

/-- Only `SetVolume` writes the stored volume. -/
theorem volume_step (op : Op) (t : GaplessTransport) :
    (step op t).volume = t.volume ∨
      ∃ v, op = Op.SetVolume v ∧ (step op t).volume = max 0 (min 1 v) := by
  cases op with
  | Start url =>
    left
    show ((t.PlayerCreate url).2.StartWithPlayer (some (t.PlayerCreate url).1)).volume = _
    rw [StartWithPlayer_eq]
    split <;> rfl
  | PrepareNextTrack url =>
    left
    show (t.PrepareNextTrack url).volume = _
    cases hg : t.nextCanStart with
    | false => rw [PrepareNextTrack_closed t url hg]
    | true => rw [PrepareNextTrack_open t url hg]
  | Stop =>
    left
    show t.Stop.volume = _
    rw [Stop_eq]
  | Pause =>
    left
    show t.Pause.2.volume = _
    rw [Pause_eq]
    split <;> rfl
  | Resume =>
    left
    show t.Resume.2.volume = _
    rw [Resume_eq]
    split <;> rfl
  | GetPlaybackState => exact Or.inl rfl
  | Position =>
    left
    show (t.Position _).2.volume = _
    rw [Position_eq]
    split <;> rfl
  | SetPosition seconds =>
    left
    show (t.SetPosition seconds).volume = _
    rw [SetPosition_eq]
    split <;> rfl
  | IsMuted => exact Or.inl rfl
  | SetMuted muted =>
    left
    show (t.SetMuted muted).volume = _
    rw [SetMuted_eq]
    split <;> rfl
  | Volume => exact Or.inl rfl
  | SetVolume volume =>
    right
    refine ⟨volume, rfl, ?_⟩
    show (t.SetVolume volume).volume = _
    rw [SetVolume_eq]
  | OnPlaybackStarted player =>
    left
    show (t.OnPlaybackStarted player).volume = _
    rw [OnPlaybackStarted_eq]
  | OnPlaybackAlmostEnded player =>
    left
    show (t.OnPlaybackAlmostEnded player).volume = _
    cases hn : t.nextPlayer with
    | none => rw [OnPlaybackAlmostEnded_idle t player hn]
    | some n => rw [OnPlaybackAlmostEnded_pending t n player hn]
  | OnPlaybackFinished player =>
    left
    show (t.OnPlaybackFinished player).volume = _
    rcases OnPlaybackFinished_cases t player with
      ⟨n, hn, hf⟩ | ⟨n, hn, hf, ha⟩ | ⟨n, hn, ha⟩ | ⟨hn, ha⟩ | ⟨hn, ha⟩ | ⟨hn, ha, hp⟩
    · rw [OnPlaybackFinished_front_pending t n player hn hf]
    · rw [OnPlaybackFinished_nonfront_pending t n player hn hf ha]
    · rw [OnPlaybackFinished_empty_pending t n player hn ha]
    · rw [OnPlaybackFinished_last t player ha hn]
    · rw [OnPlaybackFinished_empty_idle t player hn ha]
    · rw [OnPlaybackFinished_idle t player hn ha hp]
  | OnPlaybackError player =>
    left
    show (t.OnPlaybackError player).volume = _
    rw [OnPlaybackError_eq]

/-- In every state reached from the initial state the stored volume lies in
`[0, 1]`. -/
theorem Volume_in_range_reachable (ops : List Op) :
    0 ≤ (run ops init).Volume ∧ (run ops init).Volume ≤ 1 := by
  have key : ∀ (ops : List Op) (t : GaplessTransport),
      (0 ≤ t.volume ∧ t.volume ≤ 1) → 0 ≤ (run ops t).volume ∧ (run ops t).volume ≤ 1 := by
    intro ops
    induction ops with
    | nil => intro t h; exact h
    | cons op ops ih =>
      intro t h
      apply ih
      rcases volume_step op t with hv | ⟨v, _, hv⟩
      · rw [hv]; exact h
      · rw [hv]
        exact ⟨le_max_left _ _, max_le (by norm_num) (min_le_left _ _)⟩
  exact key ops init ⟨by norm_num [init], by norm_num [init]⟩

end GaplessTransport
